import Mathlib

/-!
NfcEasyWriter: a shallow embedding of `NfcEasyWriter.cpp` and `NfcEasyWriter.h`.

Target platform of the source is the M5Stack (ESP32): `int` and `size_t` are
32 bits wide, `uint16_t` operands are promoted to `int` before arithmetic, and an
assignment to a `uint16_t` (or a `uint16_t` parameter) reduces modulo `2^16`.
Bytes and 16-bit values are natural numbers here; every place where the source
narrows a value carries an explicit `% 65536` or `% 256`.

The MFRC522 reader (library `MFRC522_I2C`, not part of the repository) is a
parameter: a deterministic device over an arbitrary state type.  Every call the
code makes to it is recorded, with its answer, in a log.  The polling loop of
`waitCard` need not end (its time-out is 0 in `mountCard` by default), so it runs on
fuel and the members that call it return `none` when the fuel is used up.  The
unit loops always end; they run on `remain.toNat` units of fuel, which suffices.
-/

namespace NfcEasyWriter

/-! ## Declarations of `NfcEasyWriter.h` -/

/-- Card family, `enum CardType`. -/
inductive CardType where
  | UnknownCard
  | Classic
  | Ultralight
  deriving DecidableEq, Repr

/-- Capacity class of an Ultralight tag, `enum NtagType`. -/
inductive NtagType where
  | NT_UNKNOWN
  | NT_NTAG213
  | NT_NTAG215
  | NT_NTAG216
  deriving DecidableEq, Repr

/-- Protection mode, `enum ProtectMode : uint8_t`. -/
inductive ProtectMode where
  | PRT_AUTO
  | PRT_NOPASS_RW
  | PRT_NOPASS_RO
  | PRT_PASSWD_RW
  | PRT_PASSWD_RO
  deriving DecidableEq, Repr

open CardType NtagType ProtectMode

/-- Numeric value of a protection mode, the cast `(uint8_t) mode`. -/
def ProtectMode.toNat : ProtectMode → Nat
  | PRT_AUTO => 0
  | PRT_NOPASS_RW => 1
  | PRT_NOPASS_RO => 2
  | PRT_PASSWD_RW => 3
  | PRT_PASSWD_RO => 4

/-- Physical address, `struct PhyAddr` (three `uint16_t`). -/
structure PhyAddr where
  sector : Nat
  block : Nat
  blockAddr : Nat
  deriving DecidableEq, Repr

/-- Six-byte key, `struct AuthKey` / `MFRC522_I2C::MIFARE_Key`. -/
structure AuthKey where
  k0 : Nat
  k1 : Nat
  k2 : Nat
  k3 : Nat
  k4 : Nat
  k5 : Nat
  deriving DecidableEq, Repr

/-- The array `keyByte[6]` of a key. -/
def AuthKey.keyByte (k : AuthKey) : List Nat := [k.k0, k.k1, k.k2, k.k3, k.k4, k.k5]

/-- The initial value `{ 0xFF, 0xFF, 0xFF, 0xFF, 0xFF, 0xFF }` of the session keys. -/
def keyFF : AuthKey := ⟨0xFF, 0xFF, 0xFF, 0xFF, 0xFF, 0xFF⟩

/-- Configuration record of an Ultralight tag, `struct ULConfig`, 16 bytes. -/
structure ULConfig where
  MIRROR : Nat
  RFUI0 : Nat
  MIRROR_PAGGE : Nat
  AUTH0 : Nat
  ACCESS : Nat
  RFUI1 : Nat
  RFUI2 : Nat
  RFUI3 : Nat
  PWD4_0 : Nat
  PWD4_1 : Nat
  PWD4_2 : Nat
  PWD4_3 : Nat
  PACK_0 : Nat
  PACK_1 : Nat
  RFUI4 : Nat
  RFUI5 : Nat
  deriving DecidableEq, Repr

/-- The 16 bytes of a configuration record in memory order. -/
def ULConfig.bytes (c : ULConfig) : List Nat :=
  [c.MIRROR, c.RFUI0, c.MIRROR_PAGGE, c.AUTH0, c.ACCESS, c.RFUI1, c.RFUI2, c.RFUI3,
   c.PWD4_0, c.PWD4_1, c.PWD4_2, c.PWD4_3, c.PACK_0, c.PACK_1, c.RFUI4, c.RFUI5]

/-- The record held by 16 bytes, `memcpy(ulconf, data, sizeof(ULConfig))`. -/
def ULConfig.ofBytes (d : List Nat) : ULConfig :=
  { MIRROR := d.getD 0 0, RFUI0 := d.getD 1 0, MIRROR_PAGGE := d.getD 2 0, AUTH0 := d.getD 3 0,
    ACCESS := d.getD 4 0, RFUI1 := d.getD 5 0, RFUI2 := d.getD 6 0, RFUI3 := d.getD 7 0,
    PWD4_0 := d.getD 8 0, PWD4_1 := d.getD 9 0, PWD4_2 := d.getD 10 0, PWD4_3 := d.getD 11 0,
    PACK_0 := d.getD 12 0, PACK_1 := d.getD 13 0, RFUI4 := d.getD 14 0, RFUI5 := d.getD 15 0 }

/-- Data members of `class NfcEasyWriter` with their in-class initialisers. -/
structure Session where
  _minSectorCL : Nat := 1
  _maxSectorCL : Nat := 15
  _minPageUL : Nat := 5
  _maxPageUL : Nat := 39
  _configPageUL : Nat := 0
  _authKeyA : AuthKey := keyFF
  _authKeyB : AuthKey := keyFF
  _authKeyBDefault : AuthKey := keyFF
  _lastProtectMode : ProtectMode := PRT_NOPASS_RW
  _mounted : Bool := false
  _cardType : CardType := UnknownCard
  _ntagType : NtagType := NT_UNKNOWN
  deriving DecidableEq, Repr

/-- Constant `const uint16_t _writeLengthCL = 16`. -/
def _writeLengthCL : Nat := 16

/-- Constant `const uint16_t _writeLengthUL = 4`. -/
def _writeLengthUL : Nat := 4

/-- Constant `const uint16_t _readLength = 16`. -/
def _readLength : Nat := 16

/-! ## Pure members of `NfcEasyWriter.cpp` -/

/-- Member `NfcEasyWriter::isMounted`. -/
def isMounted (s : Session) : Bool := s._mounted

/-- Member `NfcEasyWriter::isClassic`. -/
def isClassic (s : Session) : Bool :=
  if !s._mounted then false else decide (s._cardType = Classic)

/-- Member `NfcEasyWriter::isUltralight`. -/
def isUltralight (s : Session) : Bool :=
  if !s._mounted then false else decide (s._cardType = Ultralight)

/-- Member `NfcEasyWriter::getMaxPageUL`. -/
def getMaxPageUL : NtagType → Nat
  | NT_NTAG213 => 39
  | NT_NTAG215 => 129
  | NT_NTAG216 => 225
  | NT_UNKNOWN => 0

/-- Member `NfcEasyWriter::getConfigPageUL`. -/
def getConfigPageUL : NtagType → Nat
  | NT_NTAG213 => 41
  | NT_NTAG215 => 131
  | NT_NTAG216 => 227
  | NT_UNKNOWN => 0

/-- Conversion of an `int` to `uint16_t`. -/
def toU16 (x : Int) : Nat := (x % 65536).toNat

/-- Member `NfcEasyWriter::getVCapacities`: the product is formed in `int` and stored in a
`uint16_t`. -/
def getVCapacities (s : Session) : Nat :=
  if isClassic s then
    toU16 (((s._maxSectorCL : Int) - s._minSectorCL + 1) * 16 * 3)
  else if isUltralight s then
    toU16 (((s._maxPageUL : Int) - s._minPageUL + 1) * 4)
  else 0

/-- Member `NfcEasyWriter::addr2PhysicalAddr`.  `vaddr` is the `uint16_t` argument.  The
members the source leaves unassigned (all three for `UnknownCard`, `sector` and
`block` for `Ultralight`) are indeterminate in C++; they are 0 here and no caller
reads them. -/
def addr2PhysicalAddr (s : Session) (vaddr : Nat) (cardtype : CardType) : PhyAddr :=
  match cardtype with
  | Classic =>
    let sector0 := (vaddr / (3 * _writeLengthCL)) % 65536
    let block := toU16 (Int.tdiv ((vaddr : Int) - sector0 * (3 * _writeLengthCL)) _writeLengthCL)
    let sector := (sector0 + s._minSectorCL) % 65536
    { sector := sector, block := block, blockAddr := (sector * 4 + block) % 65536 }
  | Ultralight =>
    let blockAddr := (vaddr / _writeLengthUL + s._minPageUL) % 65536
    { sector := 0, block := 0, blockAddr := if blockAddr > 255 then 255 else blockAddr }
  | UnknownCard => { sector := 0, block := 0, blockAddr := 0 }

/-! ## The reader and its call log -/

/-- Authentication command passed to `PCD_Authenticate`:
`PICC_CMD_MF_AUTH_KEY_A` or `PICC_CMD_MF_AUTH_KEY_B`. -/
inductive AuthCmd where
  | PICC_CMD_MF_AUTH_KEY_A
  | PICC_CMD_MF_AUTH_KEY_B
  deriving DecidableEq, Repr

/-- Tag type reported by `PICC_GetType(uid.sak)`, as far as `checkCardType`
distinguishes it. -/
inductive PiccType where
  | PICC_TYPE_MIFARE_1K
  | PICC_TYPE_MIFARE_4K
  | PICC_TYPE_MIFARE_UL
  | PICC_TYPE_OTHER
  deriving DecidableEq, Repr

open AuthCmd PiccType

/-- One call to the reader together with its answer (`ok` stands for
`STATUS_OK`, a received frame is `some bytes`). -/
inductive Event where
  | init
  | isNewCardPresent (ok : Bool)
  | readCardSerial (ok : Bool)
  | getType (t : PiccType)
  | authenticate (cmd : AuthCmd) (blockAddr : Nat) (key : AuthKey) (ok : Bool)
  | read (blockAddr : Nat) (resp : Option (List Nat))
  | write (blockAddr : Nat) (buffer : List Nat) (ok : Bool)
  | ulWrite (page : Nat) (buffer : List Nat) (ok : Bool)
  | calculateCRC (data : List Nat) (resp : Option (Nat × Nat))
  | transceive (data : List Nat) (resp : Option (List Nat))
  | stopCrypto1
  | haltA
  deriving DecidableEq, Repr

/-- The reader object `mfrc522` and the Arduino clock, over a device state `σ`.
A block or page address is the `byte` the library function receives. -/
structure MFRC522 (σ : Type) where
  PCD_Init_without_resetpin : σ → σ
  PICC_IsNewCardPresent : σ → Bool × σ
  PICC_ReadCardSerial : σ → Bool × σ
  PICC_GetType : σ → PiccType
  PCD_Authenticate : AuthCmd → Nat → AuthKey → σ → Bool × σ
  MIFARE_Read : Nat → σ → Option (List Nat) × σ
  MIFARE_Write : Nat → List Nat → σ → Bool × σ
  MIFARE_Ultralight_Write : Nat → List Nat → σ → Bool × σ
  PCD_CalculateCRC : List Nat → σ → Option (Nat × Nat) × σ
  PCD_TransceiveData : List Nat → σ → Option (List Nat) × σ
  PCD_StopCrypto1 : σ → σ
  PICC_HaltA : σ → σ
  MIFARE_SetAccessBits : Nat → Nat → Nat → Nat → Nat × Nat × Nat
  millis : σ → Nat × σ
  delay : Nat → σ → σ

/-- Device state together with the log of the calls made so far. -/
structure World (σ : Type) where
  dev : σ
  log : List Event

section Calls
variable {σ : Type} (T : MFRC522 σ)

/-- Call of `mfrc522.PCD_Init_without_resetpin()`. -/
def callInit (w : World σ) : World σ :=
  ⟨T.PCD_Init_without_resetpin w.dev, w.log ++ [Event.init]⟩

/-- Call of `mfrc522.PICC_IsNewCardPresent()`. -/
def callIsNewCardPresent (w : World σ) : Bool × World σ :=
  let r := T.PICC_IsNewCardPresent w.dev
  (r.1, ⟨r.2, w.log ++ [Event.isNewCardPresent r.1]⟩)

/-- Call of `mfrc522.PICC_ReadCardSerial()`. -/
def callReadCardSerial (w : World σ) : Bool × World σ :=
  let r := T.PICC_ReadCardSerial w.dev
  (r.1, ⟨r.2, w.log ++ [Event.readCardSerial r.1]⟩)

/-- Call of `mfrc522.PICC_GetType(mfrc522.uid.sak)`. -/
def callGetType (w : World σ) : PiccType × World σ :=
  let t := T.PICC_GetType w.dev
  (t, ⟨w.dev, w.log ++ [Event.getType t]⟩)

/-- Call of `mfrc522.PCD_Authenticate(cmd, blockAddr, &key, &uid) == STATUS_OK`.  The
library declares `byte blockAddr`: the `uint16_t` the code passes is narrowed to its
low 8 bits. -/
def callAuthenticate (cmd : AuthCmd) (blockAddr : Nat) (key : AuthKey) (w : World σ) :
    Bool × World σ :=
  let r := T.PCD_Authenticate cmd (blockAddr % 256) key w.dev
  (r.1, ⟨r.2, w.log ++ [Event.authenticate cmd (blockAddr % 256) key r.1]⟩)

/-- Call of `mfrc522.MIFARE_Read(blockAddr, buffer, &bufferSize)`; `some bytes` is
`STATUS_OK` with the received bytes in `buffer`.  The library declares
`byte blockAddr`: the address passed is narrowed to its low 8 bits. -/
def callRead (blockAddr : Nat) (w : World σ) : Option (List Nat) × World σ :=
  let r := T.MIFARE_Read (blockAddr % 256) w.dev
  (r.1, ⟨r.2, w.log ++ [Event.read (blockAddr % 256) r.1]⟩)

/-- Call of `mfrc522.MIFARE_Write(blockAddr, buffer, 16) == STATUS_OK`.  The library
declares `byte blockAddr`: the `uint16_t` the code passes is narrowed to its low 8
bits. -/
def callWrite (blockAddr : Nat) (buffer : List Nat) (w : World σ) : Bool × World σ :=
  let r := T.MIFARE_Write (blockAddr % 256) buffer w.dev
  (r.1, ⟨r.2, w.log ++ [Event.write (blockAddr % 256) buffer r.1]⟩)

/-- Call of `mfrc522.MIFARE_Ultralight_Write(page, buffer, 4) == STATUS_OK`.  The
library declares `byte page`: the address passed is narrowed to its low 8 bits. -/
def callUlWrite (page : Nat) (buffer : List Nat) (w : World σ) : Bool × World σ :=
  let r := T.MIFARE_Ultralight_Write (page % 256) buffer w.dev
  (r.1, ⟨r.2, w.log ++ [Event.ulWrite (page % 256) buffer r.1]⟩)

/-- Call of `PCD_CalculateCRC(data, length, result)`; `some` is `STATUS_OK`. -/
def callCalculateCRC (data : List Nat) (w : World σ) : Option (Nat × Nat) × World σ :=
  let r := T.PCD_CalculateCRC data w.dev
  (r.1, ⟨r.2, w.log ++ [Event.calculateCRC data r.1]⟩)

/-- Call of `PCD_TransceiveData(command, 7, pack, packLen, NULL, 0, true)`; `some` is
`STATUS_OK` with the received bytes. -/
def callTransceive (data : List Nat) (w : World σ) : Option (List Nat) × World σ :=
  let r := T.PCD_TransceiveData data w.dev
  (r.1, ⟨r.2, w.log ++ [Event.transceive data r.1]⟩)

/-- Call of `mfrc522.PCD_StopCrypto1()`. -/
def callStopCrypto1 (w : World σ) : World σ :=
  ⟨T.PCD_StopCrypto1 w.dev, w.log ++ [Event.stopCrypto1]⟩

/-- Call of `mfrc522.PICC_HaltA()`. -/
def callHaltA (w : World σ) : World σ :=
  ⟨T.PICC_HaltA w.dev, w.log ++ [Event.haltA]⟩

/-- Call of `millis()`: time is read from the device state and is not logged. -/
def callMillis (w : World σ) : Nat × World σ :=
  let r := T.millis w.dev
  (r.1, ⟨r.2, w.log⟩)

/-- Call of `delay(ms)`: time passes in the device state, nothing is logged. -/
def callDelay (ms : Nat) (w : World σ) : World σ :=
  ⟨T.delay ms w.dev, w.log⟩

/-! ## Members that talk to the reader -/

/-- Loop of `NfcEasyWriter::waitCard`, one iteration per unit of `fuel`; `none` when
the fuel is used up before the loop is left.  `tm` is the deadline. -/
def waitCardLoop (timeout tm : Nat) : Nat → World σ → Option (Bool × World σ)
  | 0, _ => none
  | fuel + 1, w =>
    let p := callIsNewCardPresent T w
    let q := if p.1 then callReadCardSerial T p.2 else (false, p.2)
    if q.1 then some (true, q.2)
    else
      let t := if timeout > 0 then
          (let m := callMillis T q.2
           (decide (tm < m.1), m.2))
        else (false, q.2)
      if t.1 then some (false, t.2)
      else waitCardLoop timeout tm fuel (callDelay T 100 t.2)

/-- Member `NfcEasyWriter::waitCard`; `tm` is a `uint32_t`. -/
def waitCard (timeout fuel : Nat) (w : World σ) : Option (Bool × World σ) :=
  let m := callMillis T w
  waitCardLoop T timeout ((m.1 + timeout) % 4294967296) fuel m.2

/-- Member `MFRC522_I2C_Extend::MIFARE_Ultralight_Authenticate`: the `PWD_AUTH`
command `0x1B`, the password, then the two CRC bytes; `some pack` is `STATUS_OK`
with the received bytes. -/
def MIFARE_Ultralight_Authenticate (password : List Nat) (passwordLen packLen : Nat)
    (w : World σ) : Option (List Nat) × World σ :=
  if passwordLen ≠ 4 ∨ packLen ≠ 4 then (none, w)
  else
    let command := 0x1B :: (List.range 4).map (fun i => password.getD i 0)
    let c := callCalculateCRC T command w
    match c.1 with
    | none => (none, c.2)
    | some crc => callTransceive T (command ++ [crc.1, crc.2]) c.2

/-- Member `NfcEasyWriter::authUL`.  A byte of `pack` the reader did not fill reads
as 0. -/
def authUL (s : Session) (checkPack : Bool) (w : World σ) : Bool × World σ :=
  let password := s._authKeyB.keyByte.take 4
  let r := MIFARE_Ultralight_Authenticate T password 4 4 w
  match r.1 with
  | none => (false, r.2)
  | some pack =>
    if checkPack then
      (decide (pack.getD 0 0 = s._authKeyB.k4) && decide (pack.getD 1 0 = s._authKeyB.k5), r.2)
    else (true, r.2)

/-- Member `NfcEasyWriter::rawReadUL` with a 16-byte destination: `some data` is the
return value `true` with the 16 bytes copied out of the receive buffer. -/
def rawReadUL (page : Nat) (w : World σ) : Option (List Nat) × World σ :=
  let r := callRead T (page % 256) w
  match r.1 with
  | none => (none, r.2)
  | some buff => (some ((List.range 16).map (fun i => buff.getD i 0)), r.2)

/-- Member `NfcEasyWriter::rawWriteUL` with a 4-byte source; `page` is a `uint8_t`. -/
def rawWriteUL (data : List Nat) (page : Nat) (w : World σ) : Bool × World σ :=
  callUlWrite T (page % 256) data w

/-- Conversion of a `size_t` to `int` (`int remain = dataSize`). -/
def toInt32 (n : Nat) : Int :=
  if n % 4294967296 < 2147483648 then ((n % 4294967296 : Nat) : Int)
  else ((n % 4294967296 : Nat) : Int) - 4294967296

/-- The call `memcpy(dst + off, src, n)` on a destination array `dst`; a source
byte outside `src` reads as 0. -/
def memcpy (dst : List Nat) (off : Nat) (src : List Nat) (n : Nat) : List Nat :=
  dst.take off ++ (List.range n).map (fun i => src.getD i 0) ++ dst.drop (off + n)

/-- The unit buffer of the write loops: `unit` zero bytes, then
`memcpy(buffer, data + index, cplen)`. -/
def unitBuffer (unit : Nat) (data : List Nat) (index cplen : Nat) : List Nat :=
  (List.range unit).map (fun i => if i < cplen then data.getD (index + i) 0 else 0)

/-- How a unit loop is left: by a `return v` inside the body, or by `break` or its
condition with the flag `abort`. -/
inductive LoopExit where
  | ret (v : Bool)
  | fin (abort : Bool)
  deriving DecidableEq, Repr

/-- The `while (remain > 0)` loop of `readDataCL`.  `data` is the caller's buffer.
The result is the flag `abort`, the buffer and the world when the loop is left.
`fuel` bounds the iterations; `remain.toNat` suffices since `cplen > 0`. -/
def readLoopCL (s : Session) (vaddr : Nat) (protect : Bool) :
    Nat → Int → Nat → List Nat → World σ → Bool × List Nat × World σ
  | 0, _, _, data, w => (false, data, w)
  | fuel + 1, remain, index, data, w =>
    if remain > 0 then
      let pa := addr2PhysicalAddr s ((vaddr + index) % 65536) Classic
      let usekey := if protect then PICC_CMD_MF_AUTH_KEY_B else PICC_CMD_MF_AUTH_KEY_A
      let keyRead := if protect then s._authKeyB else s._authKeyA
      let a := callAuthenticate T usekey pa.blockAddr keyRead w
      if a.1 then
        let r := callRead T pa.blockAddr a.2
        match r.1 with
        | some buffer =>
          let cplen := if remain - _readLength < 0 then remain.toNat else _readLength
          readLoopCL s vaddr protect fuel (remain - cplen) (index + cplen)
            (memcpy data index buffer cplen) r.2
        | none => (true, data, r.2)
      else (true, data, a.2)
    else (false, data, w)

/-- Member `NfcEasyWriter::readDataCL`; `data` is the caller's buffer of `dataSize`
bytes.  The result is the return value, the buffer afterwards and the world. -/
def readDataCL (fuel : Nat) (s : Session) (vaddr : Nat) (data : List Nat) (mode : ProtectMode)
    (w : World σ) : Option (Bool × List Nat × World σ) :=
  if !isClassic s then some (false, data, w)
  else
    let mode := if mode = PRT_AUTO then s._lastProtectMode else mode
    if vaddr % _writeLengthCL ≠ 0 then some (false, data, w)
    else
      match waitCard T 5000 fuel w with
      | none => none
      | some (false, w1) => some (false, data, w1)
      | some (true, w1) =>
        let remain := toInt32 data.length
        let protect := decide (mode = PRT_PASSWD_RW) || decide (mode = PRT_PASSWD_RO)
        let l := readLoopCL T s vaddr protect remain.toNat remain 0 data w1
        let w2 := callStopCrypto1 T l.2.2
        if l.1 then some (false, l.2.1, w2) else some (true, l.2.1, w2)

/-- The `while (remain > 0)` loop of `readDataUL`. -/
def readLoopUL (s : Session) (vaddr : Nat) :
    Nat → Int → Nat → List Nat → World σ → Bool × List Nat × World σ
  | 0, _, _, data, w => (false, data, w)
  | fuel + 1, remain, index, data, w =>
    if remain > 0 then
      let pa := addr2PhysicalAddr s ((vaddr + index) % 65536) Ultralight
      let r := callRead T pa.blockAddr w
      match r.1 with
      | some buffer =>
        let cplen := if remain - _readLength < 0 then remain.toNat else _readLength
        readLoopUL s vaddr fuel (remain - cplen) (index + cplen)
          (memcpy data index buffer cplen) r.2
      | none => (true, data, r.2)
    else (false, data, w)

/-- Member `NfcEasyWriter::readDataUL`. -/
def readDataUL (fuel : Nat) (s : Session) (vaddr : Nat) (data : List Nat) (mode : ProtectMode)
    (w : World σ) : Option (Bool × List Nat × World σ) :=
  if !isUltralight s then some (false, data, w)
  else
    let mode := if mode = PRT_AUTO then s._lastProtectMode else mode
    if vaddr % _writeLengthUL ≠ 0 then some (false, data, w)
    else
      match waitCard T 5000 fuel w with
      | none => none
      | some (false, w1) => some (false, data, w1)
      | some (true, w1) =>
        let remain := toInt32 data.length
        let a := if mode = PRT_PASSWD_RW ∨ mode = PRT_PASSWD_RO then authUL T s true w1
          else (true, w1)
        if !a.1 then some (false, data, a.2)
        else
          let l := readLoopUL T s vaddr remain.toNat remain 0 data a.2
          if l.1 then some (false, l.2.1, l.2.2) else some (true, l.2.1, l.2.2)

/-- Member `NfcEasyWriter::readData`. -/
def readData (fuel : Nat) (s : Session) (vaddr : Nat) (data : List Nat) (mode : ProtectMode)
    (w : World σ) : Option (Bool × List Nat × World σ) :=
  if !isMounted s then some (false, data, w)
  else
    let mode := if mode = PRT_AUTO then s._lastProtectMode else mode
    match s._cardType with
    | Classic => readDataCL T fuel s vaddr data mode w
    | Ultralight => readDataUL T fuel s vaddr data mode w
    | UnknownCard => some (false, data, w)

/-- The `while (remain > 0)` loop of `writeDataCL`. -/
def writeLoopCL (s : Session) (vaddr : Nat) (data : List Nat) (protect : Bool) :
    Nat → Int → Nat → World σ → LoopExit × World σ
  | 0, _, _, w => (LoopExit.fin false, w)
  | fuel + 1, remain, index, w =>
    if remain > 0 then
      let cplen := if remain - _writeLengthCL < 0 then remain.toNat else _writeLengthCL
      let buffer := unitBuffer _writeLengthCL data index cplen
      let pa := addr2PhysicalAddr s ((vaddr + index) % 65536) Classic
      if pa.sector > s._maxSectorCL then (LoopExit.ret false, w)
      else if pa.sector < s._minSectorCL then (LoopExit.ret false, w)
      else if pa.block ≥ 3 then (LoopExit.ret false, w)
      else
        let usekey := if protect then PICC_CMD_MF_AUTH_KEY_B else PICC_CMD_MF_AUTH_KEY_A
        let keyWrite := if protect then s._authKeyB else s._authKeyA
        let a := callAuthenticate T usekey pa.blockAddr keyWrite w
        if a.1 then
          let b := callWrite T pa.blockAddr buffer a.2
          if b.1 then writeLoopCL s vaddr data protect fuel (remain - cplen) (index + cplen) b.2
          else (LoopExit.fin true, b.2)
        else (LoopExit.fin true, a.2)
    else (LoopExit.fin false, w)

/-- Member `NfcEasyWriter::writeDataCL`; `data` holds the `dataSize` bytes to write. -/
def writeDataCL (fuel : Nat) (s : Session) (vaddr : Nat) (data : List Nat) (mode : ProtectMode)
    (w : World σ) : Option (Bool × World σ) :=
  if !isClassic s then some (false, w)
  else
    let mode := if mode = PRT_AUTO then s._lastProtectMode else mode
    if vaddr % _writeLengthCL ≠ 0 then some (false, w)
    else
      match waitCard T 5000 fuel w with
      | none => none
      | some (false, w1) => some (false, w1)
      | some (true, w1) =>
        let remain := toInt32 data.length
        let protect := decide (mode = PRT_PASSWD_RW) || decide (mode = PRT_PASSWD_RO)
        match writeLoopCL T s vaddr data protect remain.toNat remain 0 w1 with
        | (LoopExit.ret v, w2) => some (v, w2)
        | (LoopExit.fin abort, w2) =>
          let w3 := callStopCrypto1 T w2
          if abort then some (false, w3) else some (true, w3)

/-- The `while (remain > 0)` loop of `writeDataUL`; every exit but the loop
condition is a `return false`. -/
def writeLoopUL (s : Session) (vaddr : Nat) (data : List Nat) :
    Nat → Int → Nat → World σ → LoopExit × World σ
  | 0, _, _, w => (LoopExit.fin false, w)
  | fuel + 1, remain, index, w =>
    if remain > 0 then
      let cplen := if remain - _writeLengthUL < 0 then remain.toNat else _writeLengthUL
      let buffer := unitBuffer _writeLengthUL data index cplen
      let pa := addr2PhysicalAddr s ((vaddr + index) % 65536) Ultralight
      if pa.blockAddr > s._maxPageUL then (LoopExit.ret false, w)
      else if pa.blockAddr < s._minPageUL then (LoopExit.ret false, w)
      else
        let b := callUlWrite T pa.blockAddr buffer w
        if b.1 then writeLoopUL s vaddr data fuel (remain - cplen) (index + cplen) b.2
        else (LoopExit.ret false, b.2)
    else (LoopExit.fin false, w)

/-- Member `NfcEasyWriter::writeDataUL`. -/
def writeDataUL (fuel : Nat) (s : Session) (vaddr : Nat) (data : List Nat) (mode : ProtectMode)
    (w : World σ) : Option (Bool × World σ) :=
  if !isUltralight s then some (false, w)
  else
    let mode := if mode = PRT_AUTO then s._lastProtectMode else mode
    if vaddr % _writeLengthUL ≠ 0 then some (false, w)
    else
      match waitCard T 5000 fuel w with
      | none => none
      | some (false, w1) => some (false, w1)
      | some (true, w1) =>
        let remain := toInt32 data.length
        let a := if mode = PRT_PASSWD_RW ∨ mode = PRT_PASSWD_RO then authUL T s true w1
          else (true, w1)
        if !a.1 then some (false, a.2)
        else
          match writeLoopUL T s vaddr data remain.toNat remain 0 a.2 with
          | (LoopExit.ret v, w2) => some (v, w2)
          | (LoopExit.fin _, w2) => some (true, w2)

/-- Member `NfcEasyWriter::writeData`. -/
def writeData (fuel : Nat) (s : Session) (vaddr : Nat) (data : List Nat) (mode : ProtectMode)
    (w : World σ) : Option (Bool × World σ) :=
  if !isMounted s then some (false, w)
  else
    let mode := if mode = PRT_AUTO then s._lastProtectMode else mode
    match s._cardType with
    | Classic => writeDataCL T fuel s vaddr data mode w
    | Ultralight => writeDataUL T fuel s vaddr data mode w
    | UnknownCard => some (false, w)

/-- Member `NfcEasyWriter::setNowProtectMode`. -/
def setNowProtectMode (s : Session) (mode : ProtectMode) : Session :=
  { s with _lastProtectMode := mode }

/-- The access-bit selection of `writeProtectCL`: the pair `(dataBit, accBit)` of a
target mode, `none` on the branch that returns `false`. -/
def accessBitsCL : ProtectMode → Option (Nat × Nat)
  | PRT_NOPASS_RW => some (0b000, 0b001)
  | PRT_NOPASS_RO => some (0b010, 0b001)
  | PRT_PASSWD_RW => some (0b011, 0b011)
  | PRT_PASSWD_RO => some (0b101, 0b011)
  | PRT_AUTO => none

/-- The 16-byte `buffer` that `writeProtectCL` builds for the sector trailer. -/
def trailerBufferCL (s : Session) (mode : ProtectMode) (key : Option AuthKey)
    (dataBit accBit : Nat) : List Nat :=
  let accessCondition := T.MIFARE_SetAccessBits dataBit dataBit dataBit accBit
  s._authKeyA.keyByte
    ++ [accessCondition.1, accessCondition.2.1, accessCondition.2.2]
    ++ [mode.toNat % 256]
    ++ (match key with
        | some k => k.keyByte
        | none => s._authKeyBDefault.keyByte)

/-- The `while (remain > 0)` loop of `writeProtectCL` over the sectors; the result
is the flag `abort`. -/
def protectLoopCL (s : Session) (vaddr : Nat) (buffer : List Nat) (bfProt : Bool) :
    Nat → Int → Nat → World σ → Bool × World σ
  | 0, _, _, w => (false, w)
  | fuel + 1, remain, index, w =>
    if remain > 0 then
      let pa := addr2PhysicalAddr s ((vaddr + index) % 65536) Classic
      let blockAddr := (pa.sector * 4 + 3) % 65536
      let usekey := if bfProt then PICC_CMD_MF_AUTH_KEY_B else PICC_CMD_MF_AUTH_KEY_A
      let keyWrite := if bfProt then s._authKeyB else s._authKeyA
      let a := callAuthenticate T usekey blockAddr keyWrite w
      if a.1 then
        let b := callWrite T blockAddr buffer a.2
        if b.1 then protectLoopCL s vaddr buffer bfProt fuel (remain - 48) (index + 48) b.2
        else (true, b.2)
      else (true, a.2)
    else (false, w)

/-- Member `NfcEasyWriter::writeProtectCL`; `size` is an `int`, a null `key` is
`none`.  The result is the return value, the session and the world. -/
def writeProtectCL (fuel : Nat) (s : Session) (mode : ProtectMode) (key : Option AuthKey)
    (vaddr : Nat) (size : Int) (lastmode : ProtectMode) (w : World σ) :
    Option (Bool × Session × World σ) :=
  if !isClassic s then some (false, s, w)
  else
    let lastmode := if lastmode = PRT_AUTO then s._lastProtectMode else lastmode
    if vaddr % 48 ≠ 0 then some (false, s, w)
    else
      match waitCard T 5000 fuel w with
      | none => none
      | some (false, w1) => some (false, s, w1)
      | some (true, w1) =>
        let bfProt := decide (lastmode = PRT_PASSWD_RW) || decide (lastmode = PRT_PASSWD_RO)
        match accessBitsCL mode with
        | none => some (false, s, w1)
        | some (dataBit, accBit) =>
          let buffer := trailerBufferCL T s mode key dataBit accBit
          let l := protectLoopCL T s vaddr buffer bfProt size.toNat size 0 w1
          let w2 := callStopCrypto1 T l.2
          if !l.1 then some (true, { s with _lastProtectMode := mode }, w2)
          else some (false, s, w2)

/-- Member `NfcEasyWriter::readConfigDataUL(ULConfig*, ProtectMode)`; `some c` is the
return value `true` with the record read. -/
def readConfigDataUL (fuel : Nat) (s : Session) (mode : ProtectMode) (w : World σ) :
    Option (Option ULConfig × World σ) :=
  let mode := if mode = PRT_AUTO then s._lastProtectMode else mode
  if s._configPageUL = 0 then some (none, w)
  else
    match waitCard T 5000 fuel w with
    | none => none
    | some (false, w1) => some (none, w1)
    | some (true, w1) =>
      let a := if mode = PRT_PASSWD_RW ∨ mode = PRT_PASSWD_RO then authUL T s true w1
        else (true, w1)
      if !a.1 then some (none, a.2)
      else
        let r := rawReadUL T s._configPageUL a.2
        match r.1 with
        | some data => some (some (ULConfig.ofBytes data), r.2)
        | none => some (none, r.2)

/-- The `for (idx = 0; idx < 16; idx += 4)` loop of `writeConfigDataUL`, from `idx`
on, `n` pages to go; `false` as soon as a page write is refused. -/
def writeConfigLoopUL (s : Session) (bytes : List Nat) : Nat → Nat → World σ → Bool × World σ
  | 0, _, w => (true, w)
  | n + 1, idx, w =>
    let page := (s._configPageUL + idx / 4) % 256
    let data := (List.range 4).map (fun i => bytes.getD (idx + i) 0)
    let r := rawWriteUL T data page w
    if r.1 then writeConfigLoopUL s bytes n (idx + 4) r.2
    else (false, r.2)

/-- Member `NfcEasyWriter::writeConfigDataUL`. -/
def writeConfigDataUL (fuel : Nat) (s : Session) (ulconf : ULConfig) (mode : ProtectMode)
    (w : World σ) : Option (Bool × World σ) :=
  let mode := if mode = PRT_AUTO then s._lastProtectMode else mode
  if s._configPageUL ≤ 3 then some (false, w)
  else
    match waitCard T 5000 fuel w with
    | none => none
    | some (false, w1) => some (false, w1)
    | some (true, w1) =>
      let a := if mode = PRT_PASSWD_RW ∨ mode = PRT_PASSWD_RO then authUL T s true w1
        else (true, w1)
      if !a.1 then some (false, a.2)
      else some (writeConfigLoopUL T s ulconf.bytes 4 0 a.2)

/-- The record `writeProtectUL` writes back: `ACCESS`, `AUTH0`, `PWD4` and `PACK` of
the record read are replaced, `blockAddr` being `pa.blockAddr`. -/
def protectConfigUL (s : Session) (ulconf : ULConfig) (mode : ProtectMode)
    (key : Option AuthKey) (blockAddr : Nat) : ULConfig :=
  let afProt := decide (mode = PRT_PASSWD_RW) || decide (mode = PRT_PASSWD_RO)
  let aReado := decide (mode = PRT_NOPASS_RO) || decide (mode = PRT_PASSWD_RO)
  let k := match key with
    | some k => k
    | none => s._authKeyBDefault
  { ulconf with
    ACCESS := ((ulconf.ACCESS &&& 0x7F) ||| ((if aReado then 0 else 1) <<< 7)) % 256
    AUTH0 := (if afProt then blockAddr else 0xFF) % 256
    PWD4_0 := k.k0, PWD4_1 := k.k1, PWD4_2 := k.k2, PWD4_3 := k.k3
    PACK_0 := k.k4, PACK_1 := k.k5 }

/-- Member `NfcEasyWriter::writeProtectUL`. -/
def writeProtectUL (fuel : Nat) (s : Session) (mode : ProtectMode) (key : Option AuthKey)
    (vaddr : Nat) (phyaddr : Bool) (lastmode : ProtectMode) (w : World σ) :
    Option (Bool × Session × World σ) :=
  if !isUltralight s then some (false, s, w)
  else
    let lastmode := if lastmode = PRT_AUTO then s._lastProtectMode else lastmode
    if vaddr % 4 ≠ 0 ∧ phyaddr = false then some (false, s, w)
    else
      match waitCard T 5000 fuel w with
      | none => none
      | some (false, w1) => some (false, s, w1)
      | some (true, w1) =>
        if mode = PRT_NOPASS_RO then some (false, s, w1)
        else
          let blockAddr := if phyaddr then vaddr else (addr2PhysicalAddr s vaddr Ultralight).blockAddr
          match readConfigDataUL T fuel s lastmode w1 with
          | none => none
          | some (none, w2) => some (false, s, w2)
          | some (some ulconf, w2) =>
            match writeConfigDataUL T fuel s (protectConfigUL s ulconf mode key blockAddr)
                lastmode w2 with
            | none => none
            | some (true, w3) => some (true, { s with _lastProtectMode := mode }, w3)
            | some (false, w3) => some (false, s, w3)

/-- Member `NfcEasyWriter::writeProtect`. -/
def writeProtect (fuel : Nat) (s : Session) (mode : ProtectMode) (key : Option AuthKey)
    (vaddr : Nat) (size : Int) (lastmode : ProtectMode) (w : World σ) :
    Option (Bool × Session × World σ) :=
  if !isMounted s then some (false, s, w)
  else
    let lastmode := if lastmode = PRT_AUTO then s._lastProtectMode else lastmode
    match s._cardType with
    | Classic => writeProtectCL T fuel s mode key vaddr size lastmode w
    | Ultralight => writeProtectUL T fuel s mode key vaddr false lastmode w
    | UnknownCard => some (false, s, w)

/-- Member `NfcEasyWriter::unmountCard`. -/
def unmountCard (s : Session) (w : World σ) : Session × World σ :=
  let w1 := callHaltA T w
  ({ s with _lastProtectMode := PRT_NOPASS_RW, _cardType := UnknownCard,
            _ntagType := NT_UNKNOWN, _mounted := false },
   callDelay T 50 w1)

/-- Member `NfcEasyWriter::checkCardType`. -/
def checkCardType (w : World σ) : CardType × World σ :=
  let t := callGetType T w
  if t.1 = PICC_TYPE_MIFARE_1K ∨ t.1 = PICC_TYPE_MIFARE_4K then (Classic, t.2)
  else if t.1 = PICC_TYPE_MIFARE_UL then (Ultralight, t.2)
  else (UnknownCard, t.2)

/-- Member `NfcEasyWriter::getNtagTypeUL`. -/
def getNtagTypeUL (fuel : Nat) (s : Session) (mode : ProtectMode) (w : World σ) :
    Option (NtagType × World σ) :=
  let mode := if mode = PRT_AUTO then s._lastProtectMode else mode
  match waitCard T 5000 fuel w with
  | none => none
  | some (false, w1) => some (NT_UNKNOWN, w1)
  | some (true, w1) =>
    let a := if mode = PRT_PASSWD_RW ∨ mode = PRT_PASSWD_RO then authUL T s true w1
      else (true, w1)
    if !a.1 then some (NT_UNKNOWN, a.2)
    else
      let r := rawReadUL T 0 a.2
      match r.1 with
      | some data =>
        if data.getD (3 * 4) 0 = 0xE1 then
          (if data.getD (3 * 4 + 2) 0 = 0x12 then some (NT_NTAG213, r.2)
           else if data.getD (3 * 4 + 2) 0 = 0x3E then some (NT_NTAG215, r.2)
           else if data.getD (3 * 4 + 2) 0 = 0x6D then some (NT_NTAG216, r.2)
           else some (NT_UNKNOWN, r.2))
        else some (NT_UNKNOWN, r.2)
      | none => some (NT_UNKNOWN, r.2)

/-- Member `NfcEasyWriter::mountCard`. -/
def mountCard (fuel : Nat) (s : Session) (timeout : Nat) (mode : ProtectMode) (w : World σ) :
    Option (Bool × Session × World σ) :=
  let u := if s._mounted then unmountCard T s w else (s, w)
  let w0 := callInit T u.2
  let setMode := fun (x : Session) =>
    { x with _lastProtectMode := if mode ≠ PRT_AUTO then mode else PRT_NOPASS_RW }
  match waitCard T timeout fuel w0 with
  | none => none
  | some (false, w1) => some (false, setMode u.1, w1)
  | some (true, w1) =>
    let c := checkCardType T w1
    let s1 := { u.1 with _cardType := c.1 }
    match c.1 with
    | Classic => some (true, setMode { s1 with _mounted := true }, c.2)
    | Ultralight =>
      match getNtagTypeUL T fuel s1 mode c.2 with
      | none => none
      | some (ntag, w2) =>
        let s2 := { s1 with _ntagType := ntag }
        if ntag ≠ NT_UNKNOWN then
          some (true, setMode { s2 with _maxPageUL := getMaxPageUL ntag,
                                        _configPageUL := getConfigPageUL ntag,
                                        _mounted := true }, w2)
        else some (false, setMode s2, w2)
    | UnknownCard => some (true, setMode s1, c.2)

end Calls

/-! ## Mounted sessions and a simulated card -/

/-- A session with a Classic card mounted, as `mountCard` leaves it. -/
def MountedCL (s : Session) : Prop := s._mounted = true ∧ s._cardType = Classic

/-- A session with an Ultralight tag mounted, as `mountCard` leaves it: the capacity
class is known and `_maxPageUL`, `_configPageUL` are the values of that class. -/
def MountedUL (s : Session) : Prop :=
  s._mounted = true ∧ s._cardType = Ultralight ∧ s._ntagType ≠ NT_UNKNOWN ∧
  s._maxPageUL = getMaxPageUL s._ntagType ∧ s._configPageUL = getConfigPageUL s._ntagType

instance (s : Session) : Decidable (MountedCL s) := by unfold MountedCL; infer_instance

instance (s : Session) : Decidable (MountedUL s) := by unfold MountedUL; infer_instance

/-- The session of a mounted Classic card with the default bounds and keys. -/
def sessionCL : Session := { _mounted := true, _cardType := Classic }

/-- The session of a mounted Ultralight tag of class `nt` with the default bounds
and keys. -/
def sessionUL (nt : NtagType) : Session :=
  { _mounted := true, _cardType := Ultralight, _ntagType := nt,
    _maxPageUL := getMaxPageUL nt, _configPageUL := getConfigPageUL nt }

/-- A mounted Classic session whose usable range is the sectors 0 to 64: 65 sectors,
capacity 3120 bytes, the data blocks 0 to 258. -/
def sessionCL65 : Session := { sessionCL with _minSectorCL := 0, _maxSectorCL := 64 }

/-- A simulated card: its memory by byte address (unit `a` of width `unit` starts at
`a * unit`; `unit` is 16 for blocks, 4 for pages), the tag type it reports and the
two PACK bytes it answers a password challenge with. -/
structure Card where
  unit : Nat
  mem : Nat → Nat
  picc : PiccType
  pack0 : Nat
  pack1 : Nat

/-- Memory after a unit write: `buffer` is stored from byte address `a * unit` on. -/
def Card.store (c : Card) (a : Nat) (buffer : List Nat) : Card :=
  { c with mem := fun i =>
      if a * c.unit ≤ i ∧ i < a * c.unit + buffer.length then buffer.getD (i - a * c.unit) 0
      else c.mem i }

/-- The 16 bytes a unit read returns: those from byte address `a * unit` on. -/
def Card.load (c : Card) (a : Nat) : List Nat :=
  (List.range 16).map (fun i => c.mem (a * c.unit + i))

/-- Access-bit packing used by the simulated reader (three bytes from the four
3-bit codes, low nibbles inverted as on a MIFARE Classic trailer). -/
def packAccessBits (g0 g1 g2 g3 : Nat) : Nat × Nat × Nat :=
  let c1 := ((g3 &&& 4) <<< 1) ||| (g2 &&& 4) ||| ((g1 &&& 4) >>> 1) ||| ((g0 &&& 4) >>> 2)
  let c2 := ((g3 &&& 2) <<< 2) ||| ((g2 &&& 2) <<< 1) ||| (g1 &&& 2) ||| ((g0 &&& 2) >>> 1)
  let c3 := ((g3 &&& 1) <<< 3) ||| ((g2 &&& 1) <<< 2) ||| ((g1 &&& 1) <<< 1) ||| (g0 &&& 1)
  (((15 - c2) <<< 4) ||| (15 - c1), (c1 <<< 4) ||| (15 - c3), (c3 <<< 4) ||| c2)

/-- A reader in front of a simulated card on which every call succeeds: the tag is
present, authentication and the password challenge are accepted, a unit write
stores its bytes at the addressed unit and a unit read returns the 16 bytes
starting at the addressed unit.  The unit is addressed by a byte, as in the
library: the addresses `a` and `a + 256` are the same unit. -/
def cardReader : MFRC522 Card where
  PCD_Init_without_resetpin := fun c => c
  PICC_IsNewCardPresent := fun c => (true, c)
  PICC_ReadCardSerial := fun c => (true, c)
  PICC_GetType := fun c => c.picc
  PCD_Authenticate := fun _ _ _ c => (true, c)
  MIFARE_Read := fun a c => (some (c.load (a % 256)), c)
  MIFARE_Write := fun a buffer c => (true, c.store (a % 256) buffer)
  MIFARE_Ultralight_Write := fun a buffer c => (true, c.store (a % 256) buffer)
  PCD_CalculateCRC := fun _ c => (some (0, 0), c)
  PCD_TransceiveData := fun _ c => (some [c.pack0, c.pack1, 0, 0], c)
  PCD_StopCrypto1 := fun c => c
  PICC_HaltA := fun c => c
  MIFARE_SetAccessBits := packAccessBits
  millis := fun c => (0, c)
  delay := fun _ c => c

/-- A blank Classic card: 16-byte blocks, all bytes 0. -/
def blankCL : Card := { unit := 16, mem := fun _ => 0, picc := PICC_TYPE_MIFARE_1K,
                        pack0 := 0xFF, pack1 := 0xFF }

/-- A blank Ultralight tag: 4-byte pages, all bytes 0. -/
def blankUL : Card := { unit := 4, mem := fun _ => 0, picc := PICC_TYPE_MIFARE_UL,
                        pack0 := 0xFF, pack1 := 0xFF }

/-- An Ultralight tag whose page 3 is the capability container `E1 10 cc 00` with
capability byte `cc`, every other byte 0. -/
def ndefUL (cc : Nat) : Card :=
  { unit := 4, mem := fun i => if i = 12 then 0xE1 else if i = 13 then 0x10
                               else if i = 14 then cc else 0,
    picc := PICC_TYPE_MIFARE_UL, pack0 := 0xFF, pack1 := 0xFF }

/-- An Ultralight tag whose page 3 is `00 00 cc 00`: the capability byte `cc` without
the magic number `0xE1` in front. -/
def rawUL (cc : Nat) : Card :=
  { unit := 4, mem := fun i => if i = 14 then cc else 0,
    picc := PICC_TYPE_MIFARE_UL, pack0 := 0xFF, pack1 := 0xFF }

/-- A tag that is neither a Classic card nor an Ultralight tag. -/
def otherCard : Card := { unit := 16, mem := fun _ => 0, picc := PICC_TYPE_OTHER,
                          pack0 := 0xFF, pack1 := 0xFF }

/-! ## Predicates on the call log -/

/-- Presence polling: `PICC_IsNewCardPresent` or `PICC_ReadCardSerial`. -/
def Event.isPoll : Event → Bool
  | Event.isNewCardPresent _ => true
  | Event.readCardSerial _ => true
  | _ => false

/-- The password challenge of an Ultralight tag: the CRC computation and the
transceive of `MIFARE_Ultralight_Authenticate`. -/
def Event.isChallenge : Event → Bool
  | Event.calculateCRC _ _ => true
  | Event.transceive _ _ => true
  | _ => false

/-- A page write of an Ultralight tag, `MIFARE_Ultralight_Write`. -/
def Event.isUlWrite : Event → Bool
  | Event.ulWrite _ _ _ => true
  | _ => false

/-- A `MIFARE_Write` to a sector trailer, a block address that is 3 modulo 4. -/
def Event.writesTrailer : Event → Bool
  | Event.write blockAddr _ _ => decide (blockAddr % 4 = 3)
  | _ => false

/-- A unit read, `MIFARE_Read`. -/
def Event.isRead : Event → Bool
  | Event.read _ _ => true
  | _ => false

/-- A unit transfer: `MIFARE_Read`, `MIFARE_Write` or `MIFARE_Ultralight_Write`. -/
def Event.isTransfer : Event → Bool
  | Event.read _ _ => true
  | Event.write _ _ _ => true
  | Event.ulWrite _ _ _ => true
  | _ => false

/-- A unit write: `MIFARE_Write` or `MIFARE_Ultralight_Write`. -/
def Event.isUnitWrite : Event → Bool
  | Event.write _ _ _ => true
  | Event.ulWrite _ _ _ => true
  | _ => false

/-- What precedes the unit transfers of an operation: presence polling and the
password challenge. -/
def Event.isPrelude (e : Event) : Bool := e.isPoll || e.isChallenge

/-- What `mountCard` does before it asks for the tag type: the `PICC_HaltA` of an
unmount, `PCD_Init` and presence polling. -/
def Event.isSetup : Event → Bool
  | Event.haltA => true
  | Event.init => true
  | Event.isNewCardPresent _ => true
  | Event.readCardSerial _ => true
  | _ => false

/-- The unit a transfer addresses: the block of `MIFARE_Read` and `MIFARE_Write`, the
page of `MIFARE_Ultralight_Write`. -/
def Event.unitAddr : Event → Option Nat
  | Event.read a _ => some a
  | Event.write a _ _ => some a
  | Event.ulWrite a _ _ => some a
  | _ => none

/-! ## Reference definitions worded after the specification -/

/-- Reference translation for LayoutA as worded in the specification:
`sector = vaddr / 48 + minSector`, `blockInSector = (vaddr mod 48) / 16`,
`linearBlockIndex = sector*4 + blockInSector`. -/
def translateSpecA (minSector vaddr : Nat) : PhyAddr :=
  { sector := vaddr / 48 + minSector
    block := (vaddr % 48) / 16
    blockAddr := (vaddr / 48 + minSector) * 4 + (vaddr % 48) / 16 }

/-- Reference translation for LayoutB as worded in the specification:
`pageIndex = vaddr / 4 + minPage`, clamped to the largest page index 255. -/
def translateSpecB (minPage vaddr : Nat) : Nat := min (vaddr / 4 + minPage) 255

/-- The capacity class of a capability byte as the specification words it: `0x12` is
Small (NTAG213), `0x3E` Medium (NTAG215), `0x6D` Large (NTAG216), any other value
Unknown. -/
def capacityClassSpec (cc : Nat) : NtagType :=
  if cc = 0x12 then NT_NTAG213
  else if cc = 0x3E then NT_NTAG215
  else if cc = 0x6D then NT_NTAG216
  else NT_UNKNOWN

/-- Unit `k` of a write as the specification words it: the bytes
`data[k*u .. min(L, (k+1)*u))` followed by zero bytes up to `u` bytes. -/
def paddedUnitSpec (u : Nat) (data : List Nat) (k : Nat) : List Nat :=
  (data.drop (k * u)).take u ++ List.replicate (u - ((data.drop (k * u)).take u).length) 0

/-- The configuration record of a LayoutB tag after a protection update, as the
specification words it, from the 16 bytes `rd` read, the starting page, the target
mode and the key installed: `AUTH0` (byte 3) is the starting page for a
password-gated target and the sentinel `0xFF` otherwise, `ACCESS` (byte 4) keeps its
bits 0-6 and gets its bit 7 from the mode (1 unless the target is read-only), bytes
8-11 are the password, bytes 12-13 the PACK, every other byte is the byte read. -/
def configUpdateSpec (rd : List Nat) (startPage : Nat) (mode : ProtectMode) (k : AuthKey) :
    List Nat :=
  [rd.getD 0 0, rd.getD 1 0, rd.getD 2 0,
   if mode = PRT_PASSWD_RW ∨ mode = PRT_PASSWD_RO then startPage % 256 else 0xFF,
   rd.getD 4 0 % 128 + (if mode = PRT_NOPASS_RO ∨ mode = PRT_PASSWD_RO then 0 else 128),
   rd.getD 5 0, rd.getD 6 0, rd.getD 7 0,
   k.k0, k.k1, k.k2, k.k3,
   k.k4, k.k5, rd.getD 14 0, rd.getD 15 0]

/-! ## Bookkeeping of the call log -/

section Log
variable {σ : Type} (T : MFRC522 σ)

@[simp] theorem callInit_log (w : World σ) :
    (callInit T w).log = w.log ++ [Event.init] := rfl

@[simp] theorem callIsNewCardPresent_log (w : World σ) :
    (callIsNewCardPresent T w).2.log
      = w.log ++ [Event.isNewCardPresent (T.PICC_IsNewCardPresent w.dev).1] := rfl

@[simp] theorem callReadCardSerial_log (w : World σ) :
    (callReadCardSerial T w).2.log
      = w.log ++ [Event.readCardSerial (T.PICC_ReadCardSerial w.dev).1] := rfl

@[simp] theorem callGetType_log (w : World σ) :
    (callGetType T w).2.log = w.log ++ [Event.getType (T.PICC_GetType w.dev)] := rfl

@[simp] theorem callAuthenticate_log (c : AuthCmd) (a : Nat) (k : AuthKey) (w : World σ) :
    (callAuthenticate T c a k w).2.log
      = w.log ++ [Event.authenticate c (a % 256) k
          (T.PCD_Authenticate c (a % 256) k w.dev).1] := rfl

@[simp] theorem callRead_log (a : Nat) (w : World σ) :
    (callRead T a w).2.log
      = w.log ++ [Event.read (a % 256) (T.MIFARE_Read (a % 256) w.dev).1] := rfl

@[simp] theorem callWrite_log (a : Nat) (b : List Nat) (w : World σ) :
    (callWrite T a b w).2.log
      = w.log ++ [Event.write (a % 256) b (T.MIFARE_Write (a % 256) b w.dev).1] := rfl

@[simp] theorem callUlWrite_log (a : Nat) (b : List Nat) (w : World σ) :
    (callUlWrite T a b w).2.log
      = w.log ++ [Event.ulWrite (a % 256) b
          (T.MIFARE_Ultralight_Write (a % 256) b w.dev).1] := rfl

@[simp] theorem callCalculateCRC_log (b : List Nat) (w : World σ) :
    (callCalculateCRC T b w).2.log
      = w.log ++ [Event.calculateCRC b (T.PCD_CalculateCRC b w.dev).1] := rfl

@[simp] theorem callTransceive_log (b : List Nat) (w : World σ) :
    (callTransceive T b w).2.log
      = w.log ++ [Event.transceive b (T.PCD_TransceiveData b w.dev).1] := rfl

@[simp] theorem callStopCrypto1_log (w : World σ) :
    (callStopCrypto1 T w).log = w.log ++ [Event.stopCrypto1] := rfl

@[simp] theorem callHaltA_log (w : World σ) :
    (callHaltA T w).log = w.log ++ [Event.haltA] := rfl

@[simp] theorem callMillis_log (w : World σ) : (callMillis T w).2.log = w.log := rfl

@[simp] theorem callDelay_log (ms : Nat) (w : World σ) : (callDelay T ms w).log = w.log := rfl

/-- Presence polling extends the log by polling events only. -/
theorem waitCardLoop_log {P : Event → Prop} (hP : ∀ e, e.isPoll = true → P e)
    (timeout tm : Nat) :
    ∀ (fuel : Nat) (w : World σ) (r : Bool) (w' : World σ),
      waitCardLoop T timeout tm fuel w = some (r, w') →
      (∀ e ∈ w.log, P e) → ∀ e ∈ w'.log, P e := by
  intro fuel
  induction fuel with
  | zero => intro w r w' h; simp [waitCardLoop] at h
  | succ n ih =>
    intro w r w' h h0
    simp only [waitCardLoop] at h
    have p1 : P (Event.isNewCardPresent (T.PICC_IsNewCardPresent w.dev).1) := hP _ rfl
    have p2 : ∀ d, P (Event.readCardSerial (T.PICC_ReadCardSerial d).1) := fun d => hP _ rfl
    repeat' split at h
    all_goals first
      | (simp only [Option.some.injEq, Prod.mk.injEq] at h
         obtain ⟨-, rfl⟩ := h
         intro e he
         simp only [callReadCardSerial_log, callIsNewCardPresent_log, callMillis_log,
           List.mem_append, List.mem_singleton] at he
         rcases he with (he | rfl) | rfl
         · exact h0 e he
         · exact p1
         · exact p2 _)
      | (simp only [Option.some.injEq, Prod.mk.injEq] at h
         obtain ⟨-, rfl⟩ := h
         intro e he
         simp only [callReadCardSerial_log, callIsNewCardPresent_log, callMillis_log,
           List.mem_append, List.mem_singleton] at he
         rcases he with he | rfl
         · exact h0 e he
         · exact p1)
      | (refine ih _ _ _ h ?_
         intro e he
         simp only [callReadCardSerial_log, callIsNewCardPresent_log, callMillis_log,
           callDelay_log, List.mem_append, List.mem_singleton] at he
         rcases he with (he | rfl) | rfl
         · exact h0 e he
         · exact p1
         · exact p2 _)
      | (refine ih _ _ _ h ?_
         intro e he
         simp only [callReadCardSerial_log, callIsNewCardPresent_log, callMillis_log,
           callDelay_log, List.mem_append, List.mem_singleton] at he
         rcases he with he | rfl
         · exact h0 e he
         · exact p1)

theorem waitCard_log {P : Event → Prop} (hP : ∀ e, e.isPoll = true → P e)
    (timeout fuel : Nat) (w : World σ) (r : Bool) (w' : World σ)
    (h : waitCard T timeout fuel w = some (r, w')) (h0 : ∀ e ∈ w.log, P e) :
    ∀ e ∈ w'.log, P e :=
  waitCardLoop_log T hP timeout _ fuel (callMillis T w).2 r w' h h0

end Log

/-! ## The unit loops end within `remain` iterations

Each loop is run with `remain.toNat` units of fuel.  One more unit never changes
the result, so the branch for used-up fuel is only reached with `remain ≤ 0`,
where the source loop has ended as well. -/

section Fuel
variable {σ : Type} (T : MFRC522 σ)

theorem writeLoopCL_fuel (s : Session) (vaddr : Nat) (data : List Nat) (protect : Bool) :
    ∀ (fuel : Nat) (remain : Int) (index : Nat) (w : World σ), remain.toNat ≤ fuel →
      writeLoopCL T s vaddr data protect (fuel + 1) remain index w
        = writeLoopCL T s vaddr data protect fuel remain index w := by
  intro fuel
  induction fuel with
  | zero =>
    intro remain index w h
    have : ¬ remain > 0 := by omega
    simp only [writeLoopCL, if_neg this]
  | succ n ih =>
    intro remain index w h
    rw [writeLoopCL, writeLoopCL]
    by_cases hr : remain > 0
    · simp only [if_pos hr]
      rw [ih]
      simp only [_writeLengthCL]
      split <;> omega
    · simp only [if_neg hr]

theorem writeLoopUL_fuel (s : Session) (vaddr : Nat) (data : List Nat) :
    ∀ (fuel : Nat) (remain : Int) (index : Nat) (w : World σ), remain.toNat ≤ fuel →
      writeLoopUL T s vaddr data (fuel + 1) remain index w
        = writeLoopUL T s vaddr data fuel remain index w := by
  intro fuel
  induction fuel with
  | zero =>
    intro remain index w h
    have : ¬ remain > 0 := by omega
    simp only [writeLoopUL, if_neg this]
  | succ n ih =>
    intro remain index w h
    rw [writeLoopUL, writeLoopUL]
    by_cases hr : remain > 0
    · simp only [if_pos hr]
      rw [ih]
      simp only [_writeLengthUL]
      split <;> omega
    · simp only [if_neg hr]

theorem readLoopCL_fuel (s : Session) (vaddr : Nat) (protect : Bool) :
    ∀ (fuel : Nat) (remain : Int) (index : Nat) (data : List Nat) (w : World σ),
      remain.toNat ≤ fuel →
      readLoopCL T s vaddr protect (fuel + 1) remain index data w
        = readLoopCL T s vaddr protect fuel remain index data w := by
  intro fuel
  induction fuel with
  | zero =>
    intro remain index data w h
    have : ¬ remain > 0 := by omega
    simp only [readLoopCL, if_neg this]
  | succ n ih =>
    intro remain index data w h
    rw [readLoopCL, readLoopCL]
    by_cases hr : remain > 0
    · simp only [if_pos hr]
      have hk : (remain - ↑(if remain - ↑_readLength < 0 then remain.toNat
          else _readLength)).toNat ≤ n := by
        simp only [_readLength]
        split <;> omega
      simp only [fun i d v => ih _ i d v hk]
    · simp only [if_neg hr]

theorem readLoopUL_fuel (s : Session) (vaddr : Nat) :
    ∀ (fuel : Nat) (remain : Int) (index : Nat) (data : List Nat) (w : World σ),
      remain.toNat ≤ fuel →
      readLoopUL T s vaddr (fuel + 1) remain index data w
        = readLoopUL T s vaddr fuel remain index data w := by
  intro fuel
  induction fuel with
  | zero =>
    intro remain index data w h
    have : ¬ remain > 0 := by omega
    simp only [readLoopUL, if_neg this]
  | succ n ih =>
    intro remain index data w h
    rw [readLoopUL, readLoopUL]
    by_cases hr : remain > 0
    · simp only [if_pos hr]
      have hk : (remain - ↑(if remain - ↑_readLength < 0 then remain.toNat
          else _readLength)).toNat ≤ n := by
        simp only [_readLength]
        split <;> omega
      simp only [fun i d v => ih _ i d v hk]
    · simp only [if_neg hr]

theorem protectLoopCL_fuel (s : Session) (vaddr : Nat) (buffer : List Nat) (bfProt : Bool) :
    ∀ (fuel : Nat) (remain : Int) (index : Nat) (w : World σ), remain.toNat ≤ fuel →
      protectLoopCL T s vaddr buffer bfProt (fuel + 1) remain index w
        = protectLoopCL T s vaddr buffer bfProt fuel remain index w := by
  intro fuel
  induction fuel with
  | zero =>
    intro remain index w h
    have : ¬ remain > 0 := by omega
    simp only [protectLoopCL, if_neg this]
  | succ n ih =>
    intro remain index w h
    rw [protectLoopCL, protectLoopCL]
    by_cases hr : remain > 0
    · simp only [if_pos hr]
      rw [ih]
      omega
    · simp only [if_neg hr]

end Fuel

/-! ## What a mount establishes -/

section Mount
variable {σ : Type} (T : MFRC522 σ)

/-- After `mountCard` the session is mounted only with a Classic card or with an
Ultralight tag whose capacity class is known and whose `_maxPageUL` and
`_configPageUL` are those of the class. -/
theorem mountCard_mounted (fuel : Nat) (s : Session) (timeout : Nat) (mode : ProtectMode)
    (w : World σ) (r : Bool) (s' : Session) (w' : World σ)
    (h : mountCard T fuel s timeout mode w = some (r, s', w')) (hm : s'._mounted = true) :
    MountedCL s' ∨ MountedUL s' := by
  have hu : (if s._mounted = true then unmountCard T s w else (s, w)).1._mounted = false := by
    split
    · rfl
    · rename_i hn
      simpa using hn
  simp only [mountCard] at h
  generalize (if s._mounted = true then unmountCard T s w else (s, w)) = u at h hu
  cases hw : waitCard T timeout fuel (callInit T u.2) with
  | none => simp [hw] at h
  | some p =>
    obtain ⟨b, w1⟩ := p
    cases b with
    | false =>
      simp only [hw, Option.some.injEq, Prod.mk.injEq] at h
      obtain ⟨-, rfl, -⟩ := h
      simp [hu] at hm
    | true =>
      simp only [hw] at h
      cases hc : (checkCardType T w1).1 with
      | UnknownCard =>
        simp only [hc, Option.some.injEq, Prod.mk.injEq] at h
        obtain ⟨-, rfl, -⟩ := h
        simp [hu] at hm
      | Classic =>
        simp only [hc, Option.some.injEq, Prod.mk.injEq] at h
        obtain ⟨-, rfl, -⟩ := h
        exact Or.inl ⟨rfl, rfl⟩
      | Ultralight =>
        simp only [hc] at h
        generalize getNtagTypeUL T fuel _ mode (checkCardType T w1).2 = G at h
        match G, h with
        | none, h => simp at h
        | some (ntag, w2), h =>
          simp only at h
          by_cases hn : ntag = NT_UNKNOWN
          · simp only [hn, ne_eq, not_true_eq_false, if_false, Option.some.injEq,
              Prod.mk.injEq] at h
            obtain ⟨-, rfl, -⟩ := h
            simp [hu] at hm
          · simp only [ne_eq, hn, not_false_eq_true, if_true, Option.some.injEq,
              Prod.mk.injEq] at h
            obtain ⟨-, rfl, -⟩ := h
            exact Or.inr ⟨rfl, rfl, hn, rfl, rfl⟩

end Mount

/-! ## Address translation and capacity -/

section Translation

theorem addr2PhysicalAddr_classic (s : Session) (vaddr : Nat) (hv : vaddr < 65536) :
    addr2PhysicalAddr s vaddr Classic =
      { sector := (vaddr / 48 + s._minSectorCL) % 65536
        block := vaddr % 48 / 16
        blockAddr := ((vaddr / 48 + s._minSectorCL) % 65536 * 4 + vaddr % 48 / 16) % 65536 } := by
  have h0 : (0 : Int) ≤ (vaddr : Int) - ((vaddr / 48 % 65536 : Nat) : Int) * 48 := by omega
  have hb : toU16 (Int.tdiv ((vaddr : Int) - ((vaddr / 48 % 65536 : Nat) : Int) * 48) 16)
      = vaddr % 48 / 16 := by
    rw [Int.tdiv_eq_ediv h0 (by norm_num)]
    unfold toU16
    omega
  have hs : vaddr / 48 % 65536 = vaddr / 48 := by omega
  simp only [addr2PhysicalAddr, _writeLengthCL]
  norm_num only at hb ⊢
  rw [hb, hs]

theorem addr2PhysicalAddr_ultralight (s : Session) (vaddr : Nat) :
    (addr2PhysicalAddr s vaddr Ultralight).blockAddr =
      min ((vaddr / 4 + s._minPageUL) % 65536) 255 := by
  simp only [addr2PhysicalAddr, _writeLengthUL]
  split <;> omega

/-- Claim C1: for a 16-bit `vaddr`, whenever the 16-bit results do not overflow,
`addr2PhysicalAddr` equals the reference translation: on Classic the sector is
`vaddr / 48 + minSector`, the block `(vaddr mod 48) / 16` and the block address
`sector*4 + block`; on Ultralight the page is `min (vaddr / 4 + minPage) 255`. -/
theorem addr2PhysicalAddr_refines_reference (s : Session) (vaddr : Nat) (hv : vaddr < 65536) :
    ((vaddr / 48 + s._minSectorCL) * 4 + vaddr % 48 / 16 < 65536 →
      addr2PhysicalAddr s vaddr Classic = translateSpecA s._minSectorCL vaddr) ∧
    (vaddr / 4 + s._minPageUL < 65536 →
      (addr2PhysicalAddr s vaddr Ultralight).blockAddr = translateSpecB s._minPageUL vaddr) := by
  constructor
  · intro h
    rw [addr2PhysicalAddr_classic s vaddr hv]
    simp only [translateSpecA, PhyAddr.mk.injEq]
    refine ⟨?_, trivial, ?_⟩ <;> omega
  · intro h
    rw [addr2PhysicalAddr_ultralight]
    simp only [translateSpecB]
    omega

/-- Witness of claim C1: `vaddr = 50` with `minSector = 1` gives sector 2, block 0
and block address 8. -/
theorem addr2PhysicalAddr_refines_reference_witness :
    addr2PhysicalAddr sessionCL 50 Classic = translateSpecA 1 50 ∧
    translateSpecA 1 50 = { sector := 2, block := 0, blockAddr := 8 } ∧
    (addr2PhysicalAddr (sessionUL NT_NTAG213) 50 Ultralight).blockAddr = translateSpecB 5 50 :=
  ⟨(addr2PhysicalAddr_refines_reference sessionCL 50 (by decide)).1 (by decide), by decide,
   (addr2PhysicalAddr_refines_reference (sessionUL NT_NTAG213) 50 (by decide)).2 (by decide)⟩

theorem classic_block_lt (s : Session) (vaddr : Nat) (hv : vaddr < 65536) :
    (addr2PhysicalAddr s vaddr Classic).block < 3 ∧
    (addr2PhysicalAddr s vaddr Classic).blockAddr % 4 ≠ 3 := by
  rw [addr2PhysicalAddr_classic s vaddr hv]
  constructor <;> simp only <;> omega

theorem getMaxPageUL_le (nt : NtagType) : getMaxPageUL nt ≤ 225 := by
  cases nt <;> simp [getMaxPageUL]

theorem MountedUL.isUltralight {s : Session} (h : MountedUL s) : isUltralight s = true := by
  obtain ⟨h1, h2, -⟩ := h
  simp [NfcEasyWriter.isUltralight, h1, h2]

theorem MountedUL.maxPage_le {s : Session} (h : MountedUL s) : s._maxPageUL ≤ 225 := by
  obtain ⟨-, -, -, h4, -⟩ := h
  rw [h4]; exact getMaxPageUL_le _

theorem getVCapacities_classic {s : Session} (h : isClassic s = true) :
    getVCapacities s = toU16 (((s._maxSectorCL : Int) - s._minSectorCL + 1) * 16 * 3) := by
  simp [getVCapacities, h]

theorem getVCapacities_ultralight {s : Session} (h : isUltralight s = true) :
    getVCapacities s = toU16 (((s._maxPageUL : Int) - s._minPageUL + 1) * 4) := by
  have hc : isClassic s = false := by
    simp only [isUltralight, isClassic] at h ⊢
    split at h
    · simp at h
    · simp only [decide_eq_true_eq] at h; simp [h]
  simp [getVCapacities, h, hc]

theorem toU16_le {x : Int} (h : 0 ≤ x) : (toU16 x : Int) ≤ x := by
  unfold toU16
  have h1 : 0 ≤ x / 65536 := Int.ediv_nonneg h (by norm_num)
  omega

theorem toU16_lt (x : Int) : toU16 x < 65536 := by
  unfold toU16
  omega

theorem mod_inj_of_close {a b : Nat} (h : a % 65536 = b % 65536) (hab : a < b + 65536)
    (hba : b < a + 65536) : a = b := by
  omega

theorem getVCapacities_lt (s : Session) : getVCapacities s < 65536 := by
  unfold getVCapacities
  split
  · exact toU16_lt _
  · split
    · exact toU16_lt _
    · norm_num

theorem getVCapacities_classic_le {s : Session} (h : isClassic s = true)
    (hle : s._minSectorCL ≤ s._maxSectorCL) :
    getVCapacities s ≤ (s._maxSectorCL - s._minSectorCL + 1) * 48 := by
  rw [getVCapacities_classic h]
  have := toU16_le (x := ((s._maxSectorCL : Int) - s._minSectorCL + 1) * 16 * 3) (by omega)
  omega

theorem getVCapacities_ultralight_le {s : Session} (h : isUltralight s = true)
    (hle : s._minPageUL ≤ s._maxPageUL) :
    getVCapacities s ≤ (s._maxPageUL - s._minPageUL + 1) * 4 := by
  rw [getVCapacities_ultralight h]
  have := toU16_le (x := ((s._maxPageUL : Int) - s._minPageUL + 1) * 4) (by omega)
  omega

theorem getVCapacities_classic_eq {s : Session} (h : isClassic s = true)
    (hle : s._minSectorCL ≤ s._maxSectorCL)
    (hfit : (s._maxSectorCL - s._minSectorCL + 1) * 48 < 65536) :
    getVCapacities s = (s._maxSectorCL - s._minSectorCL + 1) * 48 := by
  rw [getVCapacities_classic h]; unfold toU16; omega

theorem getVCapacities_ultralight_eq {s : Session} (h : isUltralight s = true)
    (hle : s._minPageUL ≤ s._maxPageUL)
    (hfit : (s._maxPageUL - s._minPageUL + 1) * 4 < 65536) :
    getVCapacities s = (s._maxPageUL - s._minPageUL + 1) * 4 := by
  rw [getVCapacities_ultralight h]; unfold toU16; omega

/-- Claim C6: `getVCapacities` is `(maxUnit - minUnit + 1) * unitPayloadBytes` reduced to
16 bits for a mounted card (48 bytes a sector on Classic, 4 bytes a page on
Ultralight), exactly that product when it fits in 16 bits, and 0 when no card is
mounted; the default bounds give 720 on Classic and 140, 500 and 884 on the three
Ultralight classes. -/
theorem getVCapacities_spec (s : Session) :
    (isMounted s = false → getVCapacities s = 0) ∧
    (isClassic s = true →
      (getVCapacities s : Int) = (((s._maxSectorCL : Int) - s._minSectorCL + 1) * 48) % 65536) ∧
    (isUltralight s = true →
      (getVCapacities s : Int) = (((s._maxPageUL : Int) - s._minPageUL + 1) * 4) % 65536) ∧
    (isClassic s = true → s._minSectorCL ≤ s._maxSectorCL →
      (s._maxSectorCL - s._minSectorCL + 1) * 48 < 65536 →
      getVCapacities s = (s._maxSectorCL - s._minSectorCL + 1) * 48) ∧
    (isUltralight s = true → s._minPageUL ≤ s._maxPageUL →
      (s._maxPageUL - s._minPageUL + 1) * 4 < 65536 →
      getVCapacities s = (s._maxPageUL - s._minPageUL + 1) * 4) ∧
    getVCapacities sessionCL = 720 ∧
    getVCapacities (sessionUL NT_NTAG213) = 140 ∧
    getVCapacities (sessionUL NT_NTAG215) = 500 ∧
    getVCapacities (sessionUL NT_NTAG216) = 884 := by
  refine ⟨?_, ?_, ?_, ?_, ?_, by decide, by decide, by decide, by decide⟩
  · intro h
    simp only [isMounted] at h
    simp [getVCapacities, isClassic, isUltralight, h]
  · intro h
    rw [getVCapacities_classic h]; unfold toU16; omega
  · intro h
    rw [getVCapacities_ultralight h]; unfold toU16; omega
  · intro h h1 h2
    exact getVCapacities_classic_eq h h1 h2
  · intro h h1 h2
    exact getVCapacities_ultralight_eq h h1 h2

/-- Claim C7: inside the capacity of a mounted card with `minUnit ≤ maxUnit` the
translation can be inverted up to one unit.  On Classic `(sector - minSector)*48 +
block*16` is at most `vaddr` and less than 16 below it; on Ultralight
`(page - minPage)*4` is at most `vaddr` and less than 4 below it.  Two virtual
addresses with the same physical block or page lie in the same unit, and distinct
unit-aligned addresses have distinct physical units. -/
theorem addr2PhysicalAddr_inverse_within_unit (s : Session) (v1 v2 : Nat) :
    (isClassic s = true → s._maxSectorCL < 65536 → s._minSectorCL ≤ s._maxSectorCL →
      v1 < getVCapacities s → v2 < getVCapacities s →
      (s._minSectorCL ≤ (addr2PhysicalAddr s v1 Classic).sector ∧
       (addr2PhysicalAddr s v1 Classic).sector ≤ s._maxSectorCL ∧
       ((addr2PhysicalAddr s v1 Classic).sector - s._minSectorCL) * 48
          + (addr2PhysicalAddr s v1 Classic).block * 16 ≤ v1 ∧
       v1 < ((addr2PhysicalAddr s v1 Classic).sector - s._minSectorCL) * 48
          + (addr2PhysicalAddr s v1 Classic).block * 16 + 16) ∧
      ((addr2PhysicalAddr s v1 Classic).blockAddr = (addr2PhysicalAddr s v2 Classic).blockAddr →
        v1 / 16 = v2 / 16) ∧
      (v1 % 16 = 0 → v2 % 16 = 0 → v1 ≠ v2 →
        (addr2PhysicalAddr s v1 Classic).blockAddr ≠ (addr2PhysicalAddr s v2 Classic).blockAddr)) ∧
    (MountedUL s → s._minPageUL ≤ s._maxPageUL →
      v1 < getVCapacities s → v2 < getVCapacities s →
      (s._minPageUL ≤ (addr2PhysicalAddr s v1 Ultralight).blockAddr ∧
       (addr2PhysicalAddr s v1 Ultralight).blockAddr ≤ s._maxPageUL ∧
       ((addr2PhysicalAddr s v1 Ultralight).blockAddr - s._minPageUL) * 4 ≤ v1 ∧
       v1 < ((addr2PhysicalAddr s v1 Ultralight).blockAddr - s._minPageUL) * 4 + 4) ∧
      ((addr2PhysicalAddr s v1 Ultralight).blockAddr
          = (addr2PhysicalAddr s v2 Ultralight).blockAddr → v1 / 4 = v2 / 4) ∧
      (v1 % 4 = 0 → v2 % 4 = 0 → v1 ≠ v2 →
        (addr2PhysicalAddr s v1 Ultralight).blockAddr
          ≠ (addr2PhysicalAddr s v2 Ultralight).blockAddr)) := by
  constructor
  · intro hc hmax hle h1 h2
    have hcap := getVCapacities_classic_le hc hle
    have h1' : v1 < (s._maxSectorCL - s._minSectorCL + 1) * 48 := lt_of_lt_of_le h1 hcap
    have h2' : v2 < (s._maxSectorCL - s._minSectorCL + 1) * 48 := lt_of_lt_of_le h2 hcap
    have hv1 : v1 < 65536 := lt_trans h1 (getVCapacities_lt s)
    have hv2 : v2 < 65536 := lt_trans h2 (getVCapacities_lt s)
    clear h1 h2 hcap
    have e1 : (v1 / 48 + s._minSectorCL) % 65536 = v1 / 48 + s._minSectorCL := by omega
    have e2 : (v2 / 48 + s._minSectorCL) % 65536 = v2 / 48 + s._minSectorCL := by omega
    rw [addr2PhysicalAddr_classic s v1 hv1, addr2PhysicalAddr_classic s v2 hv2]
    simp only [e1, e2]
    refine ⟨⟨?_, ?_, ?_, ?_⟩, ?_, ?_⟩
    · omega
    · omega
    · omega
    · omega
    · intro heq
      have := mod_inj_of_close heq (by omega) (by omega)
      omega
    · intro a1 a2 hne heq
      have := mod_inj_of_close heq (by omega) (by omega)
      omega
  · intro hm hle h1 h2
    have hmx := hm.maxPage_le
    have hcap := getVCapacities_ultralight_le hm.isUltralight hle
    have h1' : v1 < (s._maxPageUL - s._minPageUL + 1) * 4 := lt_of_lt_of_le h1 hcap
    have h2' : v2 < (s._maxPageUL - s._minPageUL + 1) * 4 := lt_of_lt_of_le h2 hcap
    clear h1 h2 hcap
    rw [addr2PhysicalAddr_ultralight, addr2PhysicalAddr_ultralight]
    refine ⟨⟨?_, ?_, ?_, ?_⟩, ?_, ?_⟩ <;> omega

/-- Witness of claim C7 on the default Classic session and on a mounted NTAG213. -/
theorem addr2PhysicalAddr_inverse_within_unit_witness :
    ((addr2PhysicalAddr sessionCL 50 Classic).sector - 1) * 48
        + (addr2PhysicalAddr sessionCL 50 Classic).block * 16 ≤ 50 ∧
    ((addr2PhysicalAddr (sessionUL NT_NTAG213) 50 Ultralight).blockAddr - 5) * 4 ≤ 50 :=
  ⟨((addr2PhysicalAddr_inverse_within_unit sessionCL 50 64).1 (by decide) (by decide)
      (by decide) (by decide) (by decide)).1.2.2.1,
   ((addr2PhysicalAddr_inverse_within_unit (sessionUL NT_NTAG213) 50 64).2 (by decide)
      (by decide) (by decide) (by decide)).1.2.2.1⟩

end Translation


/-! ## Data writes never reach a sector trailer -/

section Trailer
variable {σ : Type} (T : MFRC522 σ)

theorem writeLoopCL_no_trailer (s : Session) (vaddr : Nat) (data : List Nat) (protect : Bool) :
    ∀ (fuel : Nat) (remain : Int) (index : Nat) (w : World σ),
      (∀ e ∈ w.log, e.writesTrailer = false) →
      ∀ e ∈ (writeLoopCL T s vaddr data protect fuel remain index w).2.log,
        e.writesTrailer = false := by
  intro fuel
  induction fuel with
  | zero => intro remain index w h0; exact h0
  | succ n ih =>
    intro remain index w h0
    simp only [writeLoopCL]
    have hb4 := (classic_block_lt s ((vaddr + index) % 65536) (Nat.mod_lt _ (by norm_num))).2
    have hb : (addr2PhysicalAddr s ((vaddr + index) % 65536) Classic).blockAddr % 256 % 4 ≠ 3 := by
      omega
    repeat' split
    all_goals first
      | exact h0
      | (apply ih
         simp only [callWrite_log, callAuthenticate_log, List.forall_mem_append,
           List.forall_mem_singleton]
         exact ⟨⟨h0, rfl⟩, by simpa [Event.writesTrailer] using hb⟩)
      | (simp only [callWrite_log, callAuthenticate_log, List.forall_mem_append,
           List.forall_mem_singleton]
         exact ⟨⟨h0, rfl⟩, by simpa [Event.writesTrailer] using hb⟩)
      | (simp only [callWrite_log, callAuthenticate_log, List.forall_mem_append,
           List.forall_mem_singleton]
         exact ⟨h0, rfl⟩)

/-- Claim C2: for every 16-bit `vaddr` and every `minSector` the Classic translation
yields a block in `{0, 1, 2}` and a block address that is not 3 modulo 4, 16-bit
wrap-around included; hence the branch `pa.block >= 3` of `writeDataCL` is never
taken and no `MIFARE_Write` issued by `writeDataCL` addresses a sector trailer. -/
theorem sector_trailer_never_addressed (s : Session) (vaddr : Nat) (hv : vaddr < 65536) :
    (addr2PhysicalAddr s vaddr Classic).block < 3 ∧
    (addr2PhysicalAddr s vaddr Classic).blockAddr % 4 ≠ 3 ∧
    ∀ (fuel : Nat) (data : List Nat) (mode : ProtectMode) (d : σ) (r : Bool) (w' : World σ),
      writeDataCL T fuel s vaddr data mode ⟨d, []⟩ = some (r, w') →
      ∀ e ∈ w'.log, e.writesTrailer = false := by
  refine ⟨(classic_block_lt s vaddr hv).1, (classic_block_lt s vaddr hv).2, ?_⟩
  intro fuel data mode d r w' h
  have hpoll : ∀ e : Event, e.isPoll = true → e.writesTrailer = false := by
    intro e he; cases e <;> simp_all [Event.isPoll, Event.writesTrailer]
  simp only [writeDataCL] at h
  split at h
  · obtain ⟨-, rfl⟩ := by simpa using h
    simp
  split at h
  · obtain ⟨-, rfl⟩ := by simpa using h
    simp
  cases hw : waitCard T 5000 fuel ⟨d, []⟩ with
  | none => simp [hw] at h
  | some p =>
    obtain ⟨b, w1⟩ := p
    have h1 := waitCard_log T hpoll _ _ _ _ _ hw (by simp)
    cases b with
    | false =>
      obtain ⟨-, rfl⟩ := by simpa [hw] using h
      exact h1
    | true =>
      simp only [hw] at h
      have h2 := writeLoopCL_no_trailer T s vaddr data
        (decide ((if mode = PRT_AUTO then s._lastProtectMode else mode) = PRT_PASSWD_RW) ||
          decide ((if mode = PRT_AUTO then s._lastProtectMode else mode) = PRT_PASSWD_RO))
        (toInt32 data.length).toNat (toInt32 data.length) 0 w1 h1
      split at h
      · rename_i heq
        rw [heq] at h2
        obtain ⟨-, rfl⟩ := by simpa using h
        exact h2
      · rename_i ab w2 heq
        rw [heq] at h2
        have h3 : ∀ e ∈ (callStopCrypto1 T w2).log, e.writesTrailer = false := by
          simp only [callStopCrypto1_log, List.forall_mem_append, List.forall_mem_singleton]
          exact ⟨h2, rfl⟩
        split at h
        · obtain ⟨-, rfl⟩ := by simpa using h
          exact h3
        · obtain ⟨-, rfl⟩ := by simpa using h
          exact h3

/-- Witness of claim C2 at `vaddr = 32`, the last data block of the first usable
sector: block 2, block address 6, and a 32-byte write from there (blocks 6 and 8)
never addresses block 7. -/
theorem sector_trailer_never_addressed_witness :
    (addr2PhysicalAddr sessionCL 32 Classic).block < 3 ∧
    (addr2PhysicalAddr sessionCL 32 Classic).blockAddr % 4 ≠ 3 ∧
    ∃ w', writeDataCL cardReader 1 sessionCL 32 (List.range 32) PRT_AUTO ⟨blankCL, []⟩
        = some (true, w') ∧
      (∀ e ∈ w'.log, e.writesTrailer = false) ∧
      Event.write 8 (List.range' 16 16) true ∈ w'.log :=
  ⟨(sector_trailer_never_addressed cardReader sessionCL 32 (by decide)).1,
   (sector_trailer_never_addressed cardReader sessionCL 32 (by decide)).2.1,
   ⟨_, rfl,
    (sector_trailer_never_addressed cardReader sessionCL 32 (by decide)).2.2 1 (List.range 32)
      PRT_AUTO blankCL true _ rfl,
    by decide⟩⟩

end Trailer

/-! ## Protection: the sector trailer and the session mode -/

section Protect
variable {σ : Type} (T : MFRC522 σ)

theorem MIFARE_Ultralight_Authenticate_log {P : Event → Prop}
    (hP : ∀ e, e.isChallenge = true → P e) (password : List Nat) (n m : Nat) (w : World σ)
    (h0 : ∀ e ∈ w.log, P e) :
    ∀ e ∈ (MIFARE_Ultralight_Authenticate T password n m w).2.log, P e := by
  have c1 : ∀ b r, P (Event.calculateCRC b r) := fun b r => hP _ rfl
  have c2 : ∀ b r, P (Event.transceive b r) := fun b r => hP _ rfl
  simp only [MIFARE_Ultralight_Authenticate]
  split
  · exact h0
  · split
    · simp only [callCalculateCRC_log, List.forall_mem_append, List.forall_mem_singleton]
      exact ⟨h0, c1 _ _⟩
    · simp only [callTransceive_log, callCalculateCRC_log, List.forall_mem_append,
        List.forall_mem_singleton]
      exact ⟨⟨h0, c1 _ _⟩, c2 _ _⟩

theorem authUL_log {P : Event → Prop} (hP : ∀ e, e.isChallenge = true → P e)
    (s : Session) (checkPack : Bool) (w : World σ) (h0 : ∀ e ∈ w.log, P e) :
    ∀ e ∈ (authUL T s checkPack w).2.log, P e := by
  have h1 := MIFARE_Ultralight_Authenticate_log T hP (s._authKeyB.keyByte.take 4) 4 4 w h0
  simp only [authUL]
  split
  · exact h1
  · split <;> exact h1

theorem protectLoopCL_log {P : Event → Prop} (s : Session) (vaddr : Nat) (buffer : List Nat)
    (bfProt : Bool) (hA : ∀ c a k ok, P (Event.authenticate c a k ok))
    (hW : ∀ a ok, P (Event.write a buffer ok)) :
    ∀ (fuel : Nat) (remain : Int) (index : Nat) (w : World σ),
      (∀ e ∈ w.log, P e) →
      ∀ e ∈ (protectLoopCL T s vaddr buffer bfProt fuel remain index w).2.log, P e := by
  intro fuel
  induction fuel with
  | zero => intro remain index w h0; exact h0
  | succ n ih =>
    intro remain index w h0
    simp only [protectLoopCL]
    repeat' split
    all_goals first
      | exact h0
      | (apply ih
         simp only [callWrite_log, callAuthenticate_log, List.forall_mem_append,
           List.forall_mem_singleton]
         exact ⟨⟨h0, hA _ _ _ _⟩, hW _ _⟩)
      | (simp only [callWrite_log, callAuthenticate_log, List.forall_mem_append,
           List.forall_mem_singleton]
         exact ⟨⟨h0, hA _ _ _ _⟩, hW _ _⟩)
      | (simp only [callWrite_log, callAuthenticate_log, List.forall_mem_append,
           List.forall_mem_singleton]
         exact ⟨h0, hA _ _ _ _⟩)

/-- Claim C8: every block `writeProtectCL` writes is the 16-byte trailer made of KeyA
(bytes 0-5), the three bytes the access-bit encoder returns for the data-block code
of the target mode, passed for all three data blocks, and its trailer code (bytes
6-8; the codes are 0b000/0b001 for OpenReadWrite, 0b010/0b001 for OpenReadOnly,
0b011/0b011 for PasswordReadWrite, 0b101/0b011 for PasswordReadOnly), the numeric
target mode (byte 9) and the supplied key or else KeyB-Default (bytes 10-15); with
target `PRT_AUTO` the call returns `false` and writes nothing. -/
theorem writeProtectCL_trailer (fuel : Nat) (s : Session) (mode : ProtectMode)
    (key : Option AuthKey) (vaddr : Nat) (size : Int) (lastmode : ProtectMode) (d : σ)
    (r : Bool) (s' : Session) (w' : World σ)
    (h : writeProtectCL T fuel s mode key vaddr size lastmode ⟨d, []⟩ = some (r, s', w')) :
    (∀ a b ok, Event.write a b ok ∈ w'.log →
      ∃ dataBit accBit,
        ((mode = PRT_NOPASS_RW ∧ dataBit = 0b000 ∧ accBit = 0b001) ∨
         (mode = PRT_NOPASS_RO ∧ dataBit = 0b010 ∧ accBit = 0b001) ∨
         (mode = PRT_PASSWD_RW ∧ dataBit = 0b011 ∧ accBit = 0b011) ∨
         (mode = PRT_PASSWD_RO ∧ dataBit = 0b101 ∧ accBit = 0b011)) ∧
        b = s._authKeyA.keyByte
            ++ [(T.MIFARE_SetAccessBits dataBit dataBit dataBit accBit).1,
                (T.MIFARE_SetAccessBits dataBit dataBit dataBit accBit).2.1,
                (T.MIFARE_SetAccessBits dataBit dataBit dataBit accBit).2.2]
            ++ [mode.toNat]
            ++ (key.getD s._authKeyBDefault).keyByte ∧
        b.length = 16) ∧
    (mode = PRT_AUTO → r = false ∧ ∀ e ∈ w'.log, e.isPoll = true) := by
  simp only [writeProtectCL] at h
  split at h
  · simp only [Option.some.injEq, Prod.mk.injEq] at h
    obtain ⟨rfl, rfl, rfl⟩ := h
    simp
  split at h
  · simp only [Option.some.injEq, Prod.mk.injEq] at h
    obtain ⟨rfl, rfl, rfl⟩ := h
    simp
  cases hw : waitCard T 5000 fuel ⟨d, []⟩ with
  | none => simp [hw] at h
  | some p =>
    obtain ⟨b, w1⟩ := p
    have hp : ∀ e ∈ w1.log, e.isPoll = true :=
      waitCard_log T (fun e he => he) _ _ _ _ _ hw (by simp)
    have hnw : ∀ a b ok, Event.write a b ok ∉ w1.log := by
      intro a b ok hm
      have := hp _ hm
      simp [Event.isPoll] at this
    cases b with
    | false =>
      simp only [hw, Option.some.injEq, Prod.mk.injEq] at h
      obtain ⟨rfl, rfl, rfl⟩ := h
      exact ⟨fun a b ok hm => absurd hm (hnw a b ok), fun _ => ⟨rfl, hp⟩⟩
    | true =>
      simp only [hw] at h
      cases hab : accessBitsCL mode with
      | none =>
        simp only [hab, Option.some.injEq, Prod.mk.injEq] at h
        obtain ⟨rfl, rfl, rfl⟩ := h
        exact ⟨fun a b ok hm => absurd hm (hnw a b ok), fun _ => ⟨rfl, hp⟩⟩
      | some q =>
        obtain ⟨dataBit, accBit⟩ := q
        simp only [hab] at h
        have hl := protectLoopCL_log T
          (P := fun e => ∀ a b ok, e = Event.write a b ok →
            b = trailerBufferCL T s mode key dataBit accBit)
          s vaddr (trailerBufferCL T s mode key dataBit accBit)
          (decide ((if lastmode = PRT_AUTO then s._lastProtectMode else lastmode) = PRT_PASSWD_RW)
            || decide ((if lastmode = PRT_AUTO then s._lastProtectMode else lastmode)
                = PRT_PASSWD_RO))
          (fun _ _ _ _ _ _ _ hh => by cases hh) (fun _ _ _ _ _ hh => by cases hh; rfl)
          size.toNat size 0 w1
          (fun e he a b ok hb => absurd (hb ▸ he) (hnw a b ok))
        refine ⟨?_, fun hm => by rw [hm] at hab; simp [accessBitsCL] at hab⟩
        intro a b ok hm
        have hb : b = trailerBufferCL T s mode key dataBit accBit := by
          generalize protectLoopCL T s vaddr (trailerBufferCL T s mode key dataBit accBit) _
            size.toNat size 0 w1 = L at h hl
          cases hL1 : L.1 <;>
          · simp only [hL1, Bool.not_false, Bool.not_true, Bool.false_eq_true, if_true, if_false,
              Option.some.injEq, Prod.mk.injEq] at h
            obtain ⟨rfl, rfl, rfl⟩ := h
            simp only [callStopCrypto1_log, List.mem_append, List.mem_singleton,
              reduceCtorEq, or_false] at hm
            exact hl _ hm a b ok rfl
        refine ⟨dataBit, accBit, ?_, ?_, ?_⟩
        · cases mode <;> simp only [accessBitsCL, Option.some.injEq, Prod.mk.injEq,
            reduceCtorEq] at hab <;> obtain ⟨rfl, rfl⟩ := hab <;> simp
        · rw [hb]
          cases mode <;> cases key <;> simp [trailerBufferCL, ProtectMode.toNat]
        · rw [hb]
          cases key <;> simp [trailerBufferCL, AuthKey.keyByte]

/-- Witness of claim C8: protecting the first sector of a blank card with
PasswordReadWrite and no key writes block 7 with KeyA, the bytes of the codes
0b011/0b011, the mode tag 3 and KeyB-Default. -/
theorem writeProtectCL_trailer_witness :
    ∃ w', writeProtectCL cardReader 1 sessionCL PRT_PASSWD_RW none 0 48 PRT_AUTO ⟨blankCL, []⟩
        = some (true, { sessionCL with _lastProtectMode := PRT_PASSWD_RW }, w') ∧
      Event.write 7 [0xFF, 0xFF, 0xFF, 0xFF, 0xFF, 0xFF, 0x0F, 0x00, 0xFF, 3,
                     0xFF, 0xFF, 0xFF, 0xFF, 0xFF, 0xFF] true ∈ w'.log ∧
      ∀ a b ok, Event.write a b ok ∈ w'.log → b.length = 16 :=
  ⟨_, rfl, by decide, fun a b ok hm => by
    obtain ⟨_, _, _, _, hl⟩ :=
      (writeProtectCL_trailer cardReader 1 sessionCL PRT_PASSWD_RW none 0 48 PRT_AUTO blankCL
        true _ _ rfl).1 a b ok hm
    exact hl⟩

theorem writeProtectCL_mode (fuel : Nat) (s : Session) (mode : ProtectMode)
    (key : Option AuthKey) (vaddr : Nat) (size : Int) (lastmode : ProtectMode) (w : World σ)
    (r : Bool) (s' : Session) (w' : World σ)
    (h : writeProtectCL T fuel s mode key vaddr size lastmode w = some (r, s', w')) :
    s' = if r then { s with _lastProtectMode := mode } else s := by
  simp only [writeProtectCL] at h
  split at h
  · simp only [Option.some.injEq, Prod.mk.injEq] at h
    obtain ⟨rfl, rfl, rfl⟩ := h
    simp
  split at h
  · simp only [Option.some.injEq, Prod.mk.injEq] at h
    obtain ⟨rfl, rfl, rfl⟩ := h
    simp
  cases hw : waitCard T 5000 fuel w with
  | none => simp [hw] at h
  | some p =>
    obtain ⟨b, w1⟩ := p
    cases b with
    | false =>
      simp only [hw, Option.some.injEq, Prod.mk.injEq] at h
      obtain ⟨rfl, rfl, rfl⟩ := h
      simp
    | true =>
      simp only [hw] at h
      cases hab : accessBitsCL mode with
      | none =>
        simp only [hab, Option.some.injEq, Prod.mk.injEq] at h
        obtain ⟨rfl, rfl, rfl⟩ := h
        simp
      | some q =>
        obtain ⟨dataBit, accBit⟩ := q
        simp only [hab] at h
        generalize protectLoopCL T s vaddr (trailerBufferCL T s mode key dataBit accBit) _
          size.toNat size 0 w1 = L at h
        cases hL1 : L.1 <;>
        · simp only [hL1, Bool.not_false, Bool.not_true, Bool.false_eq_true, if_true, if_false,
            Option.some.injEq, Prod.mk.injEq] at h
          obtain ⟨rfl, rfl, rfl⟩ := h
          simp

theorem writeProtectUL_mode (fuel : Nat) (s : Session) (mode : ProtectMode)
    (key : Option AuthKey) (vaddr : Nat) (phyaddr : Bool) (lastmode : ProtectMode) (w : World σ)
    (r : Bool) (s' : Session) (w' : World σ)
    (h : writeProtectUL T fuel s mode key vaddr phyaddr lastmode w = some (r, s', w')) :
    s' = if r then { s with _lastProtectMode := mode } else s := by
  simp only [writeProtectUL] at h
  split at h
  · simp only [Option.some.injEq, Prod.mk.injEq] at h
    obtain ⟨rfl, rfl, rfl⟩ := h
    simp
  split at h
  · simp only [Option.some.injEq, Prod.mk.injEq] at h
    obtain ⟨rfl, rfl, rfl⟩ := h
    simp
  cases hw : waitCard T 5000 fuel w with
  | none => simp [hw] at h
  | some p =>
    obtain ⟨b, w1⟩ := p
    cases b with
    | false =>
      simp only [hw, Option.some.injEq, Prod.mk.injEq] at h
      obtain ⟨rfl, rfl, rfl⟩ := h
      simp
    | true =>
      simp only [hw] at h
      split at h
      · simp only [Option.some.injEq, Prod.mk.injEq] at h
        obtain ⟨rfl, rfl, rfl⟩ := h
        simp
      generalize readConfigDataUL T fuel s _ w1 = R at h
      match R, h with
      | none, h => simp at h
      | some (none, w2), h =>
        simp only [Option.some.injEq, Prod.mk.injEq] at h
        obtain ⟨rfl, rfl, rfl⟩ := h
        simp
      | some (some ulconf, w2), h =>
        simp only at h
        generalize writeConfigDataUL T fuel s _ _ w2 = W at h
        match W, h with
        | none, h => simp at h
        | some (true, w3), h =>
          simp only [Option.some.injEq, Prod.mk.injEq] at h
          obtain ⟨rfl, rfl, rfl⟩ := h
          simp
        | some (false, w3), h =>
          simp only [Option.some.injEq, Prod.mk.injEq] at h
          obtain ⟨rfl, rfl, rfl⟩ := h
          simp

/-- Claim C9: for every `writeProtect` call, on either family and with any mode, key,
range and previous mode, a return value `true` leaves the session's active mode
`_lastProtectMode` equal to the target mode and a return value `false` leaves it as
it was before the call. -/
theorem writeProtect_active_mode (fuel : Nat) (s : Session) (mode : ProtectMode)
    (key : Option AuthKey) (vaddr : Nat) (size : Int) (lastmode : ProtectMode) (w : World σ)
    (r : Bool) (s' : Session) (w' : World σ)
    (h : writeProtect T fuel s mode key vaddr size lastmode w = some (r, s', w')) :
    (r = true → s'._lastProtectMode = mode) ∧
    (r = false → s'._lastProtectMode = s._lastProtectMode) := by
  have key' : s' = if r then { s with _lastProtectMode := mode } else s := by
    simp only [writeProtect] at h
    split at h
    · simp only [Option.some.injEq, Prod.mk.injEq] at h
      obtain ⟨rfl, rfl, rfl⟩ := h
      simp
    split at h
    · exact writeProtectCL_mode T _ _ _ _ _ _ _ _ _ _ _ h
    · exact writeProtectUL_mode T _ _ _ _ _ _ _ _ _ _ _ h
    · simp only [Option.some.injEq, Prod.mk.injEq] at h
      obtain ⟨rfl, rfl, rfl⟩ := h
      simp
  constructor
  · intro hr; rw [key', hr]; rfl
  · intro hr; rw [key', hr]; rfl

/-- Witness of claim C9: a successful PasswordReadWrite protection of a Classic
sector and a refused OpenReadOnly protection of an Ultralight tag. -/
theorem writeProtect_active_mode_witness :
    (∃ s' w', writeProtect cardReader 1 sessionCL PRT_PASSWD_RW none 0 48 PRT_AUTO ⟨blankCL, []⟩
        = some (true, s', w') ∧ s'._lastProtectMode = PRT_PASSWD_RW) ∧
    (∃ s' w', writeProtect cardReader 1 (sessionUL NT_NTAG213) PRT_NOPASS_RO none 0 4 PRT_AUTO
        ⟨blankUL, []⟩ = some (false, s', w') ∧ s'._lastProtectMode = PRT_NOPASS_RW) :=
  ⟨⟨_, _, rfl, (writeProtect_active_mode cardReader 1 sessionCL PRT_PASSWD_RW none 0 48 PRT_AUTO
      ⟨blankCL, []⟩ true _ _ rfl).1 rfl⟩,
   ⟨_, _, rfl, (writeProtect_active_mode cardReader 1 (sessionUL NT_NTAG213) PRT_NOPASS_RO none
      0 4 PRT_AUTO ⟨blankUL, []⟩ false _ _ rfl).2 rfl⟩⟩

end Protect

/-! ## Protection: the configuration record of an Ultralight tag -/

section ProtectUL
variable {σ : Type} (T : MFRC522 σ)

theorem isPoll_not_isUlWrite (e : Event) (h : e.isPoll = true) : e.isUlWrite = false := by
  cases e <;> simp_all [Event.isPoll, Event.isUlWrite]

theorem isChallenge_not_isUlWrite (e : Event) (h : e.isChallenge = true) :
    e.isUlWrite = false := by
  cases e <;> simp_all [Event.isChallenge, Event.isUlWrite]

theorem readConfigDataUL_log {P : Event → Prop} (hP : ∀ e, e.isUlWrite = false → P e)
    (fuel : Nat) (s : Session) (mode : ProtectMode) (w : World σ) (c : Option ULConfig)
    (w' : World σ) (h : readConfigDataUL T fuel s mode w = some (c, w'))
    (h0 : ∀ e ∈ w.log, P e) : ∀ e ∈ w'.log, P e := by
  simp only [readConfigDataUL] at h
  split at h
  · simp only [Option.some.injEq, Prod.mk.injEq] at h
    obtain ⟨rfl, rfl⟩ := h
    exact h0
  cases hw : waitCard T 5000 fuel w with
  | none => simp [hw] at h
  | some p =>
    obtain ⟨b, w1⟩ := p
    have h1 : ∀ e ∈ w1.log, P e :=
      waitCard_log T (fun e he => hP e (isPoll_not_isUlWrite e he)) _ _ _ _ _ hw h0
    cases b with
    | false =>
      simp only [hw, Option.some.injEq, Prod.mk.injEq] at h
      obtain ⟨rfl, rfl⟩ := h
      exact h1
    | true =>
      simp only [hw] at h
      generalize (if mode = PRT_AUTO then s._lastProtectMode else mode) = m at h
      have h2 : ∀ e ∈ (if m = PRT_PASSWD_RW ∨ m = PRT_PASSWD_RO
          then authUL T s true w1 else (true, w1)).2.log, P e := by
        split
        · exact authUL_log T (fun e he => hP e (isChallenge_not_isUlWrite e he)) _ _ _ h1
        · exact h1
      generalize (if m = PRT_PASSWD_RW ∨ m = PRT_PASSWD_RO
          then authUL T s true w1 else (true, w1)) = A at h h2
      split at h
      · simp only [Option.some.injEq, Prod.mk.injEq] at h
        obtain ⟨rfl, rfl⟩ := h
        exact h2
      have h3 : ∀ e ∈ (rawReadUL T s._configPageUL A.2).2.log, P e := by
        simp only [rawReadUL]
        split <;>
        · simp only [callRead_log, List.forall_mem_append, List.forall_mem_singleton]
          exact ⟨h2, hP _ rfl⟩
      generalize rawReadUL T s._configPageUL A.2 = R at h h3
      split at h <;>
      · simp only [Option.some.injEq, Prod.mk.injEq] at h
        obtain ⟨rfl, rfl⟩ := h
        exact h3

theorem writeConfigLoopUL_log {P : Event → Prop} (s : Session) (bytes : List Nat) :
    ∀ (n j : Nat) (w : World σ), (∀ e ∈ w.log, P e) →
      (∀ k, k < n → ∀ ok, P (Event.ulWrite ((s._configPageUL + (j + k)) % 256)
        ((List.range 4).map (fun i => bytes.getD (4 * (j + k) + i) 0)) ok)) →
      ∀ e ∈ (writeConfigLoopUL T s bytes n (4 * j) w).2.log, P e := by
  intro n
  induction n with
  | zero => intro j w h0 _; exact h0
  | succ n ih =>
    intro j w h0 hW
    simp only [writeConfigLoopUL, rawWriteUL]
    have hj : 4 * j / 4 = j := by omega
    have e0 := hW 0 (Nat.succ_pos n)
    simp only [Nat.add_zero] at e0
    have hm : (s._configPageUL + j) % 256 % 256 = (s._configPageUL + j) % 256 := by omega
    split
    · have := ih (j + 1) (callUlWrite T (((s._configPageUL + 4 * j / 4) % 256) % 256)
          ((List.range 4).map (fun i => bytes.getD (4 * j + i) 0)) w).2
        (by
          simp only [callUlWrite_log, List.forall_mem_append, List.forall_mem_singleton, hj, hm]
          exact ⟨h0, e0 _⟩)
        (by
          intro k hk ok
          have := hW (k + 1) (by omega) ok
          rwa [show j + (k + 1) = j + 1 + k by omega] at this)
      rwa [show 4 * (j + 1) = 4 * j + 4 by omega] at this
    · simp only [callUlWrite_log, List.forall_mem_append, List.forall_mem_singleton, hj, hm]
      exact ⟨h0, e0 _⟩

theorem writeConfigDataUL_log {P : Event → Prop} (hP : ∀ e, e.isUlWrite = false → P e)
    (fuel : Nat) (s : Session) (ulconf : ULConfig) (mode : ProtectMode) (w : World σ) (r : Bool)
    (w' : World σ) (h : writeConfigDataUL T fuel s ulconf mode w = some (r, w'))
    (hW : ∀ k, k < 4 → ∀ ok, P (Event.ulWrite ((s._configPageUL + k) % 256)
        ((List.range 4).map (fun i => ulconf.bytes.getD (4 * k + i) 0)) ok))
    (h0 : ∀ e ∈ w.log, P e) : ∀ e ∈ w'.log, P e := by
  simp only [writeConfigDataUL] at h
  split at h
  · simp only [Option.some.injEq, Prod.mk.injEq] at h
    obtain ⟨rfl, rfl⟩ := h
    exact h0
  cases hw : waitCard T 5000 fuel w with
  | none => simp [hw] at h
  | some p =>
    obtain ⟨b, w1⟩ := p
    have h1 : ∀ e ∈ w1.log, P e :=
      waitCard_log T (fun e he => hP e (isPoll_not_isUlWrite e he)) _ _ _ _ _ hw h0
    cases b with
    | false =>
      simp only [hw, Option.some.injEq, Prod.mk.injEq] at h
      obtain ⟨rfl, rfl⟩ := h
      exact h1
    | true =>
      simp only [hw] at h
      generalize (if mode = PRT_AUTO then s._lastProtectMode else mode) = m at h
      have h2 : ∀ e ∈ (if m = PRT_PASSWD_RW ∨ m = PRT_PASSWD_RO
          then authUL T s true w1 else (true, w1)).2.log, P e := by
        split
        · exact authUL_log T (fun e he => hP e (isChallenge_not_isUlWrite e he)) _ _ _ h1
        · exact h1
      generalize (if m = PRT_PASSWD_RW ∨ m = PRT_PASSWD_RO
          then authUL T s true w1 else (true, w1)) = A at h h2
      split at h
      · simp only [Option.some.injEq, Prod.mk.injEq] at h
        obtain ⟨rfl, rfl⟩ := h
        exact h2
      have h3 := writeConfigLoopUL_log T (P := P) s ulconf.bytes 4 0 A.2 h2
        (by intro k hk ok; simpa using hW k hk ok)
      simp only [Option.some.injEq] at h
      rw [Nat.mul_zero, h] at h3
      exact h3

theorem access_bit7 (x : Nat) :
    ((x &&& 0x7F) ||| (1 <<< 7)) % 256 / 128 % 2 = 1 ∧
    ((x &&& 0x7F) ||| (0 <<< 7)) % 256 / 128 % 2 = 0 := by
  have hy : x &&& 0x7F ≤ 0x7F := Nat.and_le_right
  generalize x &&& 0x7F = y at hy
  interval_cases y <;> decide

/-- Claim C10, as amended: in every `writeProtectUL` run the write to the page that
holds `ACCESS` (the page after `_configPageUL`) happens only for a target mode other
than OpenReadOnly, and the `ACCESS` byte written has bit 7 set iff the target mode
is not PasswordReadOnly: bit 7 is 1 for OpenReadWrite and PasswordReadWrite (and
for `PRT_AUTO`) and 0 for PasswordReadOnly. -/
theorem writeProtectUL_access_bit7 (fuel : Nat) (s : Session) (mode : ProtectMode)
    (key : Option AuthKey) (vaddr : Nat) (phyaddr : Bool) (lastmode : ProtectMode) (d : σ)
    (r : Bool) (s' : Session) (w' : World σ)
    (h : writeProtectUL T fuel s mode key vaddr phyaddr lastmode ⟨d, []⟩ = some (r, s', w')) :
    ∀ b ok, Event.ulWrite ((s._configPageUL + 1) % 256) b ok ∈ w'.log →
      mode ≠ PRT_NOPASS_RO ∧ (b.getD 0 0 / 128 % 2 = 1 ↔ mode ≠ PRT_PASSWD_RO) := by
  intro b ok hm
  have none_of : ∀ w0 : World σ, (∀ e ∈ w0.log, e.isUlWrite = false) →
      Event.ulWrite ((s._configPageUL + 1) % 256) b ok ∈ w0.log → False := by
    intro w0 hq hmem
    have := hq _ hmem
    simp [Event.isUlWrite] at this
  simp only [writeProtectUL] at h
  split at h
  · simp only [Option.some.injEq, Prod.mk.injEq] at h
    obtain ⟨rfl, rfl, rfl⟩ := h
    simp at hm
  split at h
  · simp only [Option.some.injEq, Prod.mk.injEq] at h
    obtain ⟨rfl, rfl, rfl⟩ := h
    simp at hm
  cases hw : waitCard T 5000 fuel ⟨d, []⟩ with
  | none => simp [hw] at h
  | some p =>
    obtain ⟨bw, w1⟩ := p
    have h1 : ∀ e ∈ w1.log, e.isUlWrite = false :=
      waitCard_log T isPoll_not_isUlWrite _ _ _ _ _ hw (by simp)
    cases bw with
    | false =>
      simp only [hw, Option.some.injEq, Prod.mk.injEq] at h
      obtain ⟨rfl, rfl, rfl⟩ := h
      exact (none_of _ h1 hm).elim
    | true =>
      simp only [hw] at h
      split at h
      · simp only [Option.some.injEq, Prod.mk.injEq] at h
        obtain ⟨rfl, rfl, rfl⟩ := h
        exact (none_of _ h1 hm).elim
      rename_i hmode
      generalize hR : readConfigDataUL T fuel s
        (if lastmode = PRT_AUTO then s._lastProtectMode else lastmode) w1 = R at h
      match R, hR, h with
      | none, _, h => simp at h
      | some (none, w2), hR, h =>
        simp only [Option.some.injEq, Prod.mk.injEq] at h
        obtain ⟨rfl, rfl, rfl⟩ := h
        exact (none_of _ (readConfigDataUL_log T (fun e he => he) _ _ _ _ _ _ hR h1) hm).elim
      | some (some ulconf, w2), hR, h =>
        simp only at h
        have h2 : ∀ e ∈ w2.log, e.isUlWrite = false :=
          readConfigDataUL_log T (fun e he => he) _ _ _ _ _ _ hR h1
        generalize hB : (if phyaddr = true then vaddr
          else (addr2PhysicalAddr s vaddr Ultralight).blockAddr) = blockAddr at h
        generalize hW : writeConfigDataUL T fuel s (protectConfigUL s ulconf mode key blockAddr)
          (if lastmode = PRT_AUTO then s._lastProtectMode else lastmode) w2 = W at h
        have key_fact : ∀ w3 rr, W = some (rr, w3) → ∀ e ∈ w3.log,
            ∀ p b ok, e = Event.ulWrite p b ok → ∃ k, k < 4 ∧ p = (s._configPageUL + k) % 256 ∧
              b = (List.range 4).map (fun i =>
                (protectConfigUL s ulconf mode key blockAddr).bytes.getD (4 * k + i) 0) := by
          intro w3 rr hW3
          rw [hW3] at hW
          refine writeConfigDataUL_log T ?_ _ _ _ _ _ _ _ hW ?_ ?_
          · intro e he p b ok hb
            rw [hb] at he
            simp [Event.isUlWrite] at he
          · intro k hk ok p b ok' hb
            simp only [Event.ulWrite.injEq] at hb
            exact ⟨k, hk, hb.1.symm, hb.2.1.symm⟩
          · intro e he p b ok hb
            have := h2 e he
            rw [hb] at this
            simp [Event.isUlWrite] at this
        have fin : ∀ w3 rr, W = some (rr, w3) →
            Event.ulWrite ((s._configPageUL + 1) % 256) b ok ∈ w3.log →
            mode ≠ PRT_NOPASS_RO ∧ (b.getD 0 0 / 128 % 2 = 1 ↔ mode ≠ PRT_PASSWD_RO) := by
          intro w3 rr hW3 hmem
          obtain ⟨k, hk, hp, hb⟩ := key_fact w3 rr hW3 _ hmem _ _ _ rfl
          have hk1 : k = 1 := by omega
          subst hk1
          refine ⟨hmode, ?_⟩
          rw [hb]
          have hbit := access_bit7 ulconf.ACCESS
          cases mode <;> simp_all [protectConfigUL, ULConfig.bytes]
        match W, h with
        | none, h => simp at h
        | some (true, w3), h =>
          simp only [Option.some.injEq, Prod.mk.injEq] at h
          obtain ⟨rfl, rfl, rfl⟩ := h
          exact fin _ _ rfl hm
        | some (false, w3), h =>
          simp only [Option.some.injEq, Prod.mk.injEq] at h
          obtain ⟨rfl, rfl, rfl⟩ := h
          exact fin _ _ rfl hm

/-- Witness of claim C10, as amended: PasswordReadOnly on a blank NTAG213 writes page
42 with an `ACCESS` byte whose bit 7 is 0. -/
theorem writeProtectUL_access_bit7_witness :
    ∃ s' w', writeProtectUL cardReader 1 (sessionUL NT_NTAG213) PRT_PASSWD_RO none 0 false
        PRT_AUTO ⟨blankUL, []⟩ = some (true, s', w') ∧
      Event.ulWrite 42 [0, 0, 0, 0] true ∈ w'.log ∧
      (([0, 0, 0, 0] : List Nat).getD 0 0 / 128 % 2 = 1 ↔ PRT_PASSWD_RO ≠ PRT_PASSWD_RO) :=
  ⟨_, _, rfl, by decide,
    ((writeProtectUL_access_bit7 cardReader 1 (sessionUL NT_NTAG213) PRT_PASSWD_RO none 0 false
      PRT_AUTO blankUL true _ _ rfl) [0, 0, 0, 0] true (by decide)).2⟩

/-- Counterexample to claim C10 as stated: with target OpenReadWrite, which is not
password-gated, `writeProtectUL` succeeds on a blank NTAG213 and writes page 42
with the `ACCESS` byte `0x80`, whose bit 7 is 1. -/
theorem writeProtectUL_access_bit7_counterexample :
    ∃ s' w', writeProtectUL cardReader 1 (sessionUL NT_NTAG213) PRT_NOPASS_RW none 0 false
        PRT_AUTO ⟨blankUL, []⟩ = some (true, s', w') ∧
      Event.ulWrite 42 [0x80, 0, 0, 0] true ∈ w'.log ∧
      ([0x80, 0, 0, 0] : List Nat).getD 0 0 / 128 % 2 = 1 ∧
      ¬ (PRT_NOPASS_RW = PRT_PASSWD_RW ∨ PRT_NOPASS_RW = PRT_PASSWD_RO) :=
  ⟨_, _, rfl, by decide, by decide, by decide⟩

end ProtectUL

/-! ## Write validation at the boundaries -/

section Boundary
variable {σ : Type} (T : MFRC522 σ)

theorem isClassic_iff (s : Session) :
    isClassic s = true ↔ s._mounted = true ∧ s._cardType = Classic := by
  cases hm : s._mounted <;> simp [isClassic, hm]

theorem isUltralight_iff (s : Session) :
    isUltralight s = true ↔ s._mounted = true ∧ s._cardType = Ultralight := by
  cases hm : s._mounted <;> simp [isUltralight, hm]

theorem classic_in_range_iff (s : Session) (vaddr : Nat) (hv : vaddr < 65536)
    (hM : s._maxSectorCL < 65536) (ha : vaddr % 16 = 0) :
    (¬ (addr2PhysicalAddr s vaddr Classic).sector > s._maxSectorCL ∧
     ¬ (addr2PhysicalAddr s vaddr Classic).sector < s._minSectorCL ∧
     ¬ (addr2PhysicalAddr s vaddr Classic).block ≥ 3) ↔
    (s._minSectorCL ≤ s._maxSectorCL ∧
      vaddr + 16 ≤ (s._maxSectorCL - s._minSectorCL + 1) * 48) := by
  rw [addr2PhysicalAddr_classic s vaddr hv]
  simp only
  constructor <;> intro h <;> omega

theorem ultralight_in_range_iff (s : Session) (vaddr : Nat) (hv : vaddr < 65536)
    (hM : s._maxPageUL < 255) (ha : vaddr % 4 = 0) :
    (¬ (addr2PhysicalAddr s vaddr Ultralight).blockAddr > s._maxPageUL ∧
     ¬ (addr2PhysicalAddr s vaddr Ultralight).blockAddr < s._minPageUL) ↔
    (s._minPageUL ≤ s._maxPageUL ∧
      vaddr + 4 ≤ (s._maxPageUL - s._minPageUL + 1) * 4) := by
  rw [addr2PhysicalAddr_ultralight]
  constructor <;> intro h <;> omega

theorem toInt32_small (n : Nat) (h : n < 2147483648) : toInt32 n = n := by
  unfold toInt32
  have : n % 4294967296 = n := by omega
  simp [this, h]

/-- One-unit write on a mounted Classic card. -/
theorem writeDataCL_one_unit (fuel : Nat) (s : Session) (vaddr : Nat) (data : List Nat)
    (mode : ProtectMode) (d : σ) (r : Bool) (w' : World σ)
    (hc : isClassic s = true) (hv : vaddr < 65536) (hM : s._maxSectorCL < 65536)
    (hlen : data.length = 16)
    (h : writeDataCL T fuel s vaddr data mode ⟨d, []⟩ = some (r, w')) :
    (vaddr % 16 ≠ 0 → r = false ∧ w' = ⟨d, []⟩) ∧
    (¬ (vaddr % 16 = 0 ∧ s._minSectorCL ≤ s._maxSectorCL ∧
          vaddr + 16 ≤ (s._maxSectorCL - s._minSectorCL + 1) * 48) →
      r = false ∧ ∀ e ∈ w'.log, e.isPoll = true) ∧
    (vaddr % 16 = 0 → s._minSectorCL ≤ s._maxSectorCL →
      vaddr + 16 ≤ (s._maxSectorCL - s._minSectorCL + 1) * 48 →
      (∃ w1, waitCard T 5000 fuel ⟨d, []⟩ = some (true, w1)) →
      (∃ c k ok, Event.authenticate c ((addr2PhysicalAddr s vaddr Classic).blockAddr % 256) k ok
          ∈ w'.log) ∧
      ((∀ c a k x, (T.PCD_Authenticate c a k x).1 = true) →
        (∀ a b x, (T.MIFARE_Write a b x).1 = true) →
        r = true ∧ Event.write ((addr2PhysicalAddr s vaddr Classic).blockAddr % 256) data true
          ∈ w'.log)) := by
  simp only [writeDataCL, hc, Bool.not_true, Bool.false_eq_true, if_false, _writeLengthCL] at h
  by_cases ha : vaddr % 16 = 0
  swap
  · simp only [ha, ne_eq, not_false_eq_true, if_true, Option.some.injEq, Prod.mk.injEq] at h
    obtain ⟨rfl, rfl⟩ := h
    simp [ha]
  simp only [ha, ne_eq, not_true_eq_false, if_false] at h
  refine ⟨fun hn => absurd ha hn, ?_⟩
  cases hw : waitCard T 5000 fuel ⟨d, []⟩ with
  | none => simp [hw] at h
  | some p =>
    obtain ⟨bw, w1⟩ := p
    have h1 : ∀ e ∈ w1.log, e.isPoll = true :=
      waitCard_log T (fun _ he => he) _ _ _ _ _ hw (by simp)
    cases bw with
    | false =>
      simp only [hw, Option.some.injEq, Prod.mk.injEq] at h
      obtain ⟨rfl, rfl⟩ := h
      exact ⟨fun _ => ⟨rfl, h1⟩, fun _ _ _ hex => by simp at hex⟩
    | true =>
      have hr := classic_in_range_iff s vaddr hv hM ha
      have hbuf : unitBuffer 16 data 0 16 = data := by
        apply List.ext_getElem
        · simp [unitBuffer, hlen]
        · intro i h1 h2
          simp only [unitBuffer, List.length_map, List.length_range] at h1
          simp [unitBuffer, h1, List.getD_eq_getElem?_getD, List.getElem?_eq_getElem h2]
      simp only [hw, hlen, toInt32_small 16 (by norm_num), writeLoopCL, _writeLengthCL,
        Nat.add_zero, Nat.mod_eq_of_lt hv] at h
      norm_num at h
      simp only [hbuf] at h
      generalize (if (if mode = PRT_AUTO then s._lastProtectMode else mode) = PRT_PASSWD_RW ∨
          (if mode = PRT_AUTO then s._lastProtectMode else mode) = PRT_PASSWD_RO
        then PICC_CMD_MF_AUTH_KEY_B else PICC_CMD_MF_AUTH_KEY_A) = cmd at h
      generalize (if (if mode = PRT_AUTO then s._lastProtectMode else mode) = PRT_PASSWD_RW ∨
          (if mode = PRT_AUTO then s._lastProtectMode else mode) = PRT_PASSWD_RO
        then s._authKeyB else s._authKeyA) = k at h
      by_cases hin : s._minSectorCL ≤ s._maxSectorCL ∧
          vaddr + 16 ≤ (s._maxSectorCL - s._minSectorCL + 1) * 48
      · have hr' := hr.2 hin
        simp only [gt_iff_lt, not_lt, ge_iff_le, not_le] at hr'
        obtain ⟨r1, r2, r3⟩ := hr'
        simp only [if_neg (not_lt.2 r1), if_neg (not_lt.2 r2), if_neg (not_le.2 r3)] at h
        refine ⟨fun hne => absurd ⟨ha, hin⟩ hne, fun _ _ _ _ => ?_⟩
        have hAlog := callAuthenticate_log T cmd (addr2PhysicalAddr s vaddr Classic).blockAddr k w1
        have hA1 : (callAuthenticate T cmd (addr2PhysicalAddr s vaddr Classic).blockAddr k w1).1
            = (T.PCD_Authenticate cmd ((addr2PhysicalAddr s vaddr Classic).blockAddr % 256) k
                w1.dev).1 := rfl
        generalize callAuthenticate T cmd (addr2PhysicalAddr s vaddr Classic).blockAddr k w1 = A
          at h hAlog hA1
        have hBlog := callWrite_log T (addr2PhysicalAddr s vaddr Classic).blockAddr data A.2
        have hB1 : (callWrite T (addr2PhysicalAddr s vaddr Classic).blockAddr data A.2).1
            = (T.MIFARE_Write ((addr2PhysicalAddr s vaddr Classic).blockAddr % 256) data
                A.2.dev).1 := rfl
        generalize callWrite T (addr2PhysicalAddr s vaddr Classic).blockAddr data A.2 = B
          at h hBlog hB1
        cases hA : A.1 <;> cases hB : B.1 <;>
          simp only [hA, hB, if_true, if_false, Bool.false_eq_true, Option.some.injEq,
            Prod.mk.injEq] at h <;>
          obtain ⟨rfl, rfl⟩ := h
        all_goals
          constructor
          · exact ⟨cmd, k,
              (T.PCD_Authenticate cmd ((addr2PhysicalAddr s vaddr Classic).blockAddr % 256) k
                w1.dev).1,
              by simp [callStopCrypto1_log, hBlog, hAlog]⟩
          · intro hTA hTW
            have hAt : A.1 = true := by rw [hA1]; exact hTA _ _ _ _
            have hBt : B.1 = true := by rw [hB1]; exact hTW _ _ _
            first
              | exact absurd (hA.symm.trans hAt) (by decide)
              | exact absurd (hB.symm.trans hBt) (by decide)
              | exact ⟨rfl, by simp [callStopCrypto1_log, hBlog, hTW]⟩
      · have hr' := mt hr.1 hin
        refine ⟨fun _ => ?_, fun _ h2 h3 _ => absurd ⟨h2, h3⟩ hin⟩
        have : r = false ∧ w' = w1 := by
          by_cases c1 : s._maxSectorCL < (addr2PhysicalAddr s vaddr Classic).sector
          · simp only [if_pos c1, Option.some.injEq, Prod.mk.injEq] at h
            exact ⟨h.1.symm, h.2.symm⟩
          by_cases c2 : (addr2PhysicalAddr s vaddr Classic).sector < s._minSectorCL
          · simp only [if_neg c1, if_pos c2, Option.some.injEq, Prod.mk.injEq] at h
            exact ⟨h.1.symm, h.2.symm⟩
          by_cases c3 : 3 ≤ (addr2PhysicalAddr s vaddr Classic).block
          · simp only [if_neg c1, if_neg c2, if_pos c3, Option.some.injEq, Prod.mk.injEq] at h
            exact ⟨h.1.symm, h.2.symm⟩
          exact absurd ⟨by omega, by omega, by omega⟩ hr'
        obtain ⟨rfl, rfl⟩ := this
        exact ⟨rfl, h1⟩

/-- A page address of the Ultralight translation is a byte. -/
theorem ultralight_blockAddr_byte (s : Session) (v : Nat) :
    (addr2PhysicalAddr s v Ultralight).blockAddr % 256
      = (addr2PhysicalAddr s v Ultralight).blockAddr := by
  rw [addr2PhysicalAddr_ultralight]
  omega

/-- The password challenge starts with the CRC of `1B k0 k1 k2 k3`, the first four
bytes of KeyB. -/
theorem authUL_calculateCRC (s : Session) (checkPack : Bool) (w : World σ) :
    ∃ resp, Event.calculateCRC
        [0x1B, s._authKeyB.k0, s._authKeyB.k1, s._authKeyB.k2, s._authKeyB.k3] resp
      ∈ (authUL T s checkPack w).2.log := by
  refine ⟨(T.PCD_CalculateCRC
    [0x1B, s._authKeyB.k0, s._authKeyB.k1, s._authKeyB.k2, s._authKeyB.k3] w.dev).1, ?_⟩
  have hcmd : (0x1B :: (List.range 4).map (fun i => (s._authKeyB.keyByte.take 4).getD i 0))
      = [0x1B, s._authKeyB.k0, s._authKeyB.k1, s._authKeyB.k2, s._authKeyB.k3] := rfl
  simp only [authUL, MIFARE_Ultralight_Authenticate, ne_eq, not_true_eq_false, or_self,
    if_false, hcmd]
  cases hc : (callCalculateCRC T
      [0x1B, s._authKeyB.k0, s._authKeyB.k1, s._authKeyB.k2, s._authKeyB.k3] w).1 with
  | none => simp [callCalculateCRC_log]
  | some crc =>
    cases ht : (callTransceive T
        ([0x1B, s._authKeyB.k0, s._authKeyB.k1, s._authKeyB.k2, s._authKeyB.k3]
          ++ [crc.1, crc.2])
        (callCalculateCRC T
          [0x1B, s._authKeyB.k0, s._authKeyB.k1, s._authKeyB.k2, s._authKeyB.k3] w).2).1 with
    | none => simp [callCalculateCRC_log, callTransceive_log]
    | some pack => cases checkPack <;> simp [callCalculateCRC_log, callTransceive_log]

/-- One-unit write on a mounted Ultralight tag. -/
theorem writeDataUL_one_unit (fuel : Nat) (s : Session) (vaddr : Nat) (data : List Nat)
    (mode : ProtectMode) (d : σ) (r : Bool) (w' : World σ)
    (hm : MountedUL s) (hv : vaddr < 65536) (hlen : data.length = 4)
    (h : writeDataUL T fuel s vaddr data mode ⟨d, []⟩ = some (r, w')) :
    (vaddr % 4 ≠ 0 → r = false ∧ w' = ⟨d, []⟩) ∧
    (¬ (vaddr % 4 = 0 ∧ s._minPageUL ≤ s._maxPageUL ∧
          vaddr + 4 ≤ (s._maxPageUL - s._minPageUL + 1) * 4) →
      r = false ∧
      (∀ e ∈ w'.log, e.isPoll = true ∨ e.isChallenge = true) ∧
      (¬ ((if mode = PRT_AUTO then s._lastProtectMode else mode) = PRT_PASSWD_RW ∨
          (if mode = PRT_AUTO then s._lastProtectMode else mode) = PRT_PASSWD_RO) →
        ∀ e ∈ w'.log, e.isPoll = true) ∧
      (vaddr % 4 = 0 →
        ((if mode = PRT_AUTO then s._lastProtectMode else mode) = PRT_PASSWD_RW ∨
          (if mode = PRT_AUTO then s._lastProtectMode else mode) = PRT_PASSWD_RO) →
        (∃ w1, waitCard T 5000 fuel ⟨d, []⟩ = some (true, w1)) →
        ∃ resp, Event.calculateCRC
            [0x1B, s._authKeyB.k0, s._authKeyB.k1, s._authKeyB.k2, s._authKeyB.k3] resp
          ∈ w'.log)) ∧
    (vaddr % 4 = 0 → s._minPageUL ≤ s._maxPageUL →
      vaddr + 4 ≤ (s._maxPageUL - s._minPageUL + 1) * 4 →
      (∃ w1, waitCard T 5000 fuel ⟨d, []⟩ = some (true, w1) ∧
        ((if mode = PRT_AUTO then s._lastProtectMode else mode) = PRT_PASSWD_RW ∨
         (if mode = PRT_AUTO then s._lastProtectMode else mode) = PRT_PASSWD_RO →
          (authUL T s true w1).1 = true)) →
      (∃ ok, Event.ulWrite (addr2PhysicalAddr s vaddr Ultralight).blockAddr data ok ∈ w'.log) ∧
      ((∀ a b x, (T.MIFARE_Ultralight_Write a b x).1 = true) →
        r = true ∧ Event.ulWrite (addr2PhysicalAddr s vaddr Ultralight).blockAddr data true
          ∈ w'.log)) := by
  have hM : s._maxPageUL < 255 := by have := hm.maxPage_le; omega
  simp only [writeDataUL, hm.isUltralight, Bool.not_true, Bool.false_eq_true, if_false,
    _writeLengthUL] at h
  by_cases ha : vaddr % 4 = 0
  swap
  · simp only [ha, ne_eq, not_false_eq_true, if_true, Option.some.injEq, Prod.mk.injEq] at h
    obtain ⟨rfl, rfl⟩ := h
    simp [ha]
  simp only [ha, ne_eq, not_true_eq_false, if_false] at h
  refine ⟨fun hn => absurd ha hn, ?_⟩
  cases hw : waitCard T 5000 fuel ⟨d, []⟩ with
  | none => simp [hw] at h
  | some p =>
    obtain ⟨bw, w1⟩ := p
    have h1 : ∀ e ∈ w1.log, e.isPoll = true :=
      waitCard_log T (fun _ he => he) _ _ _ _ _ hw (by simp)
    cases bw with
    | false =>
      simp only [hw, Option.some.injEq, Prod.mk.injEq] at h
      obtain ⟨rfl, rfl⟩ := h
      exact ⟨fun _ => ⟨rfl, fun e he => Or.inl (h1 e he), fun _ => h1,
        fun _ _ hex => by simp at hex⟩, fun _ _ _ hex => by simp at hex⟩
    | true =>
      have hr := ultralight_in_range_iff s vaddr hv hM ha
      have hbuf : unitBuffer 4 data 0 4 = data := by
        apply List.ext_getElem
        · simp [unitBuffer, hlen]
        · intro i h1 h2
          simp only [unitBuffer, List.length_map, List.length_range] at h1
          simp [unitBuffer, h1, List.getD_eq_getElem?_getD, List.getElem?_eq_getElem h2]
      simp only [hw] at h
      generalize (if mode = PRT_AUTO then s._lastProtectMode else mode) = m at h ⊢
      have h2 : ∀ e ∈ (if m = PRT_PASSWD_RW ∨ m = PRT_PASSWD_RO
          then authUL T s true w1 else (true, w1)).2.log,
          e.isPoll = true ∨ e.isChallenge = true := by
        split
        · exact authUL_log T (fun _ he => Or.inr he) _ _ _ (fun e he => Or.inl (h1 e he))
        · exact fun e he => Or.inl (h1 e he)
      have h3 : ¬ (m = PRT_PASSWD_RW ∨ m = PRT_PASSWD_RO) →
          ∀ e ∈ (if m = PRT_PASSWD_RW ∨ m = PRT_PASSWD_RO
            then authUL T s true w1 else (true, w1)).2.log, e.isPoll = true := by
        intro hg
        rw [if_neg hg]
        exact h1
      have h4 : (m = PRT_PASSWD_RW ∨ m = PRT_PASSWD_RO) →
          ∃ resp, Event.calculateCRC
              [0x1B, s._authKeyB.k0, s._authKeyB.k1, s._authKeyB.k2, s._authKeyB.k3] resp
            ∈ (if m = PRT_PASSWD_RW ∨ m = PRT_PASSWD_RO
                then authUL T s true w1 else (true, w1)).2.log := by
        intro hg
        rw [if_pos hg]
        exact authUL_calculateCRC T s true w1
      have hA1 : ((m = PRT_PASSWD_RW ∨ m = PRT_PASSWD_RO → (authUL T s true w1).1 = true) →
          (if m = PRT_PASSWD_RW ∨ m = PRT_PASSWD_RO
            then authUL T s true w1 else (true, w1)).1 = true) := by
        intro hg
        split
        · rename_i hgm; exact hg hgm
        · rfl
      generalize (if m = PRT_PASSWD_RW ∨ m = PRT_PASSWD_RO
          then authUL T s true w1 else (true, w1)) = A at h h2 h3 h4 hA1
      cases hA : A.1 with
      | false =>
        simp only [hA, Bool.not_false, if_true, Option.some.injEq, Prod.mk.injEq] at h
        obtain ⟨rfl, rfl⟩ := h
        refine ⟨fun _ => ⟨rfl, h2, h3, fun _ hg _ => h4 hg⟩, fun _ _ _ hex => ?_⟩
        obtain ⟨w1', hw1, hg⟩ := hex
        simp only [Option.some.injEq, Prod.mk.injEq, true_and] at hw1
        subst hw1
        have := hA1 hg
        rw [hA] at this
        cases this
      | true =>
        simp only [hA, Bool.not_true, Bool.false_eq_true, if_false, hlen,
          toInt32_small 4 (by norm_num), writeLoopUL, _writeLengthUL, Nat.add_zero,
          Nat.mod_eq_of_lt hv] at h
        norm_num at h
        simp only [hbuf] at h
        by_cases hin : s._minPageUL ≤ s._maxPageUL ∧
            vaddr + 4 ≤ (s._maxPageUL - s._minPageUL + 1) * 4
        · have hr' := hr.2 hin
          simp only [gt_iff_lt, not_lt] at hr'
          obtain ⟨r1, r2⟩ := hr'
          simp only [if_neg (not_lt.2 r1), if_neg (not_lt.2 r2)] at h
          refine ⟨fun hne => absurd ⟨ha, hin⟩ hne, fun _ _ _ _ => ?_⟩
          have hBlog := callUlWrite_log T (addr2PhysicalAddr s vaddr Ultralight).blockAddr data A.2
          have hB1 : (callUlWrite T (addr2PhysicalAddr s vaddr Ultralight).blockAddr data A.2).1
              = (T.MIFARE_Ultralight_Write
                  ((addr2PhysicalAddr s vaddr Ultralight).blockAddr % 256) data A.2.dev).1 := rfl
          rw [ultralight_blockAddr_byte] at hBlog hB1
          generalize callUlWrite T (addr2PhysicalAddr s vaddr Ultralight).blockAddr data A.2 = B
            at h hBlog hB1
          cases hB : B.1 <;>
            simp only [hB, if_true, if_false, Bool.false_eq_true, Option.some.injEq,
              Prod.mk.injEq] at h <;>
            obtain ⟨rfl, rfl⟩ := h
          all_goals
            constructor
            · exact ⟨(T.MIFARE_Ultralight_Write (addr2PhysicalAddr s vaddr Ultralight).blockAddr
                data A.2.dev).1, by simp [hBlog]⟩
            · intro hTW
              have hBt : B.1 = true := by rw [hB1]; exact hTW _ _ _
              first
                | exact absurd (hB.symm.trans hBt) (by decide)
                | exact ⟨rfl, by simp [hBlog, hTW]⟩
        · have hr' := mt hr.1 hin
          refine ⟨fun _ => ?_, fun _ h2 h3 _ => absurd ⟨h2, h3⟩ hin⟩
          have : r = false ∧ w' = A.2 := by
            by_cases c1 : s._maxPageUL < (addr2PhysicalAddr s vaddr Ultralight).blockAddr
            · simp only [if_pos c1, Option.some.injEq, Prod.mk.injEq] at h
              exact ⟨h.1.symm, h.2.symm⟩
            by_cases c2 : (addr2PhysicalAddr s vaddr Ultralight).blockAddr < s._minPageUL
            · simp only [if_neg c1, if_pos c2, Option.some.injEq, Prod.mk.injEq] at h
              exact ⟨h.1.symm, h.2.symm⟩
            exact absurd ⟨by omega, by omega⟩ hr'
          obtain ⟨rfl, rfl⟩ := this
          exact ⟨rfl, h2, h3, fun _ hg _ => h4 hg⟩

theorem writeData_classic (fuel : Nat) (s : Session) (vaddr : Nat) (data : List Nat)
    (mode : ProtectMode) (w : World σ) (hc : isClassic s = true) :
    writeData T fuel s vaddr data mode w = writeDataCL T fuel s vaddr data
      (if mode = PRT_AUTO then s._lastProtectMode else mode) w := by
  obtain ⟨h1, h2⟩ := (isClassic_iff s).1 hc
  simp [writeData, isMounted, h1, h2]

theorem writeData_ultralight (fuel : Nat) (s : Session) (vaddr : Nat) (data : List Nat)
    (mode : ProtectMode) (w : World σ) (hc : isUltralight s = true) :
    writeData T fuel s vaddr data mode w = writeDataUL T fuel s vaddr data
      (if mode = PRT_AUTO then s._lastProtectMode else mode) w := by
  obtain ⟨h1, h2⟩ := (isUltralight_iff s).1 hc
  simp [writeData, isMounted, h1, h2]

theorem resolve_idem (s : Session) (mode : ProtectMode) :
    (if (if mode = PRT_AUTO then s._lastProtectMode else mode) = PRT_AUTO
      then s._lastProtectMode else (if mode = PRT_AUTO then s._lastProtectMode else mode))
    = (if mode = PRT_AUTO then s._lastProtectMode else mode) := by
  by_cases h1 : mode = PRT_AUTO
  · by_cases h2 : s._lastProtectMode = PRT_AUTO <;> simp [h1, h2]
  · simp [h1]

/-- Claim C3, as amended: `writeData` of exactly one unit (16 bytes on Classic, 4 on
Ultralight) on a mounted card with `minUnit ≤ maxUnit`, the capacity being
`(maxUnit - minUnit + 1) * unitPayloadBytes` (the value of `getVCapacities` when it
fits in 16 bits).  A misaligned `vaddr` returns `false` with no call to the reader at
all, polling included.  A `vaddr` that is not both aligned and at most
`capacity - unit`, such as `vaddr = capacity`, returns `false`; on Classic the log
holds presence polling only, hence no `PCD_Authenticate` and no `MIFARE_Write`; on
Ultralight it holds presence polling and the password challenge only, hence no
`MIFARE_Ultralight_Write`: nothing but polling when the resolved mode is not
password-gated, and in a password-gated mode with the tag present the challenge
`1B k0 k1 k2 k3` has been sent, since `writeDataUL` authenticates before it checks
the range.  An aligned `vaddr ≤ capacity - unit` with the tag present (and, on
Ultralight in a password-gated mode, the password challenge passed) reaches the
authentication of the translated block, resp. the write of the translated page, and
the call returns `true` when the reader accepts these calls. -/
theorem writeData_boundary (fuel : Nat) (s : Session) (vaddr : Nat) (data : List Nat)
    (mode : ProtectMode) (d : σ) (r : Bool) (w' : World σ) (hv : vaddr < 65536)
    (h : writeData T fuel s vaddr data mode ⟨d, []⟩ = some (r, w')) :
    (isClassic s = true → s._maxSectorCL < 65536 → s._minSectorCL ≤ s._maxSectorCL →
      data.length = 16 →
      ((s._maxSectorCL - s._minSectorCL + 1) * 48 < 65536 →
        getVCapacities s = (s._maxSectorCL - s._minSectorCL + 1) * 48) ∧
      (vaddr % 16 ≠ 0 → r = false ∧ w' = ⟨d, []⟩) ∧
      (¬ (vaddr % 16 = 0 ∧ vaddr + 16 ≤ (s._maxSectorCL - s._minSectorCL + 1) * 48) →
        r = false ∧ ∀ e ∈ w'.log, e.isPoll = true) ∧
      (vaddr % 16 = 0 → vaddr + 16 ≤ (s._maxSectorCL - s._minSectorCL + 1) * 48 →
        (∃ w1, waitCard T 5000 fuel ⟨d, []⟩ = some (true, w1)) →
        (∃ c k ok, Event.authenticate c
            ((addr2PhysicalAddr s vaddr Classic).blockAddr % 256) k ok ∈ w'.log) ∧
        ((∀ c a k x, (T.PCD_Authenticate c a k x).1 = true) →
          (∀ a b x, (T.MIFARE_Write a b x).1 = true) →
          r = true ∧ Event.write ((addr2PhysicalAddr s vaddr Classic).blockAddr % 256) data true
            ∈ w'.log))) ∧
    (MountedUL s → s._minPageUL ≤ s._maxPageUL → data.length = 4 →
      getVCapacities s = (s._maxPageUL - s._minPageUL + 1) * 4 ∧
      (vaddr % 4 ≠ 0 → r = false ∧ w' = ⟨d, []⟩) ∧
      (¬ (vaddr % 4 = 0 ∧ vaddr + 4 ≤ (s._maxPageUL - s._minPageUL + 1) * 4) →
        r = false ∧
        (∀ e ∈ w'.log, e.isPoll = true ∨ e.isChallenge = true) ∧
        (¬ ((if mode = PRT_AUTO then s._lastProtectMode else mode) = PRT_PASSWD_RW ∨
            (if mode = PRT_AUTO then s._lastProtectMode else mode) = PRT_PASSWD_RO) →
          ∀ e ∈ w'.log, e.isPoll = true) ∧
        (vaddr % 4 = 0 →
          ((if mode = PRT_AUTO then s._lastProtectMode else mode) = PRT_PASSWD_RW ∨
            (if mode = PRT_AUTO then s._lastProtectMode else mode) = PRT_PASSWD_RO) →
          (∃ w1, waitCard T 5000 fuel ⟨d, []⟩ = some (true, w1)) →
          ∃ resp, Event.calculateCRC
              [0x1B, s._authKeyB.k0, s._authKeyB.k1, s._authKeyB.k2, s._authKeyB.k3] resp
            ∈ w'.log)) ∧
      (vaddr % 4 = 0 → vaddr + 4 ≤ (s._maxPageUL - s._minPageUL + 1) * 4 →
        (∃ w1, waitCard T 5000 fuel ⟨d, []⟩ = some (true, w1) ∧
          ((if mode = PRT_AUTO then s._lastProtectMode else mode) = PRT_PASSWD_RW ∨
           (if mode = PRT_AUTO then s._lastProtectMode else mode) = PRT_PASSWD_RO →
            (authUL T s true w1).1 = true)) →
        (∃ ok, Event.ulWrite (addr2PhysicalAddr s vaddr Ultralight).blockAddr data ok
            ∈ w'.log) ∧
        ((∀ a b x, (T.MIFARE_Ultralight_Write a b x).1 = true) →
          r = true ∧ Event.ulWrite (addr2PhysicalAddr s vaddr Ultralight).blockAddr data true
            ∈ w'.log))) := by
  constructor
  · intro hc hM hle hlen
    rw [writeData_classic T _ _ _ _ _ _ hc] at h
    obtain ⟨c1, c2, c3⟩ := writeDataCL_one_unit T fuel s vaddr data _ d r w' hc hv hM hlen h
    refine ⟨getVCapacities_classic_eq hc hle, c1, ?_, ?_⟩
    · intro hn
      exact c2 (fun hx => hn ⟨hx.1, hx.2.2⟩)
    · intro ha hin hex
      exact c3 ha hle hin hex
  · intro hm hle hlen
    rw [writeData_ultralight T _ _ _ _ _ _ hm.isUltralight] at h
    obtain ⟨c1, c2, c3⟩ := writeDataUL_one_unit T fuel s vaddr data _ d r w' hm hv hlen h
    have hmx := hm.maxPage_le
    rw [resolve_idem] at c2 c3
    refine ⟨getVCapacities_ultralight_eq hm.isUltralight hle (by omega), c1, ?_, ?_⟩
    · intro hn
      exact c2 (fun hx => hn ⟨hx.1, hx.2.2⟩)
    · intro ha hin hex
      exact c3 ha hle hin hex

/-- Witness of claim C3, as amended.  On a blank Classic card with the default bounds (capacity
720) a 16-byte write at `vaddr = 704 = capacity - 16` returns `true`, the write at
`vaddr = 720 = capacity` returns `false` after presence polling only, and the write
at `vaddr = 1` returns `false` with an empty log.  On a blank NTAG213 (capacity 140)
a 4-byte write at `vaddr = 136` returns `true`; the write at `vaddr = 140` returns
`false` after presence polling only in the mode OpenReadWrite, and in the mode
PasswordReadWrite after presence polling and the password challenge, with no page
write. -/
theorem writeData_boundary_witness :
    (∃ w', writeData cardReader 1 sessionCL 704 (List.replicate 16 7) PRT_AUTO ⟨blankCL, []⟩
      = some (true, w')) ∧
    (∃ w', writeData cardReader 1 sessionCL 720 (List.replicate 16 7) PRT_AUTO ⟨blankCL, []⟩
      = some (false, w') ∧ ∀ e ∈ w'.log, e.isPoll = true) ∧
    (∃ w', writeData cardReader 1 sessionCL 1 (List.replicate 16 7) PRT_AUTO ⟨blankCL, []⟩
      = some (false, w') ∧ w' = ⟨blankCL, []⟩) ∧
    (∃ w', writeData cardReader 1 (sessionUL NT_NTAG213) 136 [1, 2, 3, 4] PRT_AUTO ⟨blankUL, []⟩
      = some (true, w')) ∧
    (∃ w', writeData cardReader 1 (sessionUL NT_NTAG213) 140 [1, 2, 3, 4] PRT_AUTO ⟨blankUL, []⟩
      = some (false, w') ∧ ∀ e ∈ w'.log, e.isPoll = true) ∧
    (∃ w', writeData cardReader 1 (sessionUL NT_NTAG213) 140 [1, 2, 3, 4] PRT_PASSWD_RW
        ⟨blankUL, []⟩ = some (false, w') ∧
      (∀ e ∈ w'.log, e.isPoll = true ∨ e.isChallenge = true) ∧
      ∃ resp, Event.calculateCRC [0x1B, 0xFF, 0xFF, 0xFF, 0xFF] resp ∈ w'.log) :=
  ⟨⟨_, rfl⟩,
   ⟨_, rfl,
    (((writeData_boundary cardReader 1 sessionCL 720 (List.replicate 16 7) PRT_AUTO blankCL
      false _ (by decide) rfl).1 (by decide) (by decide) (by decide) (by decide)).2.2.1
      (by decide)).2⟩,
   ⟨_, rfl,
    (((writeData_boundary cardReader 1 sessionCL 1 (List.replicate 16 7) PRT_AUTO blankCL
      false _ (by decide) rfl).1 (by decide) (by decide) (by decide) (by decide)).2.1
      (by decide)).2⟩,
   ⟨_, rfl⟩,
   ⟨_, rfl,
    ((((writeData_boundary cardReader 1 (sessionUL NT_NTAG213) 140 [1, 2, 3, 4] PRT_AUTO blankUL
      false _ (by decide) rfl).2 (by decide) (by decide) (by decide)).2.2.1
      (by decide)).2.2.1) (by decide)⟩,
   ⟨_, rfl,
    ((((writeData_boundary cardReader 1 (sessionUL NT_NTAG213) 140 [1, 2, 3, 4] PRT_PASSWD_RW
      blankUL false _ (by decide) rfl).2 (by decide) (by decide) (by decide)).2.2.1
      (by decide)).2.1),
    ((((writeData_boundary cardReader 1 (sessionUL NT_NTAG213) 140 [1, 2, 3, 4] PRT_PASSWD_RW
      blankUL false _ (by decide) rfl).2 (by decide) (by decide) (by decide)).2.2.1
      (by decide)).2.2.2) (by decide) (by decide) ⟨_, rfl⟩⟩⟩

/-- Counterexample to claim C3 as stated: on a mounted NTAG213 (pages 5 to 39,
capacity 140) in the mode PasswordReadWrite, the one-page write at
`vaddr = capacity = 140` returns `false` with no page write, but not before the
authenticate step: after presence polling the password challenge (the CRC of
`1B FF FF FF FF` and the transceive of the command) has been sent to the tag and
answered, because `writeDataUL` calls `authUL` before the loop that checks the
range. -/
theorem writeData_boundary_counterexample :
    ∃ w', writeData cardReader 1 (sessionUL NT_NTAG213) 140 [1, 2, 3, 4] PRT_PASSWD_RW
        ⟨blankUL, []⟩ = some (false, w') ∧
      getVCapacities (sessionUL NT_NTAG213) = 140 ∧
      w'.log = [Event.isNewCardPresent true, Event.readCardSerial true,
        Event.calculateCRC [0x1B, 0xFF, 0xFF, 0xFF, 0xFF] (some (0, 0)),
        Event.transceive [0x1B, 0xFF, 0xFF, 0xFF, 0xFF, 0, 0] (some [0xFF, 0xFF, 0, 0])] :=
  ⟨_, rfl, by decide, rfl⟩

end Boundary

/-! ## Reads are not bounds-checked -/

section ReadBounds

/-- Claim C4, evaluated at the failing input: on a mounted Classic card with the
default bounds (capacity 720, sectors 1 to 15) `readData` at `vaddr = 720` with a
16-byte buffer returns `true` after authenticating and reading block 64 of sector
16; on a mounted NTAG213 (capacity 140, pages 5 to 39) `readData` at `vaddr = 140`
returns `true` after reading page 40. -/
theorem readData_past_capacity :
    (∃ out w', readData cardReader 1 sessionCL 720 (List.replicate 16 0) PRT_AUTO ⟨blankCL, []⟩
        = some (true, out, w') ∧
      getVCapacities sessionCL = 720 ∧
      (addr2PhysicalAddr sessionCL 720 Classic).sector = 16 ∧
      sessionCL._maxSectorCL = 15 ∧
      Event.authenticate PICC_CMD_MF_AUTH_KEY_A 64 keyFF true ∈ w'.log ∧
      Event.read 64 (some (List.replicate 16 0)) ∈ w'.log) ∧
    (∃ out w', readData cardReader 1 (sessionUL NT_NTAG213) 140 (List.replicate 4 0) PRT_AUTO
        ⟨blankUL, []⟩ = some (true, out, w') ∧
      getVCapacities (sessionUL NT_NTAG213) = 140 ∧
      (sessionUL NT_NTAG213)._maxPageUL = 39 ∧
      Event.read 40 (some (List.replicate 16 0)) ∈ w'.log) :=
  ⟨⟨_, _, rfl, by decide, by decide, by decide, by decide, by decide⟩,
   ⟨_, _, rfl, by decide, by decide, by decide⟩⟩

end ReadBounds

/-! ## Write/read round trip on the simulated card -/

section RoundTrip

@[simp] theorem cardReader_authenticate (c : AuthCmd) (a : Nat) (k : AuthKey) (w : World Card) :
    callAuthenticate cardReader c a k w
      = (true, ⟨w.dev, w.log ++ [Event.authenticate c (a % 256) k true]⟩) := rfl

@[simp] theorem cardReader_write (a : Nat) (b : List Nat) (w : World Card) :
    callWrite cardReader a b w
      = (true, ⟨w.dev.store (a % 256) b, w.log ++ [Event.write (a % 256) b true]⟩) := by
  simp [callWrite, cardReader]

@[simp] theorem cardReader_ulWrite (a : Nat) (b : List Nat) (w : World Card) :
    callUlWrite cardReader a b w
      = (true, ⟨w.dev.store (a % 256) b, w.log ++ [Event.ulWrite (a % 256) b true]⟩) := by
  simp [callUlWrite, cardReader]

@[simp] theorem cardReader_read (a : Nat) (w : World Card) :
    callRead cardReader a w
      = (some (w.dev.load (a % 256)),
          ⟨w.dev, w.log ++ [Event.read (a % 256) (some (w.dev.load (a % 256)))]⟩) := by
  simp [callRead, cardReader]

@[simp] theorem cardReader_stopCrypto1 (w : World Card) :
    callStopCrypto1 cardReader w = ⟨w.dev, w.log ++ [Event.stopCrypto1]⟩ := rfl

theorem cardReader_waitCard (timeout fuel : Nat) (hf : 0 < fuel) (w : World Card) :
    waitCard cardReader timeout fuel w
      = some (true, ⟨w.dev, w.log ++ [Event.isNewCardPresent true, Event.readCardSerial true]⟩) := by
  obtain ⟨n, rfl⟩ : ∃ n, fuel = n + 1 := ⟨fuel - 1, by omega⟩
  simp [waitCard, waitCardLoop, callMillis, callIsNewCardPresent, callReadCardSerial, cardReader]

theorem cardReader_authUL (s : Session) (w : World Card)
    (h0 : w.dev.pack0 = s._authKeyB.k4) (h1 : w.dev.pack1 = s._authKeyB.k5) :
    ∃ l, authUL cardReader s true w = (true, ⟨w.dev, l⟩) := by
  simp [authUL, MIFARE_Ultralight_Authenticate, callCalculateCRC, callTransceive, cardReader,
    h0, h1]

theorem classic_translate_in_range (s : Session) (v : Nat) (hv : v < 65536)
    (hM : s._maxSectorCL < 65536)
    (hin : v < (s._maxSectorCL - s._minSectorCL + 1) * 48) (hle : s._minSectorCL ≤ s._maxSectorCL) :
    (addr2PhysicalAddr s v Classic).sector = v / 48 + s._minSectorCL ∧
    (addr2PhysicalAddr s v Classic).block = v % 48 / 16 ∧
    (addr2PhysicalAddr s v Classic).blockAddr = ((v / 48 + s._minSectorCL) * 4 + v % 48 / 16) % 65536 := by
  rw [addr2PhysicalAddr_classic s v hv]
  have e1 : (v / 48 + s._minSectorCL) % 65536 = v / 48 + s._minSectorCL := by omega
  simp only [e1, and_self]

theorem classic_blockAddr_same_unit (s : Session) (v t : Nat) (hv : v + t < 65536)
    (ha : v % 16 = 0) (ht : t < 16) :
    (addr2PhysicalAddr s (v + t) Classic).blockAddr = (addr2PhysicalAddr s v Classic).blockAddr := by
  rw [addr2PhysicalAddr_classic s (v + t) hv, addr2PhysicalAddr_classic s v (by omega)]
  have e1 : (v + t) / 48 = v / 48 := by omega
  have e2 : (v + t) % 48 / 16 = v % 48 / 16 := by omega
  simp only [e1, e2]

theorem classic_blockAddr_inj (s : Session) (v1 v2 : Nat) (h1 : v1 < 65536) (h2 : v2 < 65536)
    (r1 : v1 / 48 + s._minSectorCL < 65536) (r2 : v2 / 48 + s._minSectorCL < 65536)
    (h : (addr2PhysicalAddr s v1 Classic).blockAddr = (addr2PhysicalAddr s v2 Classic).blockAddr) :
    v1 / 16 = v2 / 16 := by
  rw [addr2PhysicalAddr_classic s v1 h1, addr2PhysicalAddr_classic s v2 h2] at h
  simp only [Nat.mod_eq_of_lt r1, Nat.mod_eq_of_lt r2] at h
  have := mod_inj_of_close h (by omega) (by omega)
  omega

theorem unitBuffer_length (u : Nat) (data : List Nat) (index c : Nat) :
    (unitBuffer u data index c).length = u := by
  simp [unitBuffer]

theorem unitBuffer_getD (u : Nat) (data : List Nat) (index c t : Nat) (ht : t < u) :
    (unitBuffer u data index c).getD t 0 = if t < c then data.getD (index + t) 0 else 0 := by
  simp [unitBuffer, List.getD_eq_getElem?_getD, List.getElem?_map, List.getElem?_range ht]

@[simp] theorem Card.store_unit (c : Card) (a : Nat) (b : List Nat) :
    (c.store a b).unit = c.unit := rfl

@[simp] theorem Card.store_pack0 (c : Card) (a : Nat) (b : List Nat) :
    (c.store a b).pack0 = c.pack0 := rfl

@[simp] theorem Card.store_pack1 (c : Card) (a : Nat) (b : List Nat) :
    (c.store a b).pack1 = c.pack1 := rfl

theorem Card.store_mem (c : Card) (a : Nat) (b : List Nat) (x : Nat) :
    (c.store a b).mem x =
      if a * c.unit ≤ x ∧ x < a * c.unit + b.length then b.getD (x - a * c.unit) 0
      else c.mem x := rfl

/-- Inside a capacity of at most 64 sectors the block address is a byte. -/
theorem classic_blockAddr_byte (s : Session) (v : Nat) (hv : v < 65536)
    (hB : s._maxSectorCL ≤ 63) (hle : s._minSectorCL ≤ s._maxSectorCL)
    (hin : v < (s._maxSectorCL - s._minSectorCL + 1) * 48) :
    (addr2PhysicalAddr s v Classic).blockAddr % 256 = (addr2PhysicalAddr s v Classic).blockAddr := by
  obtain ⟨-, -, e3⟩ := classic_translate_in_range s v hv (by omega) hin hle
  have hs : v / 48 + s._minSectorCL ≤ 63 := by
    have h48 : v / 48 < s._maxSectorCL - s._minSectorCL + 1 :=
      Nat.div_lt_of_lt_mul (by rw [Nat.mul_comm]; exact hin)
    omega
  have hb3 : v % 48 / 16 < 3 := by omega
  have h254 : (v / 48 + s._minSectorCL) * 4 + v % 48 / 16 ≤ 254 := by omega
  rw [e3, Nat.mod_eq_of_lt (Nat.lt_of_le_of_lt h254 (by norm_num)),
    Nat.mod_eq_of_lt (Nat.lt_of_le_of_lt h254 (by norm_num))]

/-- The write loop of `writeDataCL` on the simulated card, inside the capacity: the
loop runs to its end, and a byte of `bytes` is in the memory at its translated
address, the block being the byte the reader receives, unless a later unit of the
same write is sent to the same block. -/
theorem writeLoopCL_card (s : Session) (vaddr : Nat) (bytes : List Nat) (protect : Bool)
    (hva : vaddr % 16 = 0) (hM : s._maxSectorCL < 65536)
    (hle : s._minSectorCL ≤ s._maxSectorCL) (hlt : vaddr + bytes.length < 65536)
    (hcap : vaddr + bytes.length ≤ (s._maxSectorCL - s._minSectorCL + 1) * 48) :
    ∀ (fuel index : Nat) (w : World Card), w.dev.unit = 16 → index ≤ bytes.length →
      (index < bytes.length → index % 16 = 0) → bytes.length - index ≤ fuel →
      ∃ w', writeLoopCL cardReader s vaddr bytes protect fuel ((bytes.length : Int) - index)
          index w = (LoopExit.fin false, w') ∧
        w'.dev.unit = 16 ∧
        (∀ j, index ≤ j → j < bytes.length →
          (∀ k, j / 16 < k / 16 → k < bytes.length →
            (addr2PhysicalAddr s (vaddr + k) Classic).blockAddr % 256
              ≠ (addr2PhysicalAddr s (vaddr + j) Classic).blockAddr % 256) →
          w'.dev.mem ((addr2PhysicalAddr s (vaddr + j) Classic).blockAddr % 256 * 16 + j % 16)
            = bytes.getD j 0) ∧
        (∀ x, (∀ k, index ≤ k → k < bytes.length →
            x / 16 ≠ (addr2PhysicalAddr s (vaddr + k) Classic).blockAddr % 256) →
          w'.dev.mem x = w.dev.mem x) := by
  intro fuel
  induction fuel with
  | zero =>
    intro index w hu hi _ hf
    exact ⟨w, by simp [writeLoopCL], hu, fun j h1 h2 => by omega, fun x _ => rfl⟩
  | succ n ih =>
    intro index w hu hi ha hf
    by_cases hlt' : index < bytes.length
    swap
    · have hrem : ¬ ((bytes.length : Int) - index > 0) := by omega
      exact ⟨w, by simp only [writeLoopCL, if_neg hrem], hu, fun j h1 h2 => by omega,
        fun x _ => rfl⟩
    have ha' := ha hlt'
    have hrem : (bytes.length : Int) - index > 0 := by omega
    have hv : vaddr + index < 65536 := by omega
    have hin : vaddr + index < (s._maxSectorCL - s._minSectorCL + 1) * 48 := by omega
    obtain ⟨e1, e2, e3⟩ := classic_translate_in_range s (vaddr + index) hv hM hin hle
    have c1 : ¬ ((addr2PhysicalAddr s (vaddr + index) Classic).sector > s._maxSectorCL) := by
      rw [e1]; omega
    have c2 : ¬ ((addr2PhysicalAddr s (vaddr + index) Classic).sector < s._minSectorCL) := by
      rw [e1]; omega
    have c3 : ¬ ((addr2PhysicalAddr s (vaddr + index) Classic).block ≥ 3) := by
      rw [e2]; omega
    obtain ⟨c, hc⟩ : ∃ c, c = min (bytes.length - index) 16 := ⟨_, rfl⟩
    have hcp : (if (bytes.length : Int) - index - ((16 : Nat) : Int) < 0
        then ((bytes.length : Int) - index).toNat else 16) = c := by
      split <;> omega
    have hrem' : (bytes.length : Int) - index - (c : Int) = (bytes.length : Int)
        - ((index + c : Nat) : Int) := by omega
    simp only [writeLoopCL, if_pos hrem, Nat.mod_eq_of_lt hv, if_neg c1, if_neg c2, if_neg c3,
      cardReader_authenticate, cardReader_write, if_true, _writeLengthCL, hcp, hrem']
    obtain ⟨w', hw', hu', i1, i2⟩ := ih (index + c)
      ⟨w.dev.store ((addr2PhysicalAddr s (vaddr + index) Classic).blockAddr % 256)
          (unitBuffer 16 bytes index c),
        (w.log ++ [Event.authenticate (if protect = true then PICC_CMD_MF_AUTH_KEY_B
            else PICC_CMD_MF_AUTH_KEY_A)
            ((addr2PhysicalAddr s (vaddr + index) Classic).blockAddr % 256)
            (if protect = true then s._authKeyB else s._authKeyA) true]) ++
          [Event.write ((addr2PhysicalAddr s (vaddr + index) Classic).blockAddr % 256)
            (unitBuffer 16 bytes index c) true]⟩
      (by simpa using hu) (by omega) (by omega) (by omega)
    refine ⟨w', hw', hu', ?_, ?_⟩
    · intro j hj1 hj2 hnl
      by_cases hj : j < index + c
      · have hsame : (addr2PhysicalAddr s (vaddr + j) Classic).blockAddr
            = (addr2PhysicalAddr s (vaddr + index) Classic).blockAddr := by
          have := classic_blockAddr_same_unit s (vaddr + index) (j - index) (by omega)
            (by omega) (by omega)
          rwa [show vaddr + index + (j - index) = vaddr + j by omega] at this
        rw [hsame] at hnl ⊢
        rw [i2]
        · simp only [Card.store_mem, hu, unitBuffer_length]
          rw [if_pos (by omega)]
          rw [unitBuffer_getD 16 bytes index c _ (by omega)]
          rw [if_pos (by omega)]
          congr 1
          omega
        · intro k hk1 hk2 heq
          have hx : ((addr2PhysicalAddr s (vaddr + index) Classic).blockAddr % 256 * 16 + j % 16)
              / 16 = (addr2PhysicalAddr s (vaddr + index) Classic).blockAddr % 256 := by omega
          rw [hx] at heq
          exact hnl k (by omega) hk2 heq.symm
      · exact i1 j (by omega) hj2 hnl
    · intro x hx
      rw [i2 x (fun k hk1 hk2 => hx k (by omega) hk2)]
      have := hx index (le_refl _) hlt'
      simp only [Card.store_mem, hu, unitBuffer_length]
      rw [if_neg (by omega)]

theorem memcpy_length (dst : List Nat) (off : Nat) (src : List Nat) (n : Nat)
    (h : off + n ≤ dst.length) : (memcpy dst off src n).length = dst.length := by
  simp only [memcpy, List.length_append, List.length_take, List.length_map, List.length_range,
    List.length_drop]
  omega

theorem memcpy_take (dst : List Nat) (off : Nat) (src : List Nat) (n : Nat)
    (h : off + n ≤ dst.length) :
    (memcpy dst off src n).take (off + n)
      = dst.take off ++ (List.range n).map (fun i => src.getD i 0) := by
  have hl : (dst.take off ++ (List.range n).map (fun i => src.getD i 0)).length = off + n := by
    simp only [List.length_append, List.length_take, List.length_map, List.length_range]
    omega
  rw [memcpy, ← hl, List.take_left]

theorem map_range_eq_take_drop (f : Nat → Nat) (bytes : List Nat) (index c : Nat)
    (h : index + c ≤ bytes.length) (hf : ∀ i, i < c → f i = bytes.getD (index + i) 0) :
    (List.range c).map f = (bytes.drop index).take c := by
  apply List.ext_getElem
  · simp only [List.length_map, List.length_range, List.length_take, List.length_drop]
    omega
  · intro i h1 h2
    simp only [List.length_map, List.length_range] at h1
    simp only [List.getElem_map, List.getElem_range, List.getElem_take, List.getElem_drop]
    rw [hf i h1, List.getD_eq_getElem?_getD, List.getElem?_eq_getElem (by omega)]
    rfl

theorem take_drop_glue (out bytes : List Nat) (index c : Nat) :
    out.take index ++ (bytes.drop index).take c ++ bytes.drop (index + c)
      = out.take index ++ bytes.drop index := by
  rw [List.append_assoc]
  congr 1
  rw [← List.drop_drop]
  exact List.take_append_drop c (bytes.drop index)

@[simp] theorem Card.load_getD (c : Card) (a i : Nat) (h : i < 16) :
    (c.load a).getD i 0 = c.mem (a * c.unit + i) := by
  simp [Card.load, List.getD_eq_getElem?_getD, List.getElem?_map, List.getElem?_range h]

/-- The read loop of `readDataCL` on the simulated card when the memory holds
`bytes` at the translated addresses, the block being the byte the reader receives. -/
theorem readLoopCL_card (s : Session) (vaddr : Nat) (bytes : List Nat) (protect : Bool)
    (hva : vaddr % 16 = 0) (hlt : vaddr + bytes.length < 65536) :
    ∀ (fuel index : Nat) (out : List Nat) (w : World Card), w.dev.unit = 16 →
      out.length = bytes.length → index ≤ bytes.length →
      (index < bytes.length → index % 16 = 0) → bytes.length - index ≤ fuel →
      (∀ j, index ≤ j → j < bytes.length →
        w.dev.mem ((addr2PhysicalAddr s (vaddr + j) Classic).blockAddr % 256 * 16 + j % 16)
          = bytes.getD j 0) →
      ∃ w', readLoopCL cardReader s vaddr protect fuel ((bytes.length : Int) - index) index out w
          = (false, out.take index ++ bytes.drop index, w') := by
  intro fuel
  induction fuel with
  | zero =>
    intro index out w _ ho hi _ hf _
    have : index = bytes.length := by omega
    subst this
    have hres : out.take bytes.length ++ bytes.drop bytes.length = out := by
      rw [List.drop_length, List.append_nil, ← ho, List.take_length]
    refine ⟨w, ?_⟩
    rw [hres]
    simp only [readLoopCL]
  | succ n ih =>
    intro index out w hu ho hi ha hf hmem
    by_cases hlt' : index < bytes.length
    swap
    · have hrem : ¬ ((bytes.length : Int) - index > 0) := by omega
      have : index = bytes.length := by omega
      subst this
      have hres : out.take bytes.length ++ bytes.drop bytes.length = out := by
        rw [List.drop_length, List.append_nil, ← ho, List.take_length]
      refine ⟨w, ?_⟩
      rw [hres]
      simp only [readLoopCL, if_neg hrem]
    have ha' := ha hlt'
    have hrem : (bytes.length : Int) - index > 0 := by omega
    have hv : vaddr + index < 65536 := by omega
    obtain ⟨c, hc⟩ : ∃ c, c = min (bytes.length - index) 16 := ⟨_, rfl⟩
    have hcp : (if (bytes.length : Int) - index - ((16 : Nat) : Int) < 0
        then ((bytes.length : Int) - index).toNat else 16) = c := by
      split <;> omega
    have hrem' : (bytes.length : Int) - index - (c : Int) = (bytes.length : Int)
        - ((index + c : Nat) : Int) := by omega
    simp only [readLoopCL, if_pos hrem, Nat.mod_eq_of_lt hv, cardReader_authenticate,
      cardReader_read, if_true, _readLength, hcp, hrem']
    obtain ⟨w', hw'⟩ := ih (index + c)
      (memcpy out index
        (w.dev.load ((addr2PhysicalAddr s (vaddr + index) Classic).blockAddr % 256)) c)
      ⟨w.dev,
        (w.log ++ [Event.authenticate (if protect = true then PICC_CMD_MF_AUTH_KEY_B
            else PICC_CMD_MF_AUTH_KEY_A)
            ((addr2PhysicalAddr s (vaddr + index) Classic).blockAddr % 256)
            (if protect = true then s._authKeyB else s._authKeyA) true]) ++
          [Event.read ((addr2PhysicalAddr s (vaddr + index) Classic).blockAddr % 256)
            (some (w.dev.load
              ((addr2PhysicalAddr s (vaddr + index) Classic).blockAddr % 256)))]⟩
      hu (by rw [memcpy_length _ _ _ _ (by omega)]; exact ho) (by omega) (by omega) (by omega)
      (fun j h1 h2 => hmem j (by omega) h2)
    refine ⟨w', ?_⟩
    rw [hw', memcpy_take _ _ _ _ (by omega)]
    rw [map_range_eq_take_drop _ bytes index c (by omega)]
    · rw [take_drop_glue]
    · intro i hi'
      rw [Card.load_getD _ _ _ (by omega), hu]
      have hsame := classic_blockAddr_same_unit s (vaddr + index) i (by omega) (by omega)
        (by omega)
      have := hmem (index + i) (by omega) (by omega)
      rw [show vaddr + (index + i) = vaddr + index + i by omega, hsame,
        show (index + i) % 16 = i by omega] at this
      exact this

theorem ultralight_translate_in_range (s : Session) (v : Nat) (hM : s._maxPageUL ≤ 225)
    (hin : v < (s._maxPageUL - s._minPageUL + 1) * 4) (hle : s._minPageUL ≤ s._maxPageUL) :
    (addr2PhysicalAddr s v Ultralight).blockAddr = v / 4 + s._minPageUL := by
  rw [addr2PhysicalAddr_ultralight]
  omega

/-- The write loop of `writeDataUL` on the simulated tag, inside the capacity. -/
theorem writeLoopUL_card (s : Session) (vaddr : Nat) (bytes : List Nat)
    (hva : vaddr % 4 = 0) (hM : s._maxPageUL ≤ 225) (hle : s._minPageUL ≤ s._maxPageUL)
    (hcap : vaddr + bytes.length ≤ (s._maxPageUL - s._minPageUL + 1) * 4) :
    ∀ (fuel index : Nat) (w : World Card), w.dev.unit = 4 → index ≤ bytes.length →
      (index < bytes.length → index % 4 = 0) → bytes.length - index ≤ fuel →
      ∃ w', writeLoopUL cardReader s vaddr bytes fuel ((bytes.length : Int) - index) index w
          = (LoopExit.fin false, w') ∧
        w'.dev.unit = 4 ∧ w'.dev.pack0 = w.dev.pack0 ∧ w'.dev.pack1 = w.dev.pack1 ∧
        (∀ j, index ≤ j → j < bytes.length →
          w'.dev.mem (4 * s._minPageUL + vaddr + j) = bytes.getD j 0) ∧
        (∀ x, x < 4 * s._minPageUL + vaddr + index → w'.dev.mem x = w.dev.mem x) := by
  intro fuel
  induction fuel with
  | zero =>
    intro index w hu hi _ hf
    exact ⟨w, by simp [writeLoopUL], hu, rfl, rfl, fun j h1 h2 => by omega, fun x _ => rfl⟩
  | succ n ih =>
    intro index w hu hi ha hf
    by_cases hlt' : index < bytes.length
    swap
    · have hrem : ¬ ((bytes.length : Int) - index > 0) := by omega
      exact ⟨w, by simp only [writeLoopUL, if_neg hrem], hu, rfl, rfl,
        fun j h1 h2 => by omega, fun x _ => rfl⟩
    have ha' := ha hlt'
    have hrem : (bytes.length : Int) - index > 0 := by omega
    have hv : vaddr + index < 65536 := by omega
    have hin : vaddr + index < (s._maxPageUL - s._minPageUL + 1) * 4 := by omega
    have e1 := ultralight_translate_in_range s (vaddr + index) hM hin hle
    have c1 : ¬ ((addr2PhysicalAddr s (vaddr + index) Ultralight).blockAddr > s._maxPageUL) := by
      rw [e1]; omega
    have c2 : ¬ ((addr2PhysicalAddr s (vaddr + index) Ultralight).blockAddr < s._minPageUL) := by
      rw [e1]; omega
    obtain ⟨c, hc⟩ : ∃ c, c = min (bytes.length - index) 4 := ⟨_, rfl⟩
    have hcp : (if (bytes.length : Int) - index - ((4 : Nat) : Int) < 0
        then ((bytes.length : Int) - index).toNat else 4) = c := by
      split <;> omega
    have hrem' : (bytes.length : Int) - index - (c : Int) = (bytes.length : Int)
        - ((index + c : Nat) : Int) := by omega
    simp only [writeLoopUL, if_pos hrem, Nat.mod_eq_of_lt hv, if_neg c1, if_neg c2,
      cardReader_ulWrite, if_true, _writeLengthUL, hcp, hrem', ultralight_blockAddr_byte]
    obtain ⟨w', hw', hu', p0, p1, i1, i2⟩ := ih (index + c)
      ⟨w.dev.store (addr2PhysicalAddr s (vaddr + index) Ultralight).blockAddr
          (unitBuffer 4 bytes index c),
        w.log ++ [Event.ulWrite (addr2PhysicalAddr s (vaddr + index) Ultralight).blockAddr
            (unitBuffer 4 bytes index c) true]⟩
      (by simpa using hu) (by omega) (by omega) (by omega)
    refine ⟨w', hw', hu', by simpa using p0, by simpa using p1, ?_, ?_⟩
    · intro j hj1 hj2
      by_cases hj : j < index + c
      · rw [i2 _ (by omega)]
        simp only [Card.store_mem, hu, unitBuffer_length, e1]
        rw [if_pos (by omega)]
        rw [unitBuffer_getD 4 bytes index c _ (by omega)]
        rw [if_pos (by omega)]
        congr 1
        omega
      · exact i1 j (by omega) hj2
    · intro x hx
      rw [i2 x (by omega)]
      simp only [Card.store_mem, hu, unitBuffer_length, e1]
      rw [if_neg (by omega)]

/-- The read loop of `readDataUL` on the simulated tag when the memory holds `bytes`
from the translated page on. -/
theorem readLoopUL_card (s : Session) (vaddr : Nat) (bytes : List Nat)
    (hva : vaddr % 4 = 0) (hM : s._maxPageUL ≤ 225) (hle : s._minPageUL ≤ s._maxPageUL)
    (hcap : vaddr + bytes.length ≤ (s._maxPageUL - s._minPageUL + 1) * 4) :
    ∀ (fuel index : Nat) (out : List Nat) (w : World Card), w.dev.unit = 4 →
      out.length = bytes.length → index ≤ bytes.length →
      (index < bytes.length → index % 16 = 0) → bytes.length - index ≤ fuel →
      (∀ j, index ≤ j → j < bytes.length →
        w.dev.mem (4 * s._minPageUL + vaddr + j) = bytes.getD j 0) →
      ∃ w', readLoopUL cardReader s vaddr fuel ((bytes.length : Int) - index) index out w
          = (false, out.take index ++ bytes.drop index, w') := by
  intro fuel
  induction fuel with
  | zero =>
    intro index out w _ ho hi _ hf _
    have : index = bytes.length := by omega
    subst this
    have hres : out.take bytes.length ++ bytes.drop bytes.length = out := by
      rw [List.drop_length, List.append_nil, ← ho, List.take_length]
    refine ⟨w, ?_⟩
    rw [hres]
    simp only [readLoopUL]
  | succ n ih =>
    intro index out w hu ho hi ha hf hmem
    by_cases hlt' : index < bytes.length
    swap
    · have hrem : ¬ ((bytes.length : Int) - index > 0) := by omega
      have : index = bytes.length := by omega
      subst this
      have hres : out.take bytes.length ++ bytes.drop bytes.length = out := by
        rw [List.drop_length, List.append_nil, ← ho, List.take_length]
      refine ⟨w, ?_⟩
      rw [hres]
      simp only [readLoopUL, if_neg hrem]
    have ha' := ha hlt'
    have hrem : (bytes.length : Int) - index > 0 := by omega
    have hv : vaddr + index < 65536 := by omega
    have hin : vaddr + index < (s._maxPageUL - s._minPageUL + 1) * 4 := by omega
    have e1 := ultralight_translate_in_range s (vaddr + index) hM hin hle
    obtain ⟨c, hc⟩ : ∃ c, c = min (bytes.length - index) 16 := ⟨_, rfl⟩
    have hcp : (if (bytes.length : Int) - index - ((16 : Nat) : Int) < 0
        then ((bytes.length : Int) - index).toNat else 16) = c := by
      split <;> omega
    have hrem' : (bytes.length : Int) - index - (c : Int) = (bytes.length : Int)
        - ((index + c : Nat) : Int) := by omega
    simp only [readLoopUL, if_pos hrem, Nat.mod_eq_of_lt hv, cardReader_read, _readLength, hcp,
      hrem', ultralight_blockAddr_byte]
    obtain ⟨w', hw'⟩ := ih (index + c)
      (memcpy out index (w.dev.load (addr2PhysicalAddr s (vaddr + index) Ultralight).blockAddr) c)
      ⟨w.dev, w.log ++ [Event.read (addr2PhysicalAddr s (vaddr + index) Ultralight).blockAddr
            (some (w.dev.load (addr2PhysicalAddr s (vaddr + index) Ultralight).blockAddr))]⟩
      hu (by rw [memcpy_length _ _ _ _ (by omega)]; exact ho) (by omega) (by omega) (by omega)
      (fun j h1 h2 => hmem j (by omega) h2)
    refine ⟨w', ?_⟩
    rw [hw', memcpy_take _ _ _ _ (by omega)]
    rw [map_range_eq_take_drop _ bytes index c (by omega)]
    · rw [take_drop_glue]
    · intro i hi'
      rw [Card.load_getD _ _ _ (by omega), hu, e1]
      have := hmem (index + i) (by omega) (by omega)
      rw [← this]
      congr 1
      omega

theorem readData_classic (fuel : Nat) (s : Session) (vaddr : Nat) (data : List Nat)
    (mode : ProtectMode) (w : World Card) (hc : isClassic s = true) :
    readData cardReader fuel s vaddr data mode w = readDataCL cardReader fuel s vaddr data
      (if mode = PRT_AUTO then s._lastProtectMode else mode) w := by
  obtain ⟨h1, h2⟩ := (isClassic_iff s).1 hc
  simp [readData, isMounted, h1, h2]

theorem readData_ultralight (fuel : Nat) (s : Session) (vaddr : Nat) (data : List Nat)
    (mode : ProtectMode) (w : World Card) (hc : isUltralight s = true) :
    readData cardReader fuel s vaddr data mode w = readDataUL cardReader fuel s vaddr data
      (if mode = PRT_AUTO then s._lastProtectMode else mode) w := by
  obtain ⟨h1, h2⟩ := (isUltralight_iff s).1 hc
  simp [readData, isMounted, h1, h2]

/-- A `writeData` inside the capacity of a Classic card, on the simulated card: it
returns `true`, and a byte of `bytes` is in the memory at its translated address
unless a later unit of the write is sent to the same block. -/
theorem writeData_classic_card (fuel : Nat) (hf : 0 < fuel) (s : Session) (c : Card)
    (log : List Event) (vaddr : Nat) (bytes : List Nat) (mode : ProtectMode)
    (hc : isClassic s = true) (hu : c.unit = 16) (hM : s._maxSectorCL < 65536)
    (hle : s._minSectorCL ≤ s._maxSectorCL) (hva : vaddr % 16 = 0)
    (hcap : vaddr + bytes.length ≤ getVCapacities s) :
    ∃ w1, writeData cardReader fuel s vaddr bytes mode ⟨c, log⟩ = some (true, w1) ∧
      w1.dev.unit = 16 ∧
      ∀ j, j < bytes.length →
        (∀ k, j / 16 < k / 16 → k < bytes.length →
          (addr2PhysicalAddr s (vaddr + k) Classic).blockAddr % 256
            ≠ (addr2PhysicalAddr s (vaddr + j) Classic).blockAddr % 256) →
        w1.dev.mem ((addr2PhysicalAddr s (vaddr + j) Classic).blockAddr % 256 * 16 + j % 16)
          = bytes.getD j 0 := by
  have hcapm := getVCapacities_classic_le hc hle
  have hlt := getVCapacities_lt s
  have hL : toInt32 bytes.length = bytes.length := toInt32_small _ (by omega)
  obtain ⟨w', hw', hu', i1, -⟩ := writeLoopCL_card s vaddr bytes
    (decide ((if (if mode = PRT_AUTO then s._lastProtectMode else mode) = PRT_AUTO
        then s._lastProtectMode else (if mode = PRT_AUTO then s._lastProtectMode else mode))
          = PRT_PASSWD_RW) ||
      decide ((if (if mode = PRT_AUTO then s._lastProtectMode else mode) = PRT_AUTO
        then s._lastProtectMode else (if mode = PRT_AUTO then s._lastProtectMode else mode))
          = PRT_PASSWD_RO))
    hva hM hle (by omega) (by omega) bytes.length 0
    ⟨c, log ++ [Event.isNewCardPresent true, Event.readCardSerial true]⟩ hu (by omega)
    (fun _ => rfl) (by omega)
  simp only [Nat.cast_zero, sub_zero] at hw'
  refine ⟨callStopCrypto1 cardReader w', ?_, hu', fun j hj hnl => i1 j (Nat.zero_le _) hj hnl⟩
  rw [writeData_classic _ _ _ _ _ _ _ hc]
  simp only [writeDataCL, hc, Bool.not_true, Bool.false_eq_true, if_false, _writeLengthCL,
    hva, ne_eq, not_true_eq_false, cardReader_waitCard _ _ hf, hL, Int.toNat_ofNat, hw']

/-- A `readData` on the simulated Classic card whose memory holds `bytes` at the
translated addresses: it returns `true` with the buffer equal to `bytes`. -/
theorem readData_classic_card (fuel : Nat) (hf : 0 < fuel) (s : Session) (c : Card)
    (log : List Event) (vaddr : Nat) (bytes buf : List Nat) (mode : ProtectMode)
    (hc : isClassic s = true) (hu : c.unit = 16) (hva : vaddr % 16 = 0)
    (hlt : vaddr + bytes.length < 65536) (hb : buf.length = bytes.length)
    (hmem : ∀ j, j < bytes.length →
      c.mem ((addr2PhysicalAddr s (vaddr + j) Classic).blockAddr % 256 * 16 + j % 16)
        = bytes.getD j 0) :
    ∃ w2, readData cardReader fuel s vaddr buf mode ⟨c, log⟩ = some (true, bytes, w2) := by
  have hL : toInt32 bytes.length = bytes.length := toInt32_small _ (by omega)
  have hLb : toInt32 buf.length = bytes.length := by rw [hb]; exact hL
  obtain ⟨w2, hw2⟩ := readLoopCL_card s vaddr bytes
    (decide ((if (if mode = PRT_AUTO then s._lastProtectMode else mode) = PRT_AUTO
        then s._lastProtectMode else (if mode = PRT_AUTO then s._lastProtectMode else mode))
          = PRT_PASSWD_RW) ||
      decide ((if (if mode = PRT_AUTO then s._lastProtectMode else mode) = PRT_AUTO
        then s._lastProtectMode else (if mode = PRT_AUTO then s._lastProtectMode else mode))
          = PRT_PASSWD_RO))
    hva hlt bytes.length 0 buf
    ⟨c, log ++ [Event.isNewCardPresent true, Event.readCardSerial true]⟩
    hu hb (by omega) (fun _ => rfl) (by omega) (fun j _ h2 => hmem j h2)
  simp only [Nat.cast_zero, sub_zero, List.take_zero, List.drop_zero, List.nil_append] at hw2
  refine ⟨callStopCrypto1 cardReader w2, ?_⟩
  rw [readData_classic _ _ _ _ _ _ hc]
  simp only [readDataCL, hc, Bool.not_true, Bool.false_eq_true, if_false, _writeLengthCL,
    hva, ne_eq, not_true_eq_false, cardReader_waitCard _ _ hf, hLb, Int.toNat_ofNat,
    cardReader_stopCrypto1, hw2]

theorem roundtrip_classic (fuel : Nat) (hf : 0 < fuel) (s : Session) (c : Card)
    (log : List Event) (vaddr : Nat) (bytes buf : List Nat) (mode : ProtectMode)
    (hc : isClassic s = true) (hu : c.unit = 16) (hB : s._maxSectorCL ≤ 63)
    (hle : s._minSectorCL ≤ s._maxSectorCL) (hva : vaddr % 16 = 0)
    (hcap : vaddr + bytes.length ≤ getVCapacities s) (hb : buf.length = bytes.length) :
    ∃ w1, writeData cardReader fuel s vaddr bytes mode ⟨c, log⟩ = some (true, w1) ∧
      ∃ w2, readData cardReader fuel s vaddr buf mode w1 = some (true, bytes, w2) := by
  have hcapm := getVCapacities_classic_le hc hle
  have hlt := getVCapacities_lt s
  obtain ⟨w1, hw1, hu1, i1⟩ := writeData_classic_card fuel hf s c log vaddr bytes mode hc hu
    (by omega) hle hva hcap
  refine ⟨w1, hw1, ?_⟩
  -- with at most 64 sectors no two units of the write share a block
  refine readData_classic_card fuel hf s w1.dev w1.log vaddr bytes buf mode hc hu1 hva
    (by omega) hb (fun j hj => i1 j hj (fun k hk1 hk2 heq => ?_))
  rw [classic_blockAddr_byte s (vaddr + k) (by omega) hB hle (by omega),
    classic_blockAddr_byte s (vaddr + j) (by omega) hB hle (by omega)] at heq
  have := classic_blockAddr_inj s (vaddr + k) (vaddr + j) (by omega) (by omega) (by omega)
    (by omega) heq
  omega

theorem getD_map_range (f : Nat → Nat) (n j : Nat) (hj : j < n) :
    ((List.range n).map f).getD j 0 = f j := by
  rw [List.getD_eq_getElem?_getD, List.getElem?_map, List.getElem?_range hj]
  rfl

/-- With the sectors 0 to 64 in use, block 256 of sector 64 is block 0 for the
reader.  A write of 3088 bytes from `vaddr = 0` returns `true` with its last unit
stored over its first, and the read that follows returns `true` with the first byte
of the last unit in place of the first byte written. -/
theorem roundtrip_alias (bytes buf : List Nat) (hlen : bytes.length = 3088)
    (hb : buf.length = 3088) :
    ∃ w1, writeData cardReader 1 sessionCL65 0 bytes PRT_AUTO ⟨blankCL, []⟩ = some (true, w1) ∧
      ∃ out w2, readData cardReader 1 sessionCL65 0 buf PRT_AUTO w1 = some (true, out, w2) ∧
        out.getD 0 0 = bytes.getD 3072 0 := by
  have hc : isClassic sessionCL65 = true := by decide
  have hcap : getVCapacities sessionCL65 = 3120 := by decide
  obtain ⟨w1, hw1, hu1, i1⟩ := writeData_classic_card 1 Nat.one_pos sessionCL65 blankCL []
    0 bytes PRT_AUTO hc rfl (by decide) (by decide) (by decide) (by rw [hcap, hlen]; decide)
  refine ⟨w1, hw1, ?_⟩
  have h3072 := i1 3072 (by omega) (fun k hk1 hk2 => by omega)
  have e3072 : (addr2PhysicalAddr sessionCL65 (0 + 3072) Classic).blockAddr % 256 = 0 := by
    decide
  have e0 : (addr2PhysicalAddr sessionCL65 (0 + 0) Classic).blockAddr % 256 = 0 := by decide
  rw [e3072] at h3072
  obtain ⟨w2, hw2⟩ := readData_classic_card 1 Nat.one_pos sessionCL65 w1.dev w1.log 0
    ((List.range 3088).map (fun j =>
      w1.dev.mem ((addr2PhysicalAddr sessionCL65 (0 + j) Classic).blockAddr % 256 * 16 + j % 16)))
    buf PRT_AUTO hc hu1 (by decide)
    (by rw [List.length_map, List.length_range]; decide)
    (by rw [List.length_map, List.length_range]; exact hb)
    (fun j hj => by
      rw [List.length_map, List.length_range] at hj
      rw [getD_map_range _ _ _ hj])
  refine ⟨_, w2, hw2, ?_⟩
  rw [getD_map_range _ _ _ (by norm_num), e0]
  exact h3072

theorem roundtrip_ultralight (fuel : Nat) (hf : 0 < fuel) (s : Session) (c : Card)
    (log : List Event) (vaddr : Nat) (bytes buf : List Nat) (mode : ProtectMode)
    (hm : MountedUL s) (hu : c.unit = 4) (hp0 : c.pack0 = s._authKeyB.k4)
    (hp1 : c.pack1 = s._authKeyB.k5)
    (hle : s._minPageUL ≤ s._maxPageUL) (hva : vaddr % 4 = 0)
    (hcap : vaddr + bytes.length ≤ getVCapacities s) (hb : buf.length = bytes.length) :
    ∃ w1, writeData cardReader fuel s vaddr bytes mode ⟨c, log⟩ = some (true, w1) ∧
      ∃ w2, readData cardReader fuel s vaddr buf mode w1 = some (true, bytes, w2) := by
  have hc := hm.isUltralight
  have hM := hm.maxPage_le
  have hcapm := getVCapacities_ultralight_le hc hle
  have hlt := getVCapacities_lt s
  have hL : toInt32 bytes.length = bytes.length := toInt32_small _ (by omega)
  have hLb : toInt32 buf.length = bytes.length := by rw [hb]; exact hL
  -- the world after polling and the optional password challenge of the write
  have hA : ∀ (w : World Card), w.dev.pack0 = s._authKeyB.k4 → w.dev.pack1 = s._authKeyB.k5 →
      ∃ l, (if (if (if mode = PRT_AUTO then s._lastProtectMode else mode) = PRT_AUTO
                then s._lastProtectMode
                else (if mode = PRT_AUTO then s._lastProtectMode else mode)) = PRT_PASSWD_RW ∨
              (if (if mode = PRT_AUTO then s._lastProtectMode else mode) = PRT_AUTO
                then s._lastProtectMode
                else (if mode = PRT_AUTO then s._lastProtectMode else mode)) = PRT_PASSWD_RO
            then authUL cardReader s true w else (true, w)) = (true, ⟨w.dev, l⟩) := by
    intro w h0 h1
    generalize (if (if mode = PRT_AUTO then s._lastProtectMode else mode) = PRT_AUTO
      then s._lastProtectMode else (if mode = PRT_AUTO then s._lastProtectMode else mode)) = m
    by_cases hg : m = PRT_PASSWD_RW ∨ m = PRT_PASSWD_RO
    · rw [if_pos hg]
      exact cardReader_authUL s w h0 h1
    · rw [if_neg hg]
      exact ⟨w.log, rfl⟩
  obtain ⟨l1, hl1⟩ := hA ⟨c, log ++ [Event.isNewCardPresent true, Event.readCardSerial true]⟩
    hp0 hp1
  obtain ⟨w', hw', hu', p0, p1, i1, -⟩ := writeLoopUL_card s vaddr bytes hva hM hle (by omega)
    bytes.length 0 ⟨c, l1⟩ hu (by omega) (fun _ => rfl) (by omega)
  simp only [Nat.cast_zero, sub_zero] at hw'
  refine ⟨w', ?_, ?_⟩
  · rw [writeData_ultralight _ _ _ _ _ _ _ hc]
    simp only [writeDataUL, hc, Bool.not_true, Bool.false_eq_true, if_false, _writeLengthUL,
      hva, ne_eq, not_true_eq_false, cardReader_waitCard _ _ hf, hl1, hL, Int.toNat_ofNat, hw']
  · obtain ⟨l2, hl2⟩ := hA ⟨w'.dev, w'.log ++
      [Event.isNewCardPresent true, Event.readCardSerial true]⟩
      (by simpa [hp0] using p0) (by simpa [hp1] using p1)
    obtain ⟨w2, hw2⟩ := readLoopUL_card s vaddr bytes hva hM hle (by omega) bytes.length 0 buf
      ⟨w'.dev, l2⟩ hu' hb (by omega) (fun _ => rfl) (by omega)
      (fun j _ h2 => i1 j (by omega) h2)
    simp only [Nat.cast_zero, sub_zero, List.take_zero, List.drop_zero, List.nil_append] at hw2
    refine ⟨w2, ?_⟩
    rw [readData_ultralight _ _ _ _ _ _ hc]
    simp only [readDataUL, hc, Bool.not_true, Bool.false_eq_true, if_false, _writeLengthUL,
      hva, ne_eq, not_true_eq_false, cardReader_waitCard _ _ hf, hl2, hLb, Int.toNat_ofNat, hw2]

/-- Claim C5, as amended: on the simulated card, where the tag is present,
authentication and the password challenge are accepted, a unit write stores its
bytes at the addressed block or page and a unit read returns the 16 bytes from the
addressed block or page on, for a mounted card of either family with
`minUnit ≤ maxUnit` whose units fit the byte by which the reader addresses them (on
Classic `maxSector ≤ 63`, the sectors of blocks 0 to 255; on Ultralight the pages of
the capacity class), every unit-aligned `vaddr` and every `bytes` with
`vaddr + len(bytes) ≤ capacity`: `writeData vaddr bytes` returns `true` and a
following `readData` of `len(bytes)` bytes at `vaddr` returns `true` with the buffer
equal to `bytes`, whatever the buffer held before and also when `len(bytes)` is not
a multiple of the unit. -/
theorem writeData_readData_roundtrip (fuel : Nat) (hf : 0 < fuel) (s : Session) (c : Card)
    (log : List Event) (vaddr : Nat) (bytes buf : List Nat) (mode : ProtectMode)
    (hcap : vaddr + bytes.length ≤ getVCapacities s) (hb : buf.length = bytes.length) :
    (isClassic s = true → c.unit = 16 → s._maxSectorCL ≤ 63 →
      s._minSectorCL ≤ s._maxSectorCL → vaddr % 16 = 0 →
      ∃ w1, writeData cardReader fuel s vaddr bytes mode ⟨c, log⟩ = some (true, w1) ∧
        ∃ w2, readData cardReader fuel s vaddr buf mode w1 = some (true, bytes, w2)) ∧
    (MountedUL s → c.unit = 4 → c.pack0 = s._authKeyB.k4 → c.pack1 = s._authKeyB.k5 →
      s._minPageUL ≤ s._maxPageUL → vaddr % 4 = 0 →
      ∃ w1, writeData cardReader fuel s vaddr bytes mode ⟨c, log⟩ = some (true, w1) ∧
        ∃ w2, readData cardReader fuel s vaddr buf mode w1 = some (true, bytes, w2)) :=
  ⟨fun hc hu hB hle hva =>
      roundtrip_classic fuel hf s c log vaddr bytes buf mode hc hu hB hle hva hcap hb,
   fun hm hu hp0 hp1 hle hva =>
      roundtrip_ultralight fuel hf s c log vaddr bytes buf mode hm hu hp0 hp1 hle hva hcap hb⟩

/-- Witness of claim C5, as amended: 20 bytes at `vaddr = 32` on a blank Classic card (the last
block of sector 1 and a part of the first block of sector 2) and 6 bytes at
`vaddr = 4` on a blank NTAG213 in mode PasswordReadWrite. -/
theorem writeData_readData_roundtrip_witness :
    (∃ w1, writeData cardReader 1 sessionCL 32 (List.range 20) PRT_AUTO ⟨blankCL, []⟩
        = some (true, w1) ∧
      ∃ w2, readData cardReader 1 sessionCL 32 (List.replicate 20 0) PRT_AUTO w1
        = some (true, List.range 20, w2)) ∧
    (∃ w1, writeData cardReader 1 (sessionUL NT_NTAG213) 4 [1, 2, 3, 4, 5, 6] PRT_PASSWD_RW
        ⟨blankUL, []⟩ = some (true, w1) ∧
      ∃ w2, readData cardReader 1 (sessionUL NT_NTAG213) 4 (List.replicate 6 0) PRT_PASSWD_RW w1
        = some (true, [1, 2, 3, 4, 5, 6], w2)) :=
  ⟨(writeData_readData_roundtrip 1 (by decide) sessionCL blankCL [] 32 (List.range 20)
      (List.replicate 20 0) PRT_AUTO (by decide) (by decide)).1 (by decide) rfl (by decide)
      (by decide) (by decide),
   (writeData_readData_roundtrip 1 (by decide) (sessionUL NT_NTAG213) blankUL [] 4
      [1, 2, 3, 4, 5, 6] (List.replicate 6 0) PRT_PASSWD_RW (by decide) (by decide)).2
      (by decide) rfl (by decide) (by decide) (by decide) (by decide)⟩

/-- Counterexample to claim C5 as stated: a mounted Classic card whose usable range is
the sectors 0 to 64 (capacity 3120), the aligned `vaddr = 0` and 3088 bytes, 3072
zeros followed by 16 ones, so that `vaddr + len(bytes) ≤ capacity`.  The last unit
goes to block 256 of sector 64, which the reader, addressing blocks by a byte, takes
for block 0: `writeData` returns `true`, the following `readData` returns `true`, and
the buffer differs from `bytes`, its first byte being 1 where 0 was written. -/
theorem writeData_readData_roundtrip_counterexample :
    isClassic sessionCL65 = true ∧ sessionCL65._minSectorCL ≤ sessionCL65._maxSectorCL ∧
    0 + (List.replicate 3072 0 ++ List.replicate 16 1).length ≤ getVCapacities sessionCL65 ∧
    ∃ w1, writeData cardReader 1 sessionCL65 0 (List.replicate 3072 0 ++ List.replicate 16 1)
        PRT_AUTO ⟨blankCL, []⟩ = some (true, w1) ∧
      ∃ out w2, readData cardReader 1 sessionCL65 0 (List.replicate 3088 0) PRT_AUTO w1
          = some (true, out, w2) ∧
        out.getD 0 0 = 1 ∧ (List.replicate 3072 0 ++ List.replicate 16 1).getD 0 0 = 0 ∧
        out ≠ List.replicate 3072 0 ++ List.replicate 16 1 := by
  have hlen : (List.replicate 3072 0 ++ List.replicate 16 1).length = 3088 := by
    rw [List.length_append, List.length_replicate, List.length_replicate]
  have h0 : (List.replicate 3072 0 ++ List.replicate 16 1).getD 0 0 = 0 := by
    rw [List.getD_eq_getElem?_getD,
      List.getElem?_append_left (by rw [List.length_replicate]; norm_num),
      List.getElem?_replicate]
    rfl
  have h1 : (List.replicate 3072 0 ++ List.replicate 16 1).getD 3072 0 = 1 := by
    rw [List.getD_eq_getElem?_getD,
      List.getElem?_append_right (by rw [List.length_replicate]),
      List.length_replicate, List.getElem?_replicate]
    rfl
  obtain ⟨w1, hw1, out, w2, hw2, hout⟩ := roundtrip_alias
    (List.replicate 3072 0 ++ List.replicate 16 1) (List.replicate 3088 0) hlen
    (List.length_replicate _ _)
  rw [h1] at hout
  refine ⟨by decide, by decide, by rw [hlen]; decide, w1, hw1, out, w2, hw2, hout, h0, ?_⟩
  intro heq
  rw [heq, h0] at hout
  exact absurd hout (by decide)

end RoundTrip

/-! ## The shape of the call log -/

section LogShape
variable {σ : Type} (T : MFRC522 σ)

theorem suffix_trans {p : Event → Bool} {l0 l1 l2 : List Event}
    (h1 : ∃ x, l1 = l0 ++ x ∧ ∀ y ∈ x, p y = true)
    (h2 : ∃ x, l2 = l1 ++ x ∧ ∀ y ∈ x, p y = true) :
    ∃ x, l2 = l0 ++ x ∧ ∀ y ∈ x, p y = true := by
  obtain ⟨x, rfl, hx⟩ := h1
  obtain ⟨y, rfl, hy⟩ := h2
  refine ⟨x ++ y, by simp, ?_⟩
  simp only [List.forall_mem_append]
  exact ⟨hx, hy⟩

theorem suffix_mono {p q : Event → Bool} (hpq : ∀ e, p e = true → q e = true)
    {l0 l1 : List Event} (h1 : ∃ x, l1 = l0 ++ x ∧ ∀ y ∈ x, p y = true) :
    ∃ x, l1 = l0 ++ x ∧ ∀ y ∈ x, q y = true := by
  obtain ⟨x, rfl, hx⟩ := h1
  exact ⟨x, rfl, fun y hy => hpq y (hx y hy)⟩

theorem isPoll_isPrelude (e : Event) (h : e.isPoll = true) : e.isPrelude = true := by
  simp [Event.isPrelude, h]

theorem isChallenge_isPrelude (e : Event) (h : e.isChallenge = true) :
    e.isPrelude = true := by
  simp [Event.isPrelude, h]

/-- Appending to a suffix of events that all satisfy `p` one more such event. -/
theorem suffix_snoc {p : Event → Bool} {l0 l : List Event} {e : Event} (he : p e = true)
    (h : ∃ x, l = l0 ++ x ∧ ∀ y ∈ x, p y = true) :
    ∃ x, l ++ [e] = l0 ++ x ∧ ∀ y ∈ x, p y = true := by
  obtain ⟨x, rfl, hx⟩ := h
  refine ⟨x ++ [e], by simp, ?_⟩
  simp only [List.forall_mem_append, List.forall_mem_singleton]
  exact ⟨hx, he⟩

/-- Presence polling extends the log by polling events only: every property of the
log that survives appending a polling event survives `waitCardLoop`. -/
theorem waitCardLoop_inv {I : List Event → Prop}
    (hP : ∀ l e, e.isPoll = true → I l → I (l ++ [e])) (timeout tm : Nat) :
    ∀ (fuel : Nat) (w : World σ) (r : Bool) (w' : World σ),
      waitCardLoop T timeout tm fuel w = some (r, w') → I w.log → I w'.log := by
  intro fuel
  induction fuel with
  | zero => intro w r w' h; simp [waitCardLoop] at h
  | succ n ih =>
    intro w r w' h h0
    simp only [waitCardLoop] at h
    have p1 := hP _ (Event.isNewCardPresent (T.PICC_IsNewCardPresent w.dev).1) rfl h0
    have p2 : ∀ d, I (w.log ++ [Event.isNewCardPresent (T.PICC_IsNewCardPresent w.dev).1]
        ++ [Event.readCardSerial (T.PICC_ReadCardSerial d).1]) := fun d => hP _ _ rfl p1
    repeat' split at h
    all_goals first
      | (simp only [Option.some.injEq, Prod.mk.injEq] at h
         obtain ⟨-, rfl⟩ := h
         simp only [callReadCardSerial_log, callIsNewCardPresent_log, callMillis_log]
         first | exact p2 _ | exact p1)
      | (refine ih _ _ _ h ?_
         simp only [callReadCardSerial_log, callIsNewCardPresent_log, callMillis_log,
           callDelay_log]
         first | exact p2 _ | exact p1)

theorem waitCard_inv {I : List Event → Prop}
    (hP : ∀ l e, e.isPoll = true → I l → I (l ++ [e]))
    (timeout fuel : Nat) (w : World σ) (r : Bool) (w' : World σ)
    (h : waitCard T timeout fuel w = some (r, w')) (h0 : I w.log) : I w'.log :=
  waitCardLoop_inv T hP timeout _ fuel (callMillis T w).2 r w' h h0

/-- `waitCard` appends polling events to the log, nothing else. -/
theorem waitCard_suffix (timeout fuel : Nat) (w : World σ) (r : Bool) (w' : World σ)
    (h : waitCard T timeout fuel w = some (r, w')) :
    ∃ l, w'.log = w.log ++ l ∧ ∀ e ∈ l, e.isPoll = true := by
  refine waitCard_inv T (I := fun l' => ∃ l, l' = w.log ++ l ∧ ∀ e ∈ l, e.isPoll = true)
    ?_ timeout fuel w r w' h ⟨[], by simp, by simp⟩
  exact fun _ _ he h => suffix_snoc he h

/-- The password challenge extends the log by challenge events only. -/
theorem authUL_inv {I : List Event → Prop}
    (hC : ∀ l e, e.isChallenge = true → I l → I (l ++ [e]))
    (s : Session) (checkPack : Bool) (w : World σ) (h0 : I w.log) :
    I (authUL T s checkPack w).2.log := by
  simp only [authUL, MIFARE_Ultralight_Authenticate]
  repeat' split
  all_goals
    simp only [callCalculateCRC_log, callTransceive_log]
    first
      | exact h0
      | exact hC _ _ rfl h0
      | exact hC _ _ rfl (hC _ _ rfl h0)

/-- The password challenge appends challenge events to the log, nothing else. -/
theorem authUL_suffix (s : Session) (checkPack : Bool) (w : World σ) :
    ∃ l, (authUL T s checkPack w).2.log = w.log ++ l ∧ ∀ e ∈ l, e.isChallenge = true :=
  authUL_inv T (I := fun l' => ∃ l, l' = w.log ++ l ∧ ∀ e ∈ l, e.isChallenge = true)
    (fun _ _ he h => suffix_snoc he h) s checkPack w ⟨[], by simp, by simp⟩

/-- The optional password challenge in front of a LayoutB operation. -/
theorem authGate_suffix (s : Session) (m : ProtectMode) (w : World σ) :
    ∃ l, (if m = PRT_PASSWD_RW ∨ m = PRT_PASSWD_RO then authUL T s true w
        else (true, w)).2.log = w.log ++ l ∧ ∀ e ∈ l, e.isChallenge = true := by
  split
  · exact authUL_suffix T s true w
  · exact ⟨[], by simp, by simp⟩

/-- Presence polling followed by the optional password challenge appends prelude
events to the log, nothing else. -/
theorem prelude_suffix (fuel : Nat) (s : Session) (m : ProtectMode) (w w1 : World σ) (r : Bool)
    (hw : waitCard T 5000 fuel w = some (r, w1)) :
    ∃ l, (if m = PRT_PASSWD_RW ∨ m = PRT_PASSWD_RO then authUL T s true w1
        else (true, w1)).2.log = w.log ++ l ∧ ∀ e ∈ l, e.isPrelude = true :=
  suffix_trans (suffix_mono isPoll_isPrelude (waitCard_suffix T _ _ _ _ _ hw))
    (suffix_mono isChallenge_isPrelude (authGate_suffix T s m w1))

end LogShape

/-! ## Protection: the configuration record written to an Ultralight tag -/

section ConfigUpdate
variable {σ : Type} (T : MFRC522 σ)

/-- Page `k` of a 16-byte record, as `writeConfigDataUL` cuts it out. -/
theorem configPage_eq (bytes : List Nat) (k : Nat) :
    (List.range 4).map (fun i => bytes.getD (4 * k + i) 0)
      = [bytes.getD (4 * k) 0, bytes.getD (4 * k + 1) 0, bytes.getD (4 * k + 2) 0,
         bytes.getD (4 * k + 3) 0] := by
  simp [List.range_succ]

/-- The page loop of `writeConfigDataUL` writes the pages in ascending order and
stops at the first refusal: `m` accepted writes, then the refused one if any. -/
theorem writeConfigLoopUL_shape (s : Session) (bytes : List Nat) :
    ∀ (n j : Nat) (w : World σ), ∃ m, m ≤ n ∧
      (writeConfigLoopUL T s bytes n (4 * j) w).2.log
        = w.log ++ (List.range' j m).map (fun k => Event.ulWrite ((s._configPageUL + k) % 256)
            ((List.range 4).map (fun i => bytes.getD (4 * k + i) 0)) true)
          ++ (if m < n then [Event.ulWrite ((s._configPageUL + (j + m)) % 256)
            ((List.range 4).map (fun i => bytes.getD (4 * (j + m) + i) 0)) false] else []) ∧
      ((writeConfigLoopUL T s bytes n (4 * j) w).1 = true ↔ m = n) := by
  intro n
  induction n with
  | zero => intro j w; exact ⟨0, le_refl _, by simp [writeConfigLoopUL], by simp [writeConfigLoopUL]⟩
  | succ n ih =>
    intro j w
    have hj : 4 * j / 4 = j := by omega
    have hm : (s._configPageUL + j) % 256 % 256 = (s._configPageUL + j) % 256 := by omega
    simp only [writeConfigLoopUL, rawWriteUL, hj, hm]
    cases hr : (callUlWrite T ((s._configPageUL + j) % 256)
        ((List.range 4).map (fun i => bytes.getD (4 * j + i) 0)) w).1 with
    | true =>
      have hr2 : (T.MIFARE_Ultralight_Write ((s._configPageUL + j) % 256)
          ((List.range 4).map (fun i => bytes.getD (4 * j + i) 0)) w.dev).1 = true := by
        rw [← hm]; exact hr
      obtain ⟨m, hmn, hlog, hres⟩ := ih (j + 1) (callUlWrite T ((s._configPageUL + j) % 256)
        ((List.range 4).map (fun i => bytes.getD (4 * j + i) 0)) w).2
      rw [show 4 * (j + 1) = 4 * j + 4 by omega] at hlog hres
      refine ⟨m + 1, by omega, ?_, ?_⟩
      · simp only [if_true]
        rw [hlog, callUlWrite_log, hm, hr2, List.range'_succ, List.map_cons]
        simp only [List.append_assoc, List.singleton_append, List.cons_append,
          Nat.add_lt_add_iff_right, List.nil_append,
          show j + 1 + m = j + (m + 1) by omega]
      · simp only [if_true, hres]
        omega
    | false =>
      have hr2 : (T.MIFARE_Ultralight_Write ((s._configPageUL + j) % 256)
          ((List.range 4).map (fun i => bytes.getD (4 * j + i) 0)) w.dev).1 = false := by
        rw [← hm]; exact hr
      refine ⟨0, by omega, ?_, ?_⟩
      · simp only [if_false, Bool.false_eq_true, callUlWrite_log, hm, hr2, List.range'_zero,
          List.map_nil, List.append_nil, Nat.zero_lt_succ, if_true, Nat.add_zero]
      · simp

/-- The log of `readConfigDataUL`: prelude events, then at most one read, of the
configuration page; the record returned is made of the 16 bytes of its answer. -/
theorem readConfigDataUL_shape (fuel : Nat) (s : Session) (mode : ProtectMode) (w : World σ)
    (c : Option ULConfig) (w' : World σ)
    (h : readConfigDataUL T fuel s mode w = some (c, w')) :
    ∃ l, (∀ e ∈ l, e.isPrelude = true) ∧
      ((c = none ∧ (w'.log = w.log ++ l ∨
          w'.log = w.log ++ l ++ [Event.read (s._configPageUL % 256) none])) ∨
       (∃ resp, c = some (ULConfig.ofBytes ((List.range 16).map (fun i => resp.getD i 0))) ∧
          w'.log = w.log ++ l ++ [Event.read (s._configPageUL % 256) (some resp)])) := by
  simp only [readConfigDataUL] at h
  split at h
  · simp only [Option.some.injEq, Prod.mk.injEq] at h
    obtain ⟨rfl, rfl⟩ := h
    exact ⟨[], by simp, Or.inl ⟨rfl, Or.inl (by simp)⟩⟩
  cases hw : waitCard T 5000 fuel w with
  | none => simp [hw] at h
  | some p =>
    obtain ⟨b, w1⟩ := p
    cases b with
    | false =>
      simp only [hw, Option.some.injEq, Prod.mk.injEq] at h
      obtain ⟨rfl, rfl⟩ := h
      obtain ⟨l, hl, hp⟩ := suffix_mono isPoll_isPrelude (waitCard_suffix T _ _ _ _ _ hw)
      exact ⟨l, hp, Or.inl ⟨rfl, Or.inl hl⟩⟩
    | true =>
      simp only [hw] at h
      generalize (if mode = PRT_AUTO then s._lastProtectMode else mode) = m at h
      obtain ⟨l, hl, hp⟩ := prelude_suffix T fuel s m w w1 true hw
      generalize (if m = PRT_PASSWD_RW ∨ m = PRT_PASSWD_RO
          then authUL T s true w1 else (true, w1)) = A at h hl
      split at h
      · simp only [Option.some.injEq, Prod.mk.injEq] at h
        obtain ⟨rfl, rfl⟩ := h
        exact ⟨l, hp, Or.inl ⟨rfl, Or.inl hl⟩⟩
      simp only [rawReadUL] at h
      cases hr : (callRead T (s._configPageUL % 256) A.2).1 with
      | none =>
        have hr2 : (T.MIFARE_Read (s._configPageUL % 256 % 256) A.2.dev).1 = none := hr
        simp only [hr, Option.some.injEq, Prod.mk.injEq] at h
        obtain ⟨rfl, rfl⟩ := h
        refine ⟨l, hp, Or.inl ⟨rfl, Or.inr ?_⟩⟩
        rw [callRead_log, hr2, hl, Nat.mod_mod]
      | some resp =>
        have hr2 : (T.MIFARE_Read (s._configPageUL % 256 % 256) A.2.dev).1 = some resp := hr
        simp only [hr, Option.some.injEq, Prod.mk.injEq] at h
        obtain ⟨rfl, rfl⟩ := h
        refine ⟨l, hp, Or.inr ⟨resp, rfl, ?_⟩⟩
        rw [callRead_log, hr2, hl, Nat.mod_mod]

/-- The log of `writeConfigDataUL`: prelude events, then the page writes of
`writeConfigLoopUL`, if the operation gets that far. -/
theorem writeConfigDataUL_shape (fuel : Nat) (s : Session) (ulconf : ULConfig)
    (mode : ProtectMode) (w : World σ) (r : Bool) (w' : World σ)
    (h : writeConfigDataUL T fuel s ulconf mode w = some (r, w')) :
    ∃ l, (∀ e ∈ l, e.isPrelude = true) ∧
      ((r = false ∧ w'.log = w.log ++ l) ∨
       ∃ m, m ≤ 4 ∧ (r = true ↔ m = 4) ∧
        w'.log = w.log ++ l ++ (List.range' 0 m).map (fun k =>
            Event.ulWrite ((s._configPageUL + k) % 256)
              ((List.range 4).map (fun i => ulconf.bytes.getD (4 * k + i) 0)) true)
          ++ (if m < 4 then [Event.ulWrite ((s._configPageUL + m) % 256)
            ((List.range 4).map (fun i => ulconf.bytes.getD (4 * m + i) 0)) false] else [])) := by
  simp only [writeConfigDataUL] at h
  split at h
  · simp only [Option.some.injEq, Prod.mk.injEq] at h
    obtain ⟨rfl, rfl⟩ := h
    exact ⟨[], by simp, Or.inl ⟨rfl, by simp⟩⟩
  cases hw : waitCard T 5000 fuel w with
  | none => simp [hw] at h
  | some p =>
    obtain ⟨b, w1⟩ := p
    cases b with
    | false =>
      simp only [hw, Option.some.injEq, Prod.mk.injEq] at h
      obtain ⟨rfl, rfl⟩ := h
      obtain ⟨l, hl, hp⟩ := suffix_mono isPoll_isPrelude (waitCard_suffix T _ _ _ _ _ hw)
      exact ⟨l, hp, Or.inl ⟨rfl, hl⟩⟩
    | true =>
      simp only [hw] at h
      generalize (if mode = PRT_AUTO then s._lastProtectMode else mode) = m at h
      obtain ⟨l, hl, hp⟩ := prelude_suffix T fuel s m w w1 true hw
      generalize (if m = PRT_PASSWD_RW ∨ m = PRT_PASSWD_RO
          then authUL T s true w1 else (true, w1)) = A at h hl
      split at h
      · simp only [Option.some.injEq, Prod.mk.injEq] at h
        obtain ⟨rfl, rfl⟩ := h
        exact ⟨l, hp, Or.inl ⟨rfl, hl⟩⟩
      obtain ⟨k, hk, hlog, hres⟩ := writeConfigLoopUL_shape T s ulconf.bytes 4 0 A.2
      simp only [Nat.mul_zero, Nat.zero_add] at hlog hres
      simp only [Option.some.injEq] at h
      rw [h] at hlog hres
      refine ⟨l, hp, Or.inr ⟨k, hk, hres, ?_⟩⟩
      rw [hlog, hl]

theorem isPrelude_not_isUlWrite (e : Event) (h : e.isPrelude = true) :
    e.isUlWrite = false := by
  cases e <;> simp_all [Event.isPrelude, Event.isPoll, Event.isChallenge, Event.isUlWrite]

theorem isPrelude_not_isRead (e : Event) (h : e.isPrelude = true) : e.isRead = false := by
  cases e <;> simp_all [Event.isPrelude, Event.isPoll, Event.isChallenge, Event.isRead]

theorem filter_nil_of_forall {p : Event → Bool} {l : List Event}
    (h : ∀ e ∈ l, p e = false) : l.filter p = [] := by
  rw [List.filter_eq_nil_iff]
  intro e he
  simp [h e he]

theorem filter_self_of_forall {p : Event → Bool} {l : List Event}
    (h : ∀ e ∈ l, p e = true) : l.filter p = l := by
  rw [List.filter_eq_self]
  exact h

/-- The arithmetic of the `ACCESS` update: bits 0-6 are kept and bit 7 is the flag. -/
theorem access_update (x : Nat) (f : Bool) :
    ((x &&& 0x7F) ||| ((if f then 0 else 1) <<< 7)) % 256
      = x % 128 + (if f then 0 else 128) := by
  have hx : x &&& 0x7F = x % 128 := Nat.and_pow_two_sub_one_eq_mod x 7
  rw [hx]
  have hy : x % 128 < 128 := Nat.mod_lt _ (by decide)
  generalize x % 128 = y at hy
  cases f <;> interval_cases y <;> rfl

/-- The record `writeProtectUL` builds from the 16 bytes read is the record the
specification describes. -/
theorem protectConfigUL_bytes (s : Session) (resp : List Nat) (mode : ProtectMode)
    (key : Option AuthKey) (blockAddr : Nat) :
    (protectConfigUL s (ULConfig.ofBytes ((List.range 16).map (fun i => resp.getD i 0)))
        mode key blockAddr).bytes
      = configUpdateSpec resp blockAddr mode (key.getD s._authKeyBDefault) := by
  have hg : ∀ i, i < 16 →
      ((List.range 16).map (fun i => resp.getD i 0)).getD i 0 = resp.getD i 0 := by
    intro i hi
    interval_cases i <;> rfl
  simp only [protectConfigUL, ULConfig.bytes, ULConfig.ofBytes, configUpdateSpec, access_update]
  rw [hg 0 (by omega), hg 1 (by omega), hg 2 (by omega), hg 4 (by omega), hg 5 (by omega),
    hg 6 (by omega), hg 7 (by omega), hg 14 (by omega), hg 15 (by omega)]
  cases key <;> cases mode <;> simp

/-- The log of a `writeProtectUL` run: either no page write at all and the result
`false`, or prelude events, the read of the configuration page, prelude events and
the page writes of the updated record, `m` accepted ones and the refused one if any. -/
theorem writeProtectUL_shape (fuel : Nat) (s : Session) (mode : ProtectMode)
    (key : Option AuthKey) (vaddr : Nat) (phyaddr : Bool) (lastmode : ProtectMode) (d : σ)
    (r : Bool) (s' : Session) (w' : World σ)
    (h : writeProtectUL T fuel s mode key vaddr phyaddr lastmode ⟨d, []⟩ = some (r, s', w')) :
    (r = false ∧ ∀ e ∈ w'.log, e.isUlWrite = false) ∨
    (mode ≠ PRT_NOPASS_RO ∧ ∃ resp l1 l2 m, (∀ e ∈ l1, e.isPrelude = true) ∧
      (∀ e ∈ l2, e.isPrelude = true) ∧ m ≤ 4 ∧ (r = true ↔ m = 4) ∧
      w'.log = l1 ++ [Event.read (s._configPageUL % 256) (some resp)] ++ l2
        ++ (List.range' 0 m).map (fun k => Event.ulWrite ((s._configPageUL + k) % 256)
            ((List.range 4).map (fun i => (configUpdateSpec resp
              (if phyaddr then vaddr else (addr2PhysicalAddr s vaddr Ultralight).blockAddr)
              mode (key.getD s._authKeyBDefault)).getD (4 * k + i) 0)) true)
        ++ (if m < 4 then [Event.ulWrite ((s._configPageUL + m) % 256)
            ((List.range 4).map (fun i => (configUpdateSpec resp
              (if phyaddr then vaddr else (addr2PhysicalAddr s vaddr Ultralight).blockAddr)
              mode (key.getD s._authKeyBDefault)).getD (4 * m + i) 0)) false] else [])) := by
  simp only [writeProtectUL] at h
  split at h
  · simp only [Option.some.injEq, Prod.mk.injEq] at h
    obtain ⟨rfl, rfl, rfl⟩ := h
    exact Or.inl ⟨rfl, by simp⟩
  split at h
  · simp only [Option.some.injEq, Prod.mk.injEq] at h
    obtain ⟨rfl, rfl, rfl⟩ := h
    exact Or.inl ⟨rfl, by simp⟩
  cases hw : waitCard T 5000 fuel ⟨d, []⟩ with
  | none => simp [hw] at h
  | some p =>
    obtain ⟨bw, w1⟩ := p
    obtain ⟨l0, hl0, hp0⟩ := suffix_mono isPoll_isPrelude (waitCard_suffix T _ _ _ _ _ hw)
    simp only [List.nil_append] at hl0
    have h1 : ∀ e ∈ w1.log, e.isUlWrite = false := by
      rw [hl0]; exact fun e he => isPrelude_not_isUlWrite e (hp0 e he)
    cases bw with
    | false =>
      simp only [hw, Option.some.injEq, Prod.mk.injEq] at h
      obtain ⟨rfl, rfl, rfl⟩ := h
      exact Or.inl ⟨rfl, h1⟩
    | true =>
      simp only [hw] at h
      split at h
      · simp only [Option.some.injEq, Prod.mk.injEq] at h
        obtain ⟨rfl, rfl, rfl⟩ := h
        exact Or.inl ⟨rfl, h1⟩
      rename_i hmode
      generalize hR : readConfigDataUL T fuel s
        (if lastmode = PRT_AUTO then s._lastProtectMode else lastmode) w1 = R at h
      match R, hR, h with
      | none, _, h => simp at h
      | some (none, w2), hR, h =>
        simp only [Option.some.injEq, Prod.mk.injEq] at h
        obtain ⟨rfl, rfl, rfl⟩ := h
        exact Or.inl ⟨rfl, readConfigDataUL_log T (fun e he => he) _ _ _ _ _ _ hR h1⟩
      | some (some ulconf, w2), hR, h =>
        simp only at h
        obtain ⟨la, hpa, hsh⟩ := readConfigDataUL_shape T _ _ _ _ _ _ hR
        rcases hsh with ⟨hc, -⟩ | ⟨resp, hc, hlog2⟩
        · cases hc
        simp only [Option.some.injEq] at hc
        have h2 : ∀ e ∈ w2.log, e.isUlWrite = false :=
          readConfigDataUL_log T (fun e he => he) _ _ _ _ _ _ hR h1
        generalize hB : (if phyaddr = true then vaddr
          else (addr2PhysicalAddr s vaddr Ultralight).blockAddr) = blockAddr at h
        generalize hW : writeConfigDataUL T fuel s (protectConfigUL s ulconf mode key blockAddr)
          (if lastmode = PRT_AUTO then s._lastProtectMode else lastmode) w2 = W at h
        obtain _ | ⟨rr, w3⟩ := W
        · simp at h
        have fin :
            (rr = false ∧ ∀ e ∈ w3.log, e.isUlWrite = false) ∨
            (mode ≠ PRT_NOPASS_RO ∧ ∃ resp l1 l2 m, (∀ e ∈ l1, e.isPrelude = true) ∧
              (∀ e ∈ l2, e.isPrelude = true) ∧ m ≤ 4 ∧ (rr = true ↔ m = 4) ∧
              w3.log = l1 ++ [Event.read (s._configPageUL % 256) (some resp)] ++ l2
                ++ (List.range' 0 m).map (fun k => Event.ulWrite ((s._configPageUL + k) % 256)
                    ((List.range 4).map (fun i => (configUpdateSpec resp blockAddr
                      mode (key.getD s._authKeyBDefault)).getD (4 * k + i) 0)) true)
                ++ (if m < 4 then [Event.ulWrite ((s._configPageUL + m) % 256)
                    ((List.range 4).map (fun i => (configUpdateSpec resp blockAddr
                      mode (key.getD s._authKeyBDefault)).getD (4 * m + i) 0)) false]
                    else [])) := by
          obtain ⟨lb, hpb, hsh⟩ := writeConfigDataUL_shape T _ _ _ _ _ _ _ hW
          rcases hsh with ⟨hr, hlog3⟩ | ⟨m, hm4, hres, hlog3⟩
          · left
            refine ⟨hr, ?_⟩
            rw [hlog3]
            simp only [List.forall_mem_append]
            exact ⟨h2, fun e he => isPrelude_not_isUlWrite e (hpb e he)⟩
          · right
            refine ⟨hmode, resp, l0 ++ la, lb, m, ?_, hpb, hm4, hres, ?_⟩
            · simp only [List.forall_mem_append]
              exact ⟨hp0, hpa⟩
            · rw [hlog3, hlog2, hl0, hc, protectConfigUL_bytes]
        cases rr <;>
        · simp only [Option.some.injEq, Prod.mk.injEq] at h
          obtain ⟨rfl, rfl, rfl⟩ := h
          exact fin

theorem configPage_slice (l : List Nat) (hl : l.length = 16) (k : Nat) (hk : k < 4) :
    (List.range 4).map (fun i => l.getD (4 * k + i) 0) = (l.drop (4 * k)).take 4 := by
  match l, hl with
  | [a0, a1, a2, a3, a4, a5, a6, a7, a8, a9, a10, a11, a12, a13, a14, a15], _ =>
    interval_cases k <;> rfl

theorem configUpdateSpec_length (rd : List Nat) (p : Nat) (mode : ProtectMode) (k : AuthKey) :
    (configUpdateSpec rd p mode k).length = 16 := rfl

/-- Claim C11, as amended: in every `writeProtectUL` run the pages written are pages of
one 16-byte record, the record read from the configuration page with `AUTH0`
(byte 3), `ACCESS` (byte 4), the password (bytes 8-11) and the PACK (bytes 12-13)
replaced as `configUpdateSpec` says and every other byte unchanged.  The starting
page that goes into `AUTH0` for a password-gated target is the translated page
`addr2PhysicalAddr(vaddr).blockAddr` when `phyaddr` is false and `vaddr` itself when
`phyaddr` is true, reduced to a byte.  A run that returns `true` has read the
configuration page once and written the four pages of the record, in page order. -/
theorem writeProtectUL_config_update (fuel : Nat) (s : Session) (mode : ProtectMode)
    (key : Option AuthKey) (vaddr : Nat) (phyaddr : Bool) (lastmode : ProtectMode) (d : σ)
    (r : Bool) (s' : Session) (w' : World σ)
    (h : writeProtectUL T fuel s mode key vaddr phyaddr lastmode ⟨d, []⟩ = some (r, s', w')) :
    (r = true → ∃ resp,
      w'.log.filter Event.isRead = [Event.read (s._configPageUL % 256) (some resp)] ∧
      w'.log.filter Event.isUlWrite = (List.range 4).map (fun k =>
        Event.ulWrite ((s._configPageUL + k) % 256)
          (((configUpdateSpec resp
              (if phyaddr then vaddr else (addr2PhysicalAddr s vaddr Ultralight).blockAddr)
              mode (key.getD s._authKeyBDefault)).drop (4 * k)).take 4) true)) ∧
    (∀ p b ok, Event.ulWrite p b ok ∈ w'.log → ∃ resp k, k < 4 ∧
      w'.log.filter Event.isRead = [Event.read (s._configPageUL % 256) (some resp)] ∧
      p = (s._configPageUL + k) % 256 ∧
      b = ((configUpdateSpec resp
              (if phyaddr then vaddr else (addr2PhysicalAddr s vaddr Ultralight).blockAddr)
              mode (key.getD s._authKeyBDefault)).drop (4 * k)).take 4) := by
  rcases writeProtectUL_shape T _ _ _ _ _ _ _ _ _ _ _ h with
    ⟨hr, hno⟩ | ⟨-, resp, l1, l2, m, hp1, hp2, hm4, hres, hlog⟩
  · refine ⟨fun hr1 => by simp [hr] at hr1, ?_⟩
    intro p b ok hmem
    have := hno _ hmem
    simp [Event.isUlWrite] at this
  generalize hrec : configUpdateSpec resp
    (if phyaddr then vaddr else (addr2PhysicalAddr s vaddr Ultralight).blockAddr)
    mode (key.getD s._authKeyBDefault) = record at hlog ⊢
  have hlen : record.length = 16 := by rw [← hrec]; rfl
  have hM1 : ∀ e ∈ (List.range' 0 m).map (fun k => Event.ulWrite ((s._configPageUL + k) % 256)
      ((List.range 4).map (fun i => record.getD (4 * k + i) 0)) true), e.isRead = false := by
    intro e he
    simp only [List.mem_map] at he
    obtain ⟨k, -, rfl⟩ := he
    rfl
  have hT1 : ∀ e ∈ (if m < 4 then [Event.ulWrite ((s._configPageUL + m) % 256)
      ((List.range 4).map (fun i => record.getD (4 * m + i) 0)) false] else []),
      e.isRead = false := by
    intro e he
    split at he
    · simp only [List.mem_singleton] at he
      rw [he]; rfl
    · simp at he
  have hread : w'.log.filter Event.isRead
      = [Event.read (s._configPageUL % 256) (some resp)] := by
    rw [hlog]
    simp only [List.filter_append,
      filter_nil_of_forall (fun e he => isPrelude_not_isRead e (hp1 e he)),
      filter_nil_of_forall (fun e he => isPrelude_not_isRead e (hp2 e he)),
      filter_nil_of_forall hM1, filter_nil_of_forall hT1, List.nil_append, List.append_nil]
    rfl
  refine ⟨fun hr1 => ⟨resp, hread, ?_⟩, ?_⟩
  · have hm : m = 4 := hres.1 hr1
    subst hm
    rw [hlog, hrec]
    simp only [List.filter_append,
      filter_nil_of_forall (fun e he => isPrelude_not_isUlWrite e (hp1 e he)),
      filter_nil_of_forall (fun e he => isPrelude_not_isUlWrite e (hp2 e he)),
      List.nil_append, lt_irrefl, if_false, List.filter_nil, List.append_nil]
    have e0 := configPage_slice record hlen 0 (by omega)
    have e1 := configPage_slice record hlen 1 (by omega)
    have e2 := configPage_slice record hlen 2 (by omega)
    have e3 := configPage_slice record hlen 3 (by omega)
    simp only [List.range'_succ, List.range'_zero, List.map_cons, List.map_nil,
      show List.range 4 = [0, 1, 2, 3] from rfl] at e0 e1 e2 e3 ⊢
    simp only [e0, e1, e2, e3]
    simp [List.filter, Event.isUlWrite]
  · intro p b ok hmem
    rw [hlog] at hmem
    simp only [List.mem_append, List.mem_singleton, List.mem_map, List.mem_range'_1] at hmem
    rcases hmem with (((hmem | hmem) | hmem) | ⟨k, hk, hmem⟩) | hmem
    · have := isPrelude_not_isUlWrite _ (hp1 _ hmem)
      simp [Event.isUlWrite] at this
    · cases hmem
    · have := isPrelude_not_isUlWrite _ (hp2 _ hmem)
      simp [Event.isUlWrite] at this
    · simp only [Event.ulWrite.injEq] at hmem
      obtain ⟨hp, hb, -⟩ := hmem
      have hk4 : k < 4 := by omega
      exact ⟨resp, k, hk4, hread, hp.symm, by rw [hrec, ← hb]; exact configPage_slice record hlen k hk4⟩
    · split at hmem
      · rename_i hm
        simp only [List.mem_singleton, Event.ulWrite.injEq] at hmem
        obtain ⟨hp, hb, -⟩ := hmem
        exact ⟨resp, m, hm, hread, hp, by rw [hrec, hb]; exact configPage_slice record hlen m hm⟩
      · simp at hmem

/-- Witness of claim C11, as amended: installing the key `01 02 03 04 05 06` with
target PasswordReadWrite from virtual address 8 on a blank NTAG213 reads page 41 and
writes pages 41-44 with `AUTH0 = 7` (the translated page), `ACCESS = 0x80`, the
password `01 02 03 04` and the PACK `05 06`. -/
theorem writeProtectUL_config_update_witness :
    ∃ s' w', writeProtectUL cardReader 1 (sessionUL NT_NTAG213) PRT_PASSWD_RW
        (some ⟨1, 2, 3, 4, 5, 6⟩) 8 false PRT_AUTO ⟨blankUL, []⟩ = some (true, s', w') ∧
      (∃ resp, w'.log.filter Event.isRead = [Event.read 41 (some resp)] ∧
        w'.log.filter Event.isUlWrite = (List.range 4).map (fun k =>
          Event.ulWrite ((41 + k) % 256)
            (((configUpdateSpec resp 7 PRT_PASSWD_RW ⟨1, 2, 3, 4, 5, 6⟩).drop (4 * k)).take 4)
            true)) ∧
      w'.log.filter Event.isUlWrite
        = [Event.ulWrite 41 [0, 0, 0, 7] true, Event.ulWrite 42 [0x80, 0, 0, 0] true,
           Event.ulWrite 43 [1, 2, 3, 4] true, Event.ulWrite 44 [5, 6, 0, 0] true] :=
  ⟨_, _, rfl,
    (writeProtectUL_config_update cardReader 1 (sessionUL NT_NTAG213) PRT_PASSWD_RW
      (some ⟨1, 2, 3, 4, 5, 6⟩) 8 false PRT_AUTO blankUL true _ _ rfl).1 rfl,
    by decide⟩

/-- Counterexample to claim C11 as stated: with `phyaddr = true` and `vaddr = 8` the
`AUTH0` byte written (byte 3 of page 41) is 8, the address handed in, while the
translated starting page `addr2PhysicalAddr(8).blockAddr` is 7. -/
theorem writeProtectUL_config_update_counterexample :
    ∃ s' w', writeProtectUL cardReader 1 (sessionUL NT_NTAG213) PRT_PASSWD_RW
        (some ⟨1, 2, 3, 4, 5, 6⟩) 8 true PRT_AUTO ⟨blankUL, []⟩ = some (true, s', w') ∧
      Event.ulWrite 41 [0, 0, 0, 8] true ∈ w'.log ∧
      (addr2PhysicalAddr (sessionUL NT_NTAG213) 8 Ultralight).blockAddr = 7 :=
  ⟨_, _, rfl, by decide, by decide⟩

end ConfigUpdate

/-! ## Protection: OpenReadOnly on an Ultralight tag -/

section OpenReadOnlyUL
variable {σ : Type} (T : MFRC522 σ)

theorem isPoll_not_transfer (e : Event) (h : e.isPoll = true) :
    e.isRead = false ∧ e.isUlWrite = false := by
  cases e <;> simp_all [Event.isPoll, Event.isRead, Event.isUlWrite]

/-- Claim C12: on a mounted Ultralight tag `writeProtect` with target OpenReadOnly
(`PRT_NOPASS_RO`) fails for every key, address, size and previous mode.  Whenever
the call returns, it returns `false`, the session is unchanged (so is its active
mode) and the reader has only been polled for the tag: no read, in particular not
of the configuration page, and no page write.  The call does return, with `false`,
as soon as the address is not page-aligned or the polling of `waitCard` ends. -/
theorem writeProtect_open_readonly_rejected (fuel : Nat) (s : Session) (key : Option AuthKey)
    (vaddr : Nat) (size : Int) (lastmode : ProtectMode) (d : σ)
    (hs : isUltralight s = true) :
    (∀ r s' w', writeProtect T fuel s PRT_NOPASS_RO key vaddr size lastmode ⟨d, []⟩
        = some (r, s', w') →
      r = false ∧ s' = s ∧ s'._lastProtectMode = s._lastProtectMode ∧
      ∀ e ∈ w'.log, e.isPoll = true ∧ e.isRead = false ∧ e.isUlWrite = false) ∧
    ((vaddr % 4 ≠ 0 ∨ ∃ x, waitCard T 5000 fuel ⟨d, []⟩ = some x) →
      ∃ w', writeProtect T fuel s PRT_NOPASS_RO key vaddr size lastmode ⟨d, []⟩
        = some (false, s, w')) := by
  obtain ⟨hm, hc⟩ := (isUltralight_iff s).1 hs
  have hrun : writeProtect T fuel s PRT_NOPASS_RO key vaddr size lastmode ⟨d, []⟩
      = if vaddr % 4 ≠ 0 then some (false, s, ⟨d, []⟩)
        else match waitCard T 5000 fuel ⟨d, []⟩ with
          | none => none
          | some (_, w1) => some (false, s, w1) := by
    simp only [writeProtect, writeProtectUL, isMounted, hm, hc, hs, Bool.not_true,
      Bool.false_eq_true, if_false, and_true, if_true]
    split
    · rfl
    · cases waitCard T 5000 fuel ⟨d, []⟩ with
      | none => rfl
      | some p => obtain ⟨b, w1⟩ := p; cases b <;> rfl
  rw [hrun]
  refine ⟨?_, ?_⟩
  · intro r s' w' h
    split at h
    · simp only [Option.some.injEq, Prod.mk.injEq] at h
      obtain ⟨rfl, rfl, rfl⟩ := h
      exact ⟨rfl, rfl, rfl, by simp⟩
    · cases hw : waitCard T 5000 fuel ⟨d, []⟩ with
      | none => simp [hw] at h
      | some p =>
        obtain ⟨b, w1⟩ := p
        simp only [hw, Option.some.injEq, Prod.mk.injEq] at h
        obtain ⟨rfl, rfl, rfl⟩ := h
        refine ⟨rfl, rfl, rfl, ?_⟩
        exact waitCard_log T (fun e he => ⟨he, isPoll_not_transfer e he⟩) _ _ _ _ _ hw (by simp)
  · intro h
    split
    · exact ⟨_, rfl⟩
    · rename_i hv
      rcases h with h | ⟨x, hx⟩
      · exact absurd h hv
      · obtain ⟨b, w1⟩ := x
        exact ⟨w1, by rw [hx]⟩

/-- Witness of claim C12: on a blank NTAG213 the call returns `false` after two
polling calls and leaves the card as it was. -/
theorem writeProtect_open_readonly_rejected_witness :
    isUltralight (sessionUL NT_NTAG213) = true ∧
    writeProtect cardReader 1 (sessionUL NT_NTAG213) PRT_NOPASS_RO none 0 0 PRT_AUTO
        ⟨blankUL, []⟩
      = some (false, sessionUL NT_NTAG213,
          ⟨blankUL, [Event.isNewCardPresent true, Event.readCardSerial true]⟩) ∧
    ∃ w', writeProtect cardReader 1 (sessionUL NT_NTAG213) PRT_NOPASS_RO none 0 0 PRT_AUTO
        ⟨blankUL, []⟩ = some (false, sessionUL NT_NTAG213, w') :=
  ⟨by decide, rfl,
    (writeProtect_open_readonly_rejected cardReader 1 (sessionUL NT_NTAG213) none 0 0 PRT_AUTO
      blankUL (by decide)).2 (Or.inr ⟨_, rfl⟩)⟩

end OpenReadOnlyUL

/-! ## Mounting: capacity detection on an Ultralight tag -/

section Capacity
variable {σ : Type} (T : MFRC522 σ)

/-- The log of `getNtagTypeUL`: prelude events, then at most one read, of page 0; the
class returned is Unknown unless that read succeeds with the magic number `0xE1` in
byte 12, and then it is the class of the capability byte, byte 14. -/
theorem getNtagTypeUL_shape (fuel : Nat) (s : Session) (mode : ProtectMode) (w : World σ)
    (nt : NtagType) (w' : World σ) (h : getNtagTypeUL T fuel s mode w = some (nt, w')) :
    ∃ l, (∀ e ∈ l, e.isPrelude = true) ∧
      ((nt = NT_UNKNOWN ∧ (w'.log = w.log ++ l ∨ w'.log = w.log ++ l ++ [Event.read 0 none])) ∨
       (∃ resp, w'.log = w.log ++ l ++ [Event.read 0 (some resp)] ∧
          nt = if resp.getD 12 0 = 0xE1 then capacityClassSpec (resp.getD 14 0)
               else NT_UNKNOWN)) := by
  simp only [getNtagTypeUL] at h
  cases hw : waitCard T 5000 fuel w with
  | none => simp [hw] at h
  | some p =>
    obtain ⟨b, w1⟩ := p
    cases b with
    | false =>
      simp only [hw, Option.some.injEq, Prod.mk.injEq] at h
      obtain ⟨rfl, rfl⟩ := h
      obtain ⟨l, hl, hp⟩ := suffix_mono isPoll_isPrelude (waitCard_suffix T _ _ _ _ _ hw)
      exact ⟨l, hp, Or.inl ⟨rfl, Or.inl hl⟩⟩
    | true =>
      simp only [hw] at h
      generalize (if mode = PRT_AUTO then s._lastProtectMode else mode) = m at h
      obtain ⟨l, hl, hp⟩ := prelude_suffix T fuel s m w w1 true hw
      generalize (if m = PRT_PASSWD_RW ∨ m = PRT_PASSWD_RO
          then authUL T s true w1 else (true, w1)) = A at h hl
      split at h
      · simp only [Option.some.injEq, Prod.mk.injEq] at h
        obtain ⟨rfl, rfl⟩ := h
        exact ⟨l, hp, Or.inl ⟨rfl, Or.inl hl⟩⟩
      simp only [rawReadUL, Nat.zero_mod] at h
      cases hr : (callRead T 0 A.2).1 with
      | none =>
        have hr2 : (T.MIFARE_Read 0 A.2.dev).1 = none := hr
        simp only [hr, Option.some.injEq, Prod.mk.injEq] at h
        obtain ⟨rfl, rfl⟩ := h
        refine ⟨l, hp, Or.inl ⟨rfl, Or.inr ?_⟩⟩
        rw [callRead_log, hr2, hl]
      | some resp =>
        have hr2 : (T.MIFARE_Read 0 A.2.dev).1 = some resp := hr
        have h12 : ((List.range 16).map (fun i => resp.getD i 0)).getD (3 * 4) 0
            = resp.getD 12 0 := rfl
        have h14 : ((List.range 16).map (fun i => resp.getD i 0)).getD (3 * 4 + 2) 0
            = resp.getD 14 0 := rfl
        simp only [hr, h12, h14] at h
        refine ⟨l, hp, Or.inr ⟨resp, ?_, ?_⟩⟩
        · repeat' split at h
          all_goals
            simp only [Option.some.injEq, Prod.mk.injEq] at h
            obtain ⟨-, rfl⟩ := h
            rw [callRead_log, hr2, hl]
        · simp only [capacityClassSpec]
          repeat' split at h
          all_goals
            simp only [Option.some.injEq, Prod.mk.injEq] at h
            obtain ⟨rfl, -⟩ := h
            simp only [*, if_true, if_false, reduceCtorEq, Nat.reduceEqDiff]

theorem isPoll_isSetup (e : Event) (h : e.isPoll = true) : e.isSetup = true := by
  cases e <;> simp_all [Event.isPoll, Event.isSetup]

/-- The outcomes of `mountCard`.  The log grows by set-up events, then, if a tag
answered, by the query of its type, then, for an Ultralight tag, by the events of
`getNtagTypeUL`.  No tag: `false`.  Classic: `true`, mounted.  Neither Classic nor
Ultralight: `true`, not mounted.  Ultralight: mounted with the pages of the class
and `true` iff the class is known. -/
theorem mountCard_shape (fuel : Nat) (s : Session) (timeout : Nat) (mode : ProtectMode)
    (w : World σ) (r : Bool) (s' : Session) (w' : World σ)
    (h : mountCard T fuel s timeout mode w = some (r, s', w')) :
    ∃ l0, (∀ e ∈ l0, e.isSetup = true) ∧
      ((w'.log = w.log ++ l0 ∧ r = false ∧ s'._mounted = false) ∨
       (∃ t, w'.log = w.log ++ l0 ++ [Event.getType t] ∧
          (t = PICC_TYPE_MIFARE_1K ∨ t = PICC_TYPE_MIFARE_4K) ∧
          r = true ∧ s'._mounted = true ∧ s'._cardType = Classic) ∨
       (∃ t, w'.log = w.log ++ l0 ++ [Event.getType t] ∧
          t ≠ PICC_TYPE_MIFARE_1K ∧ t ≠ PICC_TYPE_MIFARE_4K ∧ t ≠ PICC_TYPE_MIFARE_UL ∧
          r = true ∧ s'._mounted = false ∧ s'._cardType = UnknownCard) ∨
       (∃ l1 nt, (∀ e ∈ l1, e.isPrelude = true) ∧
          s'._cardType = Ultralight ∧ s'._ntagType = nt ∧
          ((nt = NT_UNKNOWN ∧
              (w'.log = w.log ++ l0 ++ [Event.getType PICC_TYPE_MIFARE_UL] ++ l1 ∨
               w'.log = w.log ++ l0 ++ [Event.getType PICC_TYPE_MIFARE_UL] ++ l1
                  ++ [Event.read 0 none])) ∨
           (∃ resp, w'.log = w.log ++ l0 ++ [Event.getType PICC_TYPE_MIFARE_UL] ++ l1
                  ++ [Event.read 0 (some resp)] ∧
              nt = if resp.getD 12 0 = 0xE1 then capacityClassSpec (resp.getD 14 0)
                   else NT_UNKNOWN)) ∧
          (nt ≠ NT_UNKNOWN → r = true ∧ s'._mounted = true ∧
            s'._maxPageUL = getMaxPageUL nt ∧ s'._configPageUL = getConfigPageUL nt) ∧
          (nt = NT_UNKNOWN → r = false ∧ s'._mounted = false))) := by
  have hu : (if s._mounted = true then unmountCard T s w else (s, w)).1._mounted = false := by
    split
    · rfl
    · rename_i hn
      simpa using hn
  have hul : ∃ x, (callInit T (if s._mounted = true then unmountCard T s w else (s, w)).2).log
      = w.log ++ x ∧ ∀ e ∈ x, e.isSetup = true := by
    split
    · exact ⟨[Event.haltA, Event.init], by simp [unmountCard], by simp [Event.isSetup]⟩
    · exact ⟨[Event.init], by simp, by simp [Event.isSetup]⟩
  simp only [mountCard] at h
  generalize (if s._mounted = true then unmountCard T s w else (s, w)) = u at h hu hul
  cases hw : waitCard T timeout fuel (callInit T u.2) with
  | none => simp [hw] at h
  | some p =>
    obtain ⟨b, w1⟩ := p
    obtain ⟨l0, hl0, hp0⟩ :=
      suffix_trans hul (suffix_mono isPoll_isSetup (waitCard_suffix T _ _ _ _ _ hw))
    refine ⟨l0, hp0, ?_⟩
    cases b with
    | false =>
      simp only [hw, Option.some.injEq, Prod.mk.injEq] at h
      obtain ⟨rfl, rfl, rfl⟩ := h
      exact Or.inl ⟨hl0, rfl, hu⟩
    | true =>
      simp only [hw] at h
      have hclog : (checkCardType T w1).2.log
          = w.log ++ l0 ++ [Event.getType (T.PICC_GetType w1.dev)] := by
        simp only [checkCardType]
        repeat' split
        all_goals simp only [callGetType_log, hl0]
      have hct : (checkCardType T w1).1 =
          if T.PICC_GetType w1.dev = PICC_TYPE_MIFARE_1K ∨
              T.PICC_GetType w1.dev = PICC_TYPE_MIFARE_4K then Classic
          else if T.PICC_GetType w1.dev = PICC_TYPE_MIFARE_UL then Ultralight
          else UnknownCard := by
        simp only [checkCardType, callGetType]
        repeat' split
        all_goals rfl
      cases hc : (checkCardType T w1).1 with
      | UnknownCard =>
        simp only [hc, Option.some.injEq, Prod.mk.injEq] at h
        obtain ⟨rfl, rfl, rfl⟩ := h
        refine Or.inr (Or.inr (Or.inl ⟨_, hclog, ?_, ?_, ?_, rfl, hu, rfl⟩))
        all_goals
          intro ht
          rw [hct] at hc
          simp [ht] at hc
      | Classic =>
        simp only [hc, Option.some.injEq, Prod.mk.injEq] at h
        obtain ⟨rfl, rfl, rfl⟩ := h
        refine Or.inr (Or.inl ⟨_, hclog, ?_, rfl, rfl, rfl⟩)
        rw [hct] at hc
        by_contra hn
        rw [if_neg hn] at hc
        split at hc <;> cases hc
      | Ultralight =>
        have ht : T.PICC_GetType w1.dev = PICC_TYPE_MIFARE_UL := by
          rw [hct] at hc
          split at hc
          · cases hc
          · split at hc
            · assumption
            · cases hc
        rw [ht] at hclog
        simp only [hc] at h
        generalize hG : getNtagTypeUL T fuel _ mode (checkCardType T w1).2 = G at h
        match G, hG, h with
        | none, _, h => simp at h
        | some (ntag, w2), hG, h =>
          simp only at h
          obtain ⟨l1, hp1, hsh⟩ := getNtagTypeUL_shape T _ _ _ _ _ _ hG
          rw [hclog] at hsh
          refine Or.inr (Or.inr (Or.inr ⟨l1, ntag, hp1, ?_⟩))
          by_cases hn : ntag = NT_UNKNOWN
          · simp only [hn, ne_eq, not_true_eq_false, if_false, Option.some.injEq,
              Prod.mk.injEq] at h
            obtain ⟨rfl, rfl, rfl⟩ := h
            exact ⟨rfl, hn.symm, hn ▸ hsh, fun hne => absurd hn hne, fun _ => ⟨rfl, hu⟩⟩
          · simp only [ne_eq, hn, not_false_eq_true, if_true, Option.some.injEq,
              Prod.mk.injEq] at h
            obtain ⟨rfl, rfl, rfl⟩ := h
            exact ⟨rfl, rfl, hsh, fun _ => ⟨rfl, rfl, rfl, rfl⟩, fun he => absurd he hn⟩

theorem isSetup_not_isRead (e : Event) (h : e.isSetup = true) : e.isRead = false := by
  cases e <;> simp_all [Event.isSetup, Event.isRead]

/-- In a `mountCard` run from an empty log, a successful read of page 0 is the read of
`getNtagTypeUL`: the tag is an Ultralight tag, and the class stored is Unknown
unless byte 12 is `0xE1`, and then it is the class of byte 14. -/
theorem mountCard_read (fuel : Nat) (s : Session) (timeout : Nat) (mode : ProtectMode)
    (d : σ) (r : Bool) (s' : Session) (w' : World σ)
    (h : mountCard T fuel s timeout mode ⟨d, []⟩ = some (r, s', w'))
    (resp : List Nat) (hread : Event.read 0 (some resp) ∈ w'.log) :
    s'._cardType = Ultralight ∧
    s'._ntagType = (if resp.getD 12 0 = 0xE1 then capacityClassSpec (resp.getD 14 0)
                    else NT_UNKNOWN) ∧
    (s'._ntagType ≠ NT_UNKNOWN → r = true ∧ s'._mounted = true ∧
      s'._maxPageUL = getMaxPageUL s'._ntagType ∧
      s'._configPageUL = getConfigPageUL s'._ntagType) ∧
    (s'._ntagType = NT_UNKNOWN → r = false ∧ s'._mounted = false) := by
  have nr : ∀ l : List Event, (∀ e ∈ l, e.isRead = false) →
      Event.read 0 (some resp) ∈ l → False := by
    intro l hl hm
    have := hl _ hm
    simp [Event.isRead] at this
  obtain ⟨l0, hp0, hsh⟩ := mountCard_shape T _ _ _ _ _ _ _ _ h
  have h0 : ∀ e ∈ l0, e.isRead = false := fun e he => isSetup_not_isRead e (hp0 e he)
  simp only [List.nil_append] at hsh
  rcases hsh with ⟨hlog, -⟩ | ⟨t, hlog, -⟩ | ⟨t, hlog, -⟩ | ⟨l1, nt, hp1, hc, hnt, hlog, hk, hu⟩
  · rw [hlog] at hread
    exact (nr _ h0 hread).elim
  · rw [hlog] at hread
    refine (nr _ ?_ hread).elim
    simp only [List.forall_mem_append, List.forall_mem_singleton]
    exact ⟨h0, rfl⟩
  · rw [hlog] at hread
    refine (nr _ ?_ hread).elim
    simp only [List.forall_mem_append, List.forall_mem_singleton]
    exact ⟨h0, rfl⟩
  · have h1 : ∀ e ∈ l0 ++ [Event.getType PICC_TYPE_MIFARE_UL] ++ l1, e.isRead = false := by
      simp only [List.forall_mem_append, List.forall_mem_singleton]
      exact ⟨⟨h0, rfl⟩, fun e he => isPrelude_not_isRead e (hp1 e he)⟩
    subst hnt
    rcases hlog with ⟨-, hlog | hlog⟩ | ⟨resp', hlog, hcl⟩
    · rw [hlog] at hread
      exact (nr _ h1 hread).elim
    · rw [hlog, List.mem_append, List.mem_singleton] at hread
      rcases hread with hread | hread
      · exact (nr _ h1 hread).elim
      · simp at hread
    · rw [hlog, List.mem_append, List.mem_singleton] at hread
      rcases hread with hread | hread
      · exact (nr _ h1 hread).elim
      · simp only [Event.read.injEq, Option.some.injEq, true_and] at hread
        subst hread
        exact ⟨hc, hcl, hk, hu⟩

/-- Claim C13, as amended: in a `mountCard` run, whenever the 16-byte read of pages 0-3
succeeds, the capacity class is determined by two bytes of page 3.  If byte 0 of
page 3 is the magic number `0xE1`, the capability byte (byte 2 of page 3) decides:
`0x12` gives NTAG213 with maxPage 39 and configPage 41, `0x3E` gives NTAG215 with
129 and 131, `0x6D` gives NTAG216 with 225 and 227, and the mount succeeds.  If
byte 0 of page 3 is not `0xE1`, or the capability byte is none of the three, the
class is Unknown and the mount fails.  On every mounted Ultralight tag
configPage = maxPage + 2. -/
theorem mountCard_capacity_detection (fuel : Nat) (s : Session) (timeout : Nat)
    (mode : ProtectMode) (d : σ) (r : Bool) (s' : Session) (w' : World σ)
    (h : mountCard T fuel s timeout mode ⟨d, []⟩ = some (r, s', w'))
    (resp : List Nat) (hread : Event.read 0 (some resp) ∈ w'.log) :
    (resp.getD 12 0 = 0xE1 ∧ resp.getD 14 0 = 0x12 →
      r = true ∧ s'._mounted = true ∧ s'._ntagType = NT_NTAG213 ∧
      s'._maxPageUL = 39 ∧ s'._configPageUL = 41) ∧
    (resp.getD 12 0 = 0xE1 ∧ resp.getD 14 0 = 0x3E →
      r = true ∧ s'._mounted = true ∧ s'._ntagType = NT_NTAG215 ∧
      s'._maxPageUL = 129 ∧ s'._configPageUL = 131) ∧
    (resp.getD 12 0 = 0xE1 ∧ resp.getD 14 0 = 0x6D →
      r = true ∧ s'._mounted = true ∧ s'._ntagType = NT_NTAG216 ∧
      s'._maxPageUL = 225 ∧ s'._configPageUL = 227) ∧
    (resp.getD 12 0 ≠ 0xE1 ∨
        (resp.getD 14 0 ≠ 0x12 ∧ resp.getD 14 0 ≠ 0x3E ∧ resp.getD 14 0 ≠ 0x6D) →
      r = false ∧ s'._mounted = false ∧ s'._ntagType = NT_UNKNOWN) ∧
    (s'._mounted = true → s'._configPageUL = s'._maxPageUL + 2) := by
  obtain ⟨-, hnt, hk, hu⟩ := mountCard_read T _ _ _ _ _ _ _ _ h resp hread
  refine ⟨?_, ?_, ?_, ?_, ?_⟩
  · rintro ⟨h12, h14⟩
    have e : s'._ntagType = NT_NTAG213 := by rw [hnt, if_pos h12, h14]; rfl
    obtain ⟨a, b, c, dd⟩ := hk (by simp [e])
    rw [e] at c dd
    exact ⟨a, b, e, c, dd⟩
  · rintro ⟨h12, h14⟩
    have e : s'._ntagType = NT_NTAG215 := by rw [hnt, if_pos h12, h14]; rfl
    obtain ⟨a, b, c, dd⟩ := hk (by simp [e])
    rw [e] at c dd
    exact ⟨a, b, e, c, dd⟩
  · rintro ⟨h12, h14⟩
    have e : s'._ntagType = NT_NTAG216 := by rw [hnt, if_pos h12, h14]; rfl
    obtain ⟨a, b, c, dd⟩ := hk (by simp [e])
    rw [e] at c dd
    exact ⟨a, b, e, c, dd⟩
  · intro hh
    have e : s'._ntagType = NT_UNKNOWN := by
      rw [hnt]
      rcases hh with h12 | ⟨a, b, c⟩
      · rw [if_neg h12]
      · simp only [capacityClassSpec, if_neg a, if_neg b, if_neg c, ite_self]
    exact ⟨(hu e).1, (hu e).2, e⟩
  · intro hm
    by_cases e : s'._ntagType = NT_UNKNOWN
    · have := (hu e).2
      rw [hm] at this
      cases this
    · obtain ⟨-, -, c, dd⟩ := hk e
      rw [c, dd]
      generalize s'._ntagType = n at e
      cases n
      · exact absurd rfl e
      all_goals rfl

/-- Witness of claim C13, as amended: a tag with the capability container
`E1 10 3E 00` mounts as NTAG215 with maxPage 129 and configPage 131. -/
theorem mountCard_capacity_detection_witness :
    ∃ s' w', mountCard cardReader 1 {} 0 PRT_AUTO ⟨ndefUL 0x3E, []⟩ = some (true, s', w') ∧
      Event.read 0 (some ((ndefUL 0x3E).load 0)) ∈ w'.log ∧
      (true = true ∧ s'._mounted = true ∧ s'._ntagType = NT_NTAG215 ∧
        s'._maxPageUL = 129 ∧ s'._configPageUL = 131) :=
  ⟨_, _, rfl, by decide,
    (mountCard_capacity_detection cardReader 1 {} 0 PRT_AUTO (ndefUL 0x3E) true _ _ rfl
      ((ndefUL 0x3E).load 0) (by decide)).2.1 ⟨by decide, by decide⟩⟩

/-- Counterexample to claim C13 as stated: a tag whose page 3 is `00 00 3E 00` answers
the read of pages 0-3 with the capability byte `0x3E`, yet the class is Unknown (not
NTAG215, the class of `0x3E`) and the mount fails, because byte 0 of page 3 is not
`0xE1`. -/
theorem mountCard_capacity_detection_counterexample :
    ∃ s' w', mountCard cardReader 1 {} 0 PRT_AUTO ⟨rawUL 0x3E, []⟩ = some (false, s', w') ∧
      Event.read 0 (some ((rawUL 0x3E).load 0)) ∈ w'.log ∧
      ((rawUL 0x3E).load 0).getD 14 0 = 0x3E ∧
      s'._ntagType = NT_UNKNOWN ∧ s'._mounted = false ∧
      capacityClassSpec 0x3E = NT_NTAG215 :=
  ⟨_, _, rfl, by decide, by decide, by decide, by decide, by decide⟩

end Capacity

/-! ## Mounting: a tag of unknown family -/

section UnknownFamily
variable {σ : Type} (T : MFRC522 σ)

theorem isSetup_not_getType (e : Event) (h : e.isSetup = true) (t : PiccType) :
    e ≠ Event.getType t := by
  cases e <;> simp_all [Event.isSetup]

theorem isPrelude_not_getType (e : Event) (h : e.isPrelude = true) (t : PiccType) :
    e ≠ Event.getType t := by
  cases e <;> simp_all [Event.isPrelude, Event.isPoll, Event.isChallenge]

/-- For every reader: a `mountCard` run in which the tag reports a type that is neither
MIFARE 1K/4K nor Ultralight returns `true` and leaves the session unmounted. -/
theorem mountCard_unknown_type (fuel : Nat) (s : Session) (timeout : Nat) (mode : ProtectMode)
    (d : σ) (r : Bool) (s' : Session) (w' : World σ)
    (h : mountCard T fuel s timeout mode ⟨d, []⟩ = some (r, s', w'))
    (t : PiccType) (ht : Event.getType t ∈ w'.log)
    (h1 : t ≠ PICC_TYPE_MIFARE_1K) (h2 : t ≠ PICC_TYPE_MIFARE_4K)
    (h3 : t ≠ PICC_TYPE_MIFARE_UL) :
    r = true ∧ isMounted s' = false ∧ s'._cardType = UnknownCard := by
  obtain ⟨l0, hp0, hsh⟩ := mountCard_shape T _ _ _ _ _ _ _ _ h
  simp only [List.nil_append] at hsh
  have n0 : Event.getType t ∉ l0 := fun hm => isSetup_not_getType _ (hp0 _ hm) t rfl
  rcases hsh with ⟨hlog, -⟩ | ⟨t', hlog, ht', -⟩ | ⟨t', hlog, -, -, -, hr, hm, hc⟩ |
    ⟨l1, nt, hp1, -, -, hlog, -, -⟩
  · rw [hlog] at ht
    exact absurd ht n0
  · rw [hlog, List.mem_append, List.mem_singleton] at ht
    rcases ht with ht | ht
    · exact absurd ht n0
    · simp only [Event.getType.injEq] at ht
      subst ht
      rcases ht' with e | e
      · exact absurd e h1
      · exact absurd e h2
  · exact ⟨hr, hm, hc⟩
  · have n1 : Event.getType t ∉ l1 := fun hm => isPrelude_not_getType _ (hp1 _ hm) t rfl
    have key : Event.getType t ∈ l0 ++ [Event.getType PICC_TYPE_MIFARE_UL] ++ l1 → False := by
      simp only [List.mem_append, List.mem_singleton, Event.getType.injEq]
      rintro ((hm | hm) | hm)
      · exact n0 hm
      · exact h3 hm
      · exact n1 hm
    rcases hlog with ⟨-, hlog | hlog⟩ | ⟨resp, hlog, -⟩
    · rw [hlog] at ht
      exact (key ht).elim
    · rw [hlog, List.mem_append, List.mem_singleton] at ht
      rcases ht with ht | ht
      · exact (key ht).elim
      · cases ht
    · rw [hlog, List.mem_append, List.mem_singleton] at ht
      rcases ht with ht | ht
      · exact (key ht).elim
      · cases ht

/-- Claim C14, evaluated at the failing input: with a tag present that reports a type
other than MIFARE 1K/4K or Ultralight, `mountCard` from the initial session returns
`true` although the family stays `UnknownCard` and `isMounted()` is false. -/
theorem mountCard_unresolved_family_returns_true :
    ∃ s' w', mountCard cardReader 1 {} 0 PRT_AUTO ⟨otherCard, []⟩ = some (true, s', w') ∧
      Event.getType PICC_TYPE_OTHER ∈ w'.log ∧
      isMounted s' = false ∧ s'._cardType = UnknownCard :=
  ⟨_, _, rfl, by decide, by decide, by decide⟩

end UnknownFamily

/-! ## Unmounting -/

section Unmount
variable {σ : Type} (T : MFRC522 σ)

/-- Claim C15, as amended: from any state `unmountCard` halts the tag and leaves the
session unmounted with family `UnknownCard`, capacity class `NT_UNKNOWN` and active
mode OpenReadWrite; `_maxPageUL` and `_configPageUL` are not touched, they keep the
values of the previous mount, and so do the sector and page bounds set by the
caller and the keys. -/
theorem unmountCard_resets (s : Session) (w : World σ) :
    (unmountCard T s w).1._mounted = false ∧
    isMounted (unmountCard T s w).1 = false ∧
    (unmountCard T s w).1._cardType = UnknownCard ∧
    (unmountCard T s w).1._ntagType = NT_UNKNOWN ∧
    (unmountCard T s w).1._lastProtectMode = PRT_NOPASS_RW ∧
    (unmountCard T s w).1._maxPageUL = s._maxPageUL ∧
    (unmountCard T s w).1._configPageUL = s._configPageUL ∧
    (unmountCard T s w).1 = { s with _lastProtectMode := PRT_NOPASS_RW,
                                      _cardType := UnknownCard,
                                      _ntagType := NT_UNKNOWN, _mounted := false } ∧
    (unmountCard T s w).2.log = w.log ++ [Event.haltA] :=
  ⟨rfl, rfl, rfl, rfl, rfl, rfl, rfl, rfl, rfl⟩

/-- Counterexample to claim C15 as stated: after mounting an NTAG216 from the initial
session, `unmountCard` leaves `_maxPageUL = 225` and `_configPageUL = 227`, not the
initial values 39 and 0. -/
theorem unmountCard_resets_counterexample :
    ∃ s1 w1, mountCard cardReader 1 {} 0 PRT_AUTO ⟨ndefUL 0x6D, []⟩ = some (true, s1, w1) ∧
      (unmountCard cardReader s1 w1).1._mounted = false ∧
      (unmountCard cardReader s1 w1).1._maxPageUL = 225 ∧
      (unmountCard cardReader s1 w1).1._configPageUL = 227 ∧
      ({} : Session)._maxPageUL = 39 ∧ ({} : Session)._configPageUL = 0 :=
  ⟨_, _, rfl, by decide, by decide, by decide, by decide, by decide⟩

end Unmount

/-! ## The stored protection mode -/

section StoredMode
variable {σ : Type} (T : MFRC522 σ)

/-- After `mountCard` the active mode is never `PRT_AUTO`: `PRT_AUTO` as argument is
stored as OpenReadWrite. -/
theorem mountCard_mode (fuel : Nat) (s : Session) (timeout : Nat) (mode : ProtectMode)
    (w : World σ) (r : Bool) (s' : Session) (w' : World σ)
    (h : mountCard T fuel s timeout mode w = some (r, s', w')) :
    s'._lastProtectMode = (if mode ≠ PRT_AUTO then mode else PRT_NOPASS_RW) ∧
    s'._lastProtectMode ≠ PRT_AUTO := by
  have h1 : s'._lastProtectMode = (if mode ≠ PRT_AUTO then mode else PRT_NOPASS_RW) := by
    simp only [mountCard] at h
    generalize (if s._mounted = true then unmountCard T s w else (s, w)) = u at h
    cases hw : waitCard T timeout fuel (callInit T u.2) with
    | none => simp [hw] at h
    | some p =>
      obtain ⟨b, w1⟩ := p
      cases b with
      | false =>
        simp only [hw, Option.some.injEq, Prod.mk.injEq] at h
        obtain ⟨-, rfl, -⟩ := h
        rfl
      | true =>
        simp only [hw] at h
        cases hc : (checkCardType T w1).1 with
        | UnknownCard =>
          simp only [hc, Option.some.injEq, Prod.mk.injEq] at h
          obtain ⟨-, rfl, -⟩ := h
          rfl
        | Classic =>
          simp only [hc, Option.some.injEq, Prod.mk.injEq] at h
          obtain ⟨-, rfl, -⟩ := h
          rfl
        | Ultralight =>
          simp only [hc] at h
          generalize getNtagTypeUL T fuel _ mode (checkCardType T w1).2 = G at h
          match G, h with
          | none, h => simp at h
          | some (ntag, w2), h =>
            simp only at h
            split at h <;>
            · simp only [Option.some.injEq, Prod.mk.injEq] at h
              obtain ⟨-, rfl, -⟩ := h
              rfl
  refine ⟨h1, ?_⟩
  rw [h1]
  cases mode <;> simp

/-- A `writeProtectCL` run that returns `true` has a target mode other than
`PRT_AUTO`, and that is the mode it stores. -/
theorem writeProtectCL_mode_ne_auto (fuel : Nat) (s : Session) (mode : ProtectMode)
    (key : Option AuthKey) (vaddr : Nat) (size : Int) (lastmode : ProtectMode) (w : World σ)
    (s' : Session) (w' : World σ)
    (h : writeProtectCL T fuel s mode key vaddr size lastmode w = some (true, s', w')) :
    mode ≠ PRT_AUTO := by
  rintro rfl
  simp only [writeProtectCL, accessBitsCL] at h
  split at h
  · simp at h
  split at h
  · simp at h
  cases hw : waitCard T 5000 fuel w with
  | none => simp [hw] at h
  | some p =>
    obtain ⟨b, w1⟩ := p
    cases b <;> simp [hw] at h

/-- Claim C16, evaluated at failing inputs: from the initial session,
`setNowProtectMode(PRT_AUTO)` stores `PRT_AUTO` as the active mode; and after
mounting an NTAG213, `writeProtect` with target `PRT_AUTO` succeeds and stores
`PRT_AUTO` as the active mode. -/
theorem lastProtectMode_auto_stored :
    (setNowProtectMode {} PRT_AUTO)._lastProtectMode = PRT_AUTO ∧
    (∃ s1 w1, mountCard cardReader 1 {} 0 PRT_AUTO ⟨ndefUL 0x12, []⟩ = some (true, s1, w1) ∧
      s1._lastProtectMode = PRT_NOPASS_RW ∧
      ∃ s2 w2, writeProtect cardReader 1 s1 PRT_AUTO none 0 0 PRT_AUTO w1
          = some (true, s2, w2) ∧
        s2._lastProtectMode = PRT_AUTO) :=
  ⟨rfl, _, _, rfl, by decide, _, _, rfl, by decide⟩

end StoredMode

/-! ## Protection writes are not bounds-checked -/

section ProtectBounds

/-- Claim C17, evaluated at failing inputs: on a mounted Classic card with the default
bounds (sectors 1 to 15, capacity 720) `writeProtect` at `vaddr = 720` with
`size = 48` returns `true` after authenticating and writing block 67, the trailer of
sector 16; and `writeProtect` at `vaddr = 0` with `size = 768`, a range that ends
past the capacity, is not rejected either: it returns `true` and has written the
trailer of sector 16 as well. -/
theorem writeProtect_past_capacity :
    (∃ s' w', writeProtect cardReader 1 sessionCL PRT_PASSWD_RW none 720 48 PRT_AUTO
        ⟨blankCL, []⟩ = some (true, s', w') ∧
      getVCapacities sessionCL = 720 ∧
      (addr2PhysicalAddr sessionCL 720 Classic).sector = 16 ∧
      sessionCL._maxSectorCL = 15 ∧
      Event.authenticate PICC_CMD_MF_AUTH_KEY_A 67 keyFF true ∈ w'.log ∧
      Event.write (16 * 4 + 3)
        (trailerBufferCL cardReader sessionCL PRT_PASSWD_RW none 0b011 0b011) true ∈ w'.log) ∧
    (∃ s' w', writeProtect cardReader 1 sessionCL PRT_PASSWD_RW none 0 768 PRT_AUTO
        ⟨blankCL, []⟩ = some (true, s', w') ∧
      0 + 768 > getVCapacities sessionCL ∧
      Event.write (16 * 4 + 3)
        (trailerBufferCL cardReader sessionCL PRT_PASSWD_RW none 0b011 0b011) true ∈ w'.log) :=
  ⟨⟨_, _, rfl, by decide, by decide, by decide, by decide, by decide⟩,
   ⟨_, _, rfl, by decide, by decide⟩⟩

end ProtectBounds

/-! ## Protection: the key that authenticates a trailer write -/

section TrailerKey
variable {σ : Type} (T : MFRC522 σ)

/-- The log of the sector loop of `writeProtectCL`: for the sectors in ascending
order an accepted authentication of the trailer block followed by an accepted write
of that block, then, if the loop aborts, the refused authentication or the accepted
authentication and the refused write.  Slot and key are B and `_authKeyB` if
`bfProt`, A and `_authKeyA` otherwise. -/
theorem protectLoopCL_shape (s : Session) (vaddr : Nat) (buffer : List Nat) (bfProt : Bool) :
    ∀ (fuel : Nat) (remain : Int) (index : Nat) (w : World σ), ∃ m tail,
      (protectLoopCL T s vaddr buffer bfProt fuel remain index w).2.log
        = w.log ++ (List.range' index m 48).flatMap (fun x =>
            [Event.authenticate (if bfProt then PICC_CMD_MF_AUTH_KEY_B else PICC_CMD_MF_AUTH_KEY_A)
                ((((addr2PhysicalAddr s ((vaddr + x) % 65536) Classic).sector * 4 + 3) % 65536) % 256)
                (if bfProt then s._authKeyB else s._authKeyA) true,
             Event.write
                ((((addr2PhysicalAddr s ((vaddr + x) % 65536) Classic).sector * 4 + 3) % 65536) % 256)
                buffer true]) ++ tail ∧
      (((protectLoopCL T s vaddr buffer bfProt fuel remain index w).1 = false ∧ tail = []) ∨
       ((protectLoopCL T s vaddr buffer bfProt fuel remain index w).1 = true ∧
        ∃ ok, tail = (Event.authenticate
                (if bfProt then PICC_CMD_MF_AUTH_KEY_B else PICC_CMD_MF_AUTH_KEY_A)
                ((((addr2PhysicalAddr s ((vaddr + (index + 48 * m)) % 65536) Classic).sector * 4
                  + 3) % 65536) % 256)
                (if bfProt then s._authKeyB else s._authKeyA) ok) ::
              (if ok then [Event.write
                ((((addr2PhysicalAddr s ((vaddr + (index + 48 * m)) % 65536) Classic).sector * 4
                  + 3) % 65536) % 256) buffer false] else []))) := by
  intro fuel
  induction fuel with
  | zero =>
    intro remain index w
    exact ⟨0, [], by simp [protectLoopCL], Or.inl ⟨by simp [protectLoopCL], rfl⟩⟩
  | succ n ih =>
    intro remain index w
    simp only [protectLoopCL]
    by_cases hr : remain > 0
    swap
    · simp only [if_neg hr]
      exact ⟨0, [], by simp, by simp⟩
    simp only [if_pos hr]
    generalize hc : (if bfProt = true then PICC_CMD_MF_AUTH_KEY_B
      else PICC_CMD_MF_AUTH_KEY_A) = c at ih ⊢
    generalize hk : (if bfProt = true then s._authKeyB else s._authKeyA) = k at ih ⊢
    cases ha : (callAuthenticate T c
        (((addr2PhysicalAddr s ((vaddr + index) % 65536) Classic).sector * 4 + 3) % 65536)
        k w).1 with
    | false =>
      have ha2 : (T.PCD_Authenticate c
        ((((addr2PhysicalAddr s ((vaddr + index) % 65536) Classic).sector * 4 + 3) % 65536) % 256)
        k w.dev).1 = false := ha
      refine ⟨0, _, ?_, Or.inr ⟨by simp, false, rfl⟩⟩
      simp only [Bool.false_eq_true, if_false, callAuthenticate_log, ha2, List.range'_zero,
        List.flatMap_nil, List.append_nil, Nat.mul_zero, Nat.add_zero]
    | true =>
      have ha2 : (T.PCD_Authenticate c
        ((((addr2PhysicalAddr s ((vaddr + index) % 65536) Classic).sector * 4 + 3) % 65536) % 256)
        k w.dev).1 = true := ha
      simp only [if_true]
      cases hb : (callWrite T
          (((addr2PhysicalAddr s ((vaddr + index) % 65536) Classic).sector * 4 + 3) % 65536)
          buffer (callAuthenticate T c
            (((addr2PhysicalAddr s ((vaddr + index) % 65536) Classic).sector * 4 + 3) % 65536)
            k w).2).1 with
      | false =>
        have hb2 : (T.MIFARE_Write
          ((((addr2PhysicalAddr s ((vaddr + index) % 65536) Classic).sector * 4 + 3) % 65536) % 256)
          buffer (callAuthenticate T c
            (((addr2PhysicalAddr s ((vaddr + index) % 65536) Classic).sector * 4 + 3) % 65536)
            k w).2.dev).1 = false := hb
        refine ⟨0, _, ?_, Or.inr ⟨by simp, true, rfl⟩⟩
        simp only [Bool.false_eq_true, if_false, if_true, callWrite_log, callAuthenticate_log,
          ha2, hb2, List.range'_zero, List.flatMap_nil, List.append_nil, Nat.mul_zero,
          Nat.add_zero, List.append_assoc, List.singleton_append]
      | true =>
        have hb2 : (T.MIFARE_Write
          ((((addr2PhysicalAddr s ((vaddr + index) % 65536) Classic).sector * 4 + 3) % 65536) % 256)
          buffer (callAuthenticate T c
            (((addr2PhysicalAddr s ((vaddr + index) % 65536) Classic).sector * 4 + 3) % 65536)
            k w).2.dev).1 = true := hb
        simp only [if_true]
        obtain ⟨m, tail, hlog, hres⟩ := ih (remain - 48) (index + 48) (callWrite T
          (((addr2PhysicalAddr s ((vaddr + index) % 65536) Classic).sector * 4 + 3) % 65536)
          buffer (callAuthenticate T c
            (((addr2PhysicalAddr s ((vaddr + index) % 65536) Classic).sector * 4 + 3) % 65536)
            k w).2).2
        refine ⟨m + 1, tail, ?_, ?_⟩
        · rw [hlog, callWrite_log, callAuthenticate_log, ha2, hb2, List.range'_succ,
            List.flatMap_cons]
          simp only [List.append_assoc, List.singleton_append, List.cons_append,
            List.nil_append]
        · rw [show index + 48 * (m + 1) = index + 48 + 48 * m by omega]
          exact hres

/-- In a list of pairs `[A x, W x]`, the pair of every member `x` stands together. -/
theorem pairs_adjacent {α : Type} (A W : α → Event) (l : List α) (x : α) (hx : x ∈ l) :
    ∃ l1 l2, l.flatMap (fun x => [A x, W x]) = l1 ++ [A x, W x] ++ l2 := by
  obtain ⟨u, v, rfl⟩ := List.append_of_mem hx
  exact ⟨u.flatMap (fun x => [A x, W x]), v.flatMap (fun x => [A x, W x]),
    by simp [List.flatMap_append, List.flatMap_cons]⟩

theorem isPoll_not_auth (e : Event) (h : e.isPoll = true) :
    (∀ c a k ok, e ≠ Event.authenticate c a k ok) ∧ (∀ a b ok, e ≠ Event.write a b ok) := by
  cases e <;> simp_all [Event.isPoll]

/-- The log of a `writeProtectCL` run: polling only, or polling, the pairs of the
sector loop with what an abort leaves behind, and one `PCD_StopCrypto1`; the run
returns `true` iff the loop did not abort. -/
theorem writeProtectCL_shape (fuel : Nat) (s : Session) (mode : ProtectMode)
    (key : Option AuthKey) (vaddr : Nat) (size : Int) (lastmode : ProtectMode) (w : World σ)
    (r : Bool) (s' : Session) (w' : World σ)
    (h : writeProtectCL T fuel s mode key vaddr size lastmode w = some (r, s', w'))
    (c : AuthCmd) (k : AuthKey)
    (hc : c = if (if lastmode = PRT_AUTO then s._lastProtectMode else lastmode) = PRT_PASSWD_RW ∨
        (if lastmode = PRT_AUTO then s._lastProtectMode else lastmode) = PRT_PASSWD_RO
      then PICC_CMD_MF_AUTH_KEY_B else PICC_CMD_MF_AUTH_KEY_A)
    (hk : k = if (if lastmode = PRT_AUTO then s._lastProtectMode else lastmode) = PRT_PASSWD_RW ∨
        (if lastmode = PRT_AUTO then s._lastProtectMode else lastmode) = PRT_PASSWD_RO
      then s._authKeyB else s._authKeyA) :
    ∃ l, (∀ e ∈ l, e.isPoll = true) ∧
      ((r = false ∧ w'.log = w.log ++ l) ∨
       ∃ m tail buffer, w'.log = w.log ++ l ++ (List.range' 0 m 48).flatMap (fun x =>
            [Event.authenticate c
                ((((addr2PhysicalAddr s ((vaddr + x) % 65536) Classic).sector * 4 + 3) % 65536) % 256)
                k true,
             Event.write
                ((((addr2PhysicalAddr s ((vaddr + x) % 65536) Classic).sector * 4 + 3) % 65536) % 256)
                buffer true]) ++ tail ++ [Event.stopCrypto1] ∧
        ((r = true ∧ tail = []) ∨
         (r = false ∧ ∃ ok, tail = (Event.authenticate c
                ((((addr2PhysicalAddr s ((vaddr + 48 * m) % 65536) Classic).sector * 4
                  + 3) % 65536) % 256) k ok) ::
              (if ok then [Event.write
                ((((addr2PhysicalAddr s ((vaddr + 48 * m) % 65536) Classic).sector * 4
                  + 3) % 65536) % 256) buffer false] else [])))) := by
  simp only [writeProtectCL] at h
  split at h
  · simp only [Option.some.injEq, Prod.mk.injEq] at h
    obtain ⟨rfl, rfl, rfl⟩ := h
    exact ⟨[], by simp, Or.inl ⟨rfl, by simp⟩⟩
  split at h
  · simp only [Option.some.injEq, Prod.mk.injEq] at h
    obtain ⟨rfl, rfl, rfl⟩ := h
    exact ⟨[], by simp, Or.inl ⟨rfl, by simp⟩⟩
  cases hw : waitCard T 5000 fuel w with
  | none => simp [hw] at h
  | some p =>
    obtain ⟨bw, w1⟩ := p
    obtain ⟨l, hl, hp⟩ := waitCard_suffix T _ _ _ _ _ hw
    refine ⟨l, hp, ?_⟩
    cases bw with
    | false =>
      simp only [hw, Option.some.injEq, Prod.mk.injEq] at h
      obtain ⟨rfl, rfl, rfl⟩ := h
      exact Or.inl ⟨rfl, hl⟩
    | true =>
      simp only [hw] at h
      cases hab : accessBitsCL mode with
      | none =>
        simp only [hab, Option.some.injEq, Prod.mk.injEq] at h
        obtain ⟨rfl, rfl, rfl⟩ := h
        exact Or.inl ⟨rfl, hl⟩
      | some ab =>
        obtain ⟨dataBit, accBit⟩ := ab
        simp only [hab] at h
        generalize hm : (if lastmode = PRT_AUTO then s._lastProtectMode else lastmode) = lm
          at h hc hk
        have hbf : (decide (lm = PRT_PASSWD_RW) || decide (lm = PRT_PASSWD_RO)) = true
            ↔ (lm = PRT_PASSWD_RW ∨ lm = PRT_PASSWD_RO) := by simp
        obtain ⟨m, tail, hlog, hres⟩ := protectLoopCL_shape T s vaddr
          (trailerBufferCL T s mode key dataBit accBit)
          (decide (lm = PRT_PASSWD_RW) || decide (lm = PRT_PASSWD_RO)) size.toNat size 0 w1
        have hc' : (if (decide (lm = PRT_PASSWD_RW) || decide (lm = PRT_PASSWD_RO)) = true
            then PICC_CMD_MF_AUTH_KEY_B else PICC_CMD_MF_AUTH_KEY_A) = c := by
          rw [hc]; simp only [hbf]
        have hk' : (if (decide (lm = PRT_PASSWD_RW) || decide (lm = PRT_PASSWD_RO)) = true
            then s._authKeyB else s._authKeyA) = k := by
          rw [hk]; simp only [hbf]
        rw [hc', hk'] at hlog hres
        simp only [Nat.zero_add] at hres
        generalize protectLoopCL T s vaddr (trailerBufferCL T s mode key dataBit accBit)
          (decide (lm = PRT_PASSWD_RW) || decide (lm = PRT_PASSWD_RO)) size.toNat size 0 w1 = L
          at h hlog hres
        refine Or.inr ⟨m, tail, trailerBufferCL T s mode key dataBit accBit, ?_, ?_⟩
        · cases hL1 : L.1 <;>
          · simp only [hL1, Bool.not_false, Bool.not_true, if_true, Bool.false_eq_true, if_false,
              Option.some.injEq, Prod.mk.injEq] at h
            obtain ⟨-, -, rfl⟩ := h
            rw [callStopCrypto1_log, hlog, hl]
        · cases hL1 : L.1
          · simp only [hL1, Bool.not_false, if_true, Option.some.injEq, Prod.mk.injEq] at h
            obtain ⟨rfl, -, -⟩ := h
            rcases hres with ⟨-, ht⟩ | ⟨hf, -⟩
            · exact Or.inl ⟨rfl, ht⟩
            · rw [hL1] at hf; cases hf
          · simp only [hL1, Bool.not_true, Bool.false_eq_true, if_false, Option.some.injEq,
              Prod.mk.injEq] at h
            obtain ⟨rfl, -, -⟩ := h
            rcases hres with ⟨hf, -⟩ | ⟨-, ht⟩
            · rw [hL1] at hf; cases hf
            · exact Or.inr ⟨rfl, ht⟩

/-- Claim C18: in every `writeProtect` run on a mounted Classic card, with the previous
mode resolved (`PRT_AUTO` replaced by the session's active mode), every block
authentication targets a trailer block `sector*4 + 3` (the reader receives its low
byte) and uses key slot B with the
session KeyB if the previous mode is PasswordReadWrite or PasswordReadOnly, and slot
A with KeyA otherwise; and every block write comes directly after an accepted
authentication of the same block with that slot and key.  Neither the target mode
nor the key being installed enters the choice. -/
theorem writeProtect_trailer_key (fuel : Nat) (s : Session) (mode : ProtectMode)
    (key : Option AuthKey) (vaddr : Nat) (size : Int) (lastmode : ProtectMode) (d : σ)
    (r : Bool) (s' : Session) (w' : World σ) (hs : isClassic s = true)
    (h : writeProtect T fuel s mode key vaddr size lastmode ⟨d, []⟩ = some (r, s', w'))
    (c : AuthCmd) (k : AuthKey)
    (hc : c = if (if lastmode = PRT_AUTO then s._lastProtectMode else lastmode) = PRT_PASSWD_RW ∨
        (if lastmode = PRT_AUTO then s._lastProtectMode else lastmode) = PRT_PASSWD_RO
      then PICC_CMD_MF_AUTH_KEY_B else PICC_CMD_MF_AUTH_KEY_A)
    (hk : k = if (if lastmode = PRT_AUTO then s._lastProtectMode else lastmode) = PRT_PASSWD_RW ∨
        (if lastmode = PRT_AUTO then s._lastProtectMode else lastmode) = PRT_PASSWD_RO
      then s._authKeyB else s._authKeyA) :
    (∀ c' a k' ok, Event.authenticate c' a k' ok ∈ w'.log →
      c' = c ∧ k' = k ∧
      ∃ x, a = ((addr2PhysicalAddr s ((vaddr + x) % 65536) Classic).sector * 4 + 3) % 65536
        % 256) ∧
    (∀ a b ok, Event.write a b ok ∈ w'.log →
      ∃ l1 l2, w'.log = l1 ++ [Event.authenticate c a k true, Event.write a b ok] ++ l2) := by
  obtain ⟨hm, hct⟩ := (isClassic_iff s).1 hs
  have h' : writeProtectCL T fuel s mode key vaddr size
      (if lastmode = PRT_AUTO then s._lastProtectMode else lastmode) ⟨d, []⟩
      = some (r, s', w') := by
    simpa [writeProtect, isMounted, hm, hct] using h
  obtain ⟨l, hp, hsh⟩ := writeProtectCL_shape T _ _ _ _ _ _ _ _ _ _ _ h' c k
    (by rw [resolve_idem]; exact hc) (by rw [resolve_idem]; exact hk)
  simp only [List.nil_append] at hsh
  rcases hsh with ⟨-, hlog⟩ | ⟨m, tail, buffer, hlog, hres⟩
  · rw [hlog]
    constructor
    · intro c' a k' ok hmem
      exact absurd rfl ((isPoll_not_auth _ (hp _ hmem)).1 c' a k' ok)
    · intro a b ok hmem
      exact absurd rfl ((isPoll_not_auth _ (hp _ hmem)).2 a b ok)
  have htail : tail = [] ∨ ∃ ok, tail = (Event.authenticate c
      ((((addr2PhysicalAddr s ((vaddr + 48 * m) % 65536) Classic).sector * 4 + 3) % 65536) % 256) k ok) ::
      (if ok then [Event.write
        ((((addr2PhysicalAddr s ((vaddr + 48 * m) % 65536) Classic).sector * 4 + 3) % 65536) % 256)
        buffer false] else []) := by
    rcases hres with ⟨-, ht⟩ | ⟨-, ht⟩
    · exact Or.inl ht
    · exact Or.inr ht
  rw [hlog]
  constructor
  · intro c' a k' ok hmem
    simp only [List.mem_append, List.mem_singleton, List.mem_flatMap, List.mem_cons,
      List.mem_nil_iff, or_false] at hmem
    rcases hmem with ((hmem | ⟨x, -, hmem | hmem⟩) | hmem) | hmem
    · exact absurd rfl ((isPoll_not_auth _ (hp _ hmem)).1 c' a k' ok)
    · simp only [Event.authenticate.injEq] at hmem
      exact ⟨hmem.1, hmem.2.2.1, x, hmem.2.1⟩
    · cases hmem
    · rcases htail with ht | ⟨ok', ht⟩
      · rw [ht] at hmem; cases hmem
      · rw [ht] at hmem
        simp only [List.mem_cons] at hmem
        rcases hmem with hmem | hmem
        · simp only [Event.authenticate.injEq] at hmem
          exact ⟨hmem.1, hmem.2.2.1, 48 * m, hmem.2.1⟩
        · cases ok' <;> simp at hmem
    · cases hmem
  · intro a b ok hmem
    simp only [List.mem_append, List.mem_singleton, List.mem_flatMap, List.mem_cons,
      List.mem_nil_iff, or_false] at hmem
    rcases hmem with ((hmem | ⟨x, hx, hmem | hmem⟩) | hmem) | hmem
    · exact absurd rfl ((isPoll_not_auth _ (hp _ hmem)).2 a b ok)
    · cases hmem
    · obtain ⟨l1, l2, hF⟩ := pairs_adjacent
        (fun x => Event.authenticate c
          ((((addr2PhysicalAddr s ((vaddr + x) % 65536) Classic).sector * 4 + 3) % 65536) % 256) k true)
        (fun x => Event.write
          ((((addr2PhysicalAddr s ((vaddr + x) % 65536) Classic).sector * 4 + 3) % 65536) % 256)
          buffer true) _ x hx
      simp only [Event.write.injEq] at hmem
      obtain ⟨rfl, rfl, rfl⟩ := hmem
      refine ⟨l ++ l1, l2 ++ tail ++ [Event.stopCrypto1], ?_⟩
      rw [hF]
      simp only [List.append_assoc]
    · rcases htail with ht | ⟨ok', ht⟩
      · rw [ht] at hmem; cases hmem
      · rw [ht] at hmem
        simp only [List.mem_cons] at hmem
        rcases hmem with hmem | hmem
        · cases hmem
        · cases ok'
          · simp at hmem
          · simp only [if_true, List.mem_singleton, Event.write.injEq] at hmem
            obtain ⟨rfl, rfl, rfl⟩ := hmem
            refine ⟨l ++ (List.range' 0 m 48).flatMap (fun x =>
              [Event.authenticate c
                ((((addr2PhysicalAddr s ((vaddr + x) % 65536) Classic).sector * 4 + 3) % 65536) % 256)
                k true,
               Event.write
                ((((addr2PhysicalAddr s ((vaddr + x) % 65536) Classic).sector * 4 + 3) % 65536) % 256)
                b true]), [Event.stopCrypto1], ?_⟩
            rw [ht]
            simp only [if_true, List.append_assoc, List.cons_append, List.nil_append,
              List.singleton_append]
    · cases hmem

/-- Witness of claim C18: with the active mode PasswordReadWrite, installing
OpenReadWrite on sector 1 of a Classic card authenticates the trailer block 7 with
slot B and the session KeyB. -/
theorem writeProtect_trailer_key_witness :
    isClassic { sessionCL with _lastProtectMode := PRT_PASSWD_RW } = true ∧
    ∃ s' w', writeProtect cardReader 1 { sessionCL with _lastProtectMode := PRT_PASSWD_RW }
        PRT_NOPASS_RW none 0 48 PRT_AUTO ⟨blankCL, []⟩ = some (true, s', w') ∧
      Event.authenticate PICC_CMD_MF_AUTH_KEY_B 7 keyFF true ∈ w'.log ∧
      (PICC_CMD_MF_AUTH_KEY_B = PICC_CMD_MF_AUTH_KEY_B ∧ keyFF = keyFF ∧
        ∃ x, 7 = ((addr2PhysicalAddr { sessionCL with _lastProtectMode := PRT_PASSWD_RW }
          ((0 + x) % 65536) Classic).sector * 4 + 3) % 65536 % 256) :=
  ⟨by decide, _, _, rfl, by decide,
    (writeProtect_trailer_key cardReader 1 { sessionCL with _lastProtectMode := PRT_PASSWD_RW }
      PRT_NOPASS_RW none 0 48 PRT_AUTO blankCL true _ _ (by decide) rfl
      PICC_CMD_MF_AUTH_KEY_B keyFF (by decide) (by decide)).1
      PICC_CMD_MF_AUTH_KEY_B 7 keyFF true (by decide)⟩

end TrailerKey

/-! ## The log of the data loops -/

section DataLoops
variable {σ : Type} (T : MFRC522 σ)

/-- The log of the block loop of `writeDataCL`, entered with `remain = E - index`: for
the units at `index`, `index + 16`, ... in ascending order an accepted
authentication of the block followed by an accepted write of the unit buffer; then,
if the loop aborts, the refused authentication or the accepted authentication and
the refused write.  The loop runs to its end (`fin false`) only after a write for
every unit below `E`. -/
theorem writeLoopCL_shape (s : Session) (vaddr : Nat) (data : List Nat) (protect : Bool)
    (E : Int) :
    ∀ (fuel : Nat) (remain : Int) (index : Nat) (w : World σ),
      remain = E - index → remain.toNat ≤ fuel → ∃ m tail,
      (writeLoopCL T s vaddr data protect fuel remain index w).2.log
        = w.log ++ (List.range' index m 16).flatMap (fun x =>
            [Event.authenticate
                (if protect then PICC_CMD_MF_AUTH_KEY_B else PICC_CMD_MF_AUTH_KEY_A)
                ((addr2PhysicalAddr s ((vaddr + x) % 65536) Classic).blockAddr % 256)
                (if protect then s._authKeyB else s._authKeyA) true,
             Event.write ((addr2PhysicalAddr s ((vaddr + x) % 65536) Classic).blockAddr % 256)
                (unitBuffer 16 data x (if E - x - 16 < 0 then (E - x).toNat else 16)) true])
          ++ tail ∧
      (((writeLoopCL T s vaddr data protect fuel remain index w).1 = LoopExit.fin false ∧
          tail = [] ∧ E - index ≤ 16 * m ∧ (m = 0 ∨ 16 * ((m : Int) - 1) < E - index)) ∨
       ((writeLoopCL T s vaddr data protect fuel remain index w).1 = LoopExit.ret false ∧
          tail = [] ∧ 16 * (m : Int) < E - index) ∨
       ((writeLoopCL T s vaddr data protect fuel remain index w).1 = LoopExit.fin true ∧
          16 * (m : Int) < E - index ∧
          ∃ ok, tail = (Event.authenticate
                (if protect then PICC_CMD_MF_AUTH_KEY_B else PICC_CMD_MF_AUTH_KEY_A)
                ((addr2PhysicalAddr s ((vaddr + (index + 16 * m)) % 65536) Classic).blockAddr % 256)
                (if protect then s._authKeyB else s._authKeyA) ok) ::
              (if ok then [Event.write
                ((addr2PhysicalAddr s ((vaddr + (index + 16 * m)) % 65536) Classic).blockAddr % 256)
                (unitBuffer 16 data (index + 16 * m)
                  (if E - (index + 16 * m : Nat) - 16 < 0 then (E - (index + 16 * m : Nat)).toNat
                   else 16)) false] else []))) := by
  intro fuel
  induction fuel with
  | zero =>
    intro remain index w hE hf
    exact ⟨0, [], by simp [writeLoopCL], Or.inl ⟨by simp [writeLoopCL], rfl, by omega, Or.inl rfl⟩⟩
  | succ n ih =>
    intro remain index w hE hf
    simp only [writeLoopCL]
    by_cases hr : remain > 0
    swap
    · simp only [if_neg hr]
      exact ⟨0, [], by simp, Or.inl ⟨trivial, rfl, by omega, Or.inl rfl⟩⟩
    simp only [if_pos hr]
    generalize hc : (if protect = true then PICC_CMD_MF_AUTH_KEY_B
      else PICC_CMD_MF_AUTH_KEY_A) = c at ih ⊢
    generalize hk : (if protect = true then s._authKeyB else s._authKeyA) = k at ih ⊢
    have hcp : (if remain - ((_writeLengthCL : Nat) : Int) < 0 then remain.toNat
        else _writeLengthCL) = (if E - index - 16 < 0 then (E - index).toNat else 16) := by
      simp only [_writeLengthCL, hE]; rfl
    rw [hcp]
    simp only [_writeLengthCL]
    generalize hcl : (if E - index - 16 < 0 then (E - index).toNat else 16) = cplen
    have hcl16 : cplen ≤ 16 ∧ 0 < cplen ∧ (cplen : Int) ≤ remain ∧
        (cplen < 16 → (cplen : Int) = remain) := by
      rw [← hcl]; split <;> omega
    split
    · exact ⟨0, [], by simp, Or.inr (Or.inl ⟨rfl, rfl, by omega⟩)⟩
    split
    · exact ⟨0, [], by simp, Or.inr (Or.inl ⟨rfl, rfl, by omega⟩)⟩
    split
    · exact ⟨0, [], by simp, Or.inr (Or.inl ⟨rfl, rfl, by omega⟩)⟩
    generalize hB : (addr2PhysicalAddr s ((vaddr + index) % 65536) Classic).blockAddr = blk
    cases ha : (callAuthenticate T c blk k w).1 with
    | false =>
      have ha2 : (T.PCD_Authenticate c (blk % 256) k w.dev).1 = false := ha
      refine ⟨0, _, ?_, Or.inr (Or.inr ⟨by simp, by omega, false, rfl⟩)⟩
      simp only [Bool.false_eq_true, if_false, callAuthenticate_log, ha2, List.range'_zero,
        List.flatMap_nil, List.append_nil, Nat.mul_zero, Nat.add_zero, hB]
    | true =>
      have ha2 : (T.PCD_Authenticate c (blk % 256) k w.dev).1 = true := ha
      simp only [if_true]
      cases hb : (callWrite T blk (unitBuffer 16 data index cplen)
          (callAuthenticate T c blk k w).2).1 with
      | false =>
        have hb2 : (T.MIFARE_Write (blk % 256) (unitBuffer 16 data index cplen)
          (callAuthenticate T c blk k w).2.dev).1 = false := hb
        refine ⟨0, _, ?_, Or.inr (Or.inr ⟨by simp, by omega, true, rfl⟩)⟩
        simp only [Bool.false_eq_true, if_false, if_true, callWrite_log, callAuthenticate_log,
          ha2, hb2, List.range'_zero, List.flatMap_nil, List.append_nil, Nat.mul_zero,
          Nat.add_zero, List.append_assoc, List.singleton_append, hB, Nat.cast_add, hcl,
          _writeLengthCL]
      | true =>
        have hb2 : (T.MIFARE_Write (blk % 256) (unitBuffer 16 data index cplen)
          (callAuthenticate T c blk k w).2.dev).1 = true := hb
        simp only [if_true]
        obtain ⟨m, tail, hlog, hres⟩ := ih (remain - cplen) (index + cplen)
          (callWrite T blk (unitBuffer 16 data index cplen)
            (callAuthenticate T c blk k w).2).2 (by omega) (by omega)
        by_cases h16 : cplen = 16
        · subst h16
          refine ⟨m + 1, tail, ?_, ?_⟩
          · rw [hlog, callWrite_log, callAuthenticate_log, ha2, hb2, List.range'_succ,
              List.flatMap_cons]
            simp only [List.append_assoc, List.singleton_append, List.cons_append,
              List.nil_append, hB, hcl, _writeLengthCL]
          · rw [show index + 16 * (m + 1) = index + 16 + 16 * m by omega]
            rcases hres with ⟨h1, h2, h3, h4⟩ | ⟨h1, h2, h3⟩ | ⟨h1, h3, h4⟩
            · exact Or.inl ⟨h1, h2, by omega, by omega⟩
            · exact Or.inr (Or.inl ⟨h1, h2, by omega⟩)
            · exact Or.inr (Or.inr ⟨h1, by omega, h4⟩)
        · have hrem : (cplen : Int) = remain := hcl16.2.2.2 (by omega)
          rcases hres with ⟨h1, h2, h3, h4⟩ | ⟨h1, h2, h3⟩ | ⟨h1, h3, h4⟩
          · have hm0 : m = 0 := by omega
            subst hm0
            refine ⟨1, [], ?_, Or.inl ⟨h1, rfl, by omega, by omega⟩⟩
            rw [hlog, h2, callWrite_log, callAuthenticate_log, ha2, hb2]
            simp only [List.range'_zero, List.flatMap_nil, List.append_nil, List.range'_succ,
              List.flatMap_cons, List.append_assoc, List.singleton_append, List.cons_append,
              List.nil_append, hB, hcl, _writeLengthCL]
          · omega
          · omega

/-- The log of the page loop of `writeDataUL`, entered with `remain = E - index`: an
accepted page write for the units at `index`, `index + 4`, ... in ascending order,
then the refused write if one is refused.  The loop runs to its end (`fin false`)
only after a write for every unit below `E`. -/
theorem writeLoopUL_shape (s : Session) (vaddr : Nat) (data : List Nat) (E : Int) :
    ∀ (fuel : Nat) (remain : Int) (index : Nat) (w : World σ),
      remain = E - index → remain.toNat ≤ fuel → ∃ m tail,
      (writeLoopUL T s vaddr data fuel remain index w).2.log
        = w.log ++ (List.range' index m 4).map (fun x =>
             Event.ulWrite (addr2PhysicalAddr s ((vaddr + x) % 65536) Ultralight).blockAddr
                (unitBuffer 4 data x (if E - x - 4 < 0 then (E - x).toNat else 4)) true)
          ++ tail ∧
      (((writeLoopUL T s vaddr data fuel remain index w).1 = LoopExit.fin false ∧
          tail = [] ∧ E - index ≤ 4 * m ∧ (m = 0 ∨ 4 * ((m : Int) - 1) < E - index)) ∨
       ((writeLoopUL T s vaddr data fuel remain index w).1 = LoopExit.ret false ∧
          4 * (m : Int) < E - index ∧
          (tail = [] ∨ tail = [Event.ulWrite
                (addr2PhysicalAddr s ((vaddr + (index + 4 * m)) % 65536) Ultralight).blockAddr
                (unitBuffer 4 data (index + 4 * m)
                  (if E - (index + 4 * m : Nat) - 4 < 0 then (E - (index + 4 * m : Nat)).toNat
                   else 4)) false]))) := by
  intro fuel
  induction fuel with
  | zero =>
    intro remain index w hE hf
    exact ⟨0, [], by simp [writeLoopUL], Or.inl ⟨by simp [writeLoopUL], rfl, by omega, Or.inl rfl⟩⟩
  | succ n ih =>
    intro remain index w hE hf
    simp only [writeLoopUL]
    by_cases hr : remain > 0
    swap
    · simp only [if_neg hr]
      exact ⟨0, [], by simp, Or.inl ⟨trivial, rfl, by omega, Or.inl rfl⟩⟩
    simp only [if_pos hr]
    have hcp : (if remain - ((_writeLengthUL : Nat) : Int) < 0 then remain.toNat
        else _writeLengthUL) = (if E - index - 4 < 0 then (E - index).toNat else 4) := by
      simp only [_writeLengthUL, hE]; rfl
    rw [hcp]
    simp only [_writeLengthUL]
    generalize hcl : (if E - index - 4 < 0 then (E - index).toNat else 4) = cplen
    have hcl4 : cplen ≤ 4 ∧ 0 < cplen ∧ (cplen : Int) ≤ remain ∧
        (cplen < 4 → (cplen : Int) = remain) := by
      rw [← hcl]; split <;> omega
    split
    · exact ⟨0, [], by simp, Or.inr ⟨rfl, by omega, Or.inl rfl⟩⟩
    split
    · exact ⟨0, [], by simp, Or.inr ⟨rfl, by omega, Or.inl rfl⟩⟩
    have hbyte := ultralight_blockAddr_byte s ((vaddr + index) % 65536)
    generalize hB : (addr2PhysicalAddr s ((vaddr + index) % 65536) Ultralight).blockAddr = blk
      at hbyte
    have hlogB := callUlWrite_log T blk (unitBuffer 4 data index cplen) w
    rw [hbyte] at hlogB
    cases hb : (callUlWrite T blk (unitBuffer 4 data index cplen) w).1 with
    | false =>
      have hb2 : (T.MIFARE_Ultralight_Write blk (unitBuffer 4 data index cplen) w.dev).1
          = false := by rw [← hbyte]; exact hb
      refine ⟨0, _, ?_, Or.inr ⟨by simp, by omega, Or.inr rfl⟩⟩
      simp only [Bool.false_eq_true, if_false, hlogB, hb2, List.range'_zero,
        List.map_nil, List.append_nil, Nat.mul_zero, Nat.add_zero, hB, hcl]
    | true =>
      have hb2 : (T.MIFARE_Ultralight_Write blk (unitBuffer 4 data index cplen) w.dev).1
          = true := by rw [← hbyte]; exact hb
      simp only [if_true]
      obtain ⟨m, tail, hlog, hres⟩ := ih (remain - cplen) (index + cplen)
        (callUlWrite T blk (unitBuffer 4 data index cplen) w).2 (by omega) (by omega)
      by_cases h4 : cplen = 4
      · subst h4
        refine ⟨m + 1, tail, ?_, ?_⟩
        · rw [hlog, hlogB, hb2, List.range'_succ, List.map_cons]
          simp only [List.append_assoc, List.singleton_append, List.cons_append,
            List.nil_append, hB, hcl]
        · rw [show index + 4 * (m + 1) = index + 4 + 4 * m by omega]
          rcases hres with ⟨h1, h2, h3, h4⟩ | ⟨h1, h3, h4⟩
          · exact Or.inl ⟨h1, h2, by omega, by omega⟩
          · exact Or.inr ⟨h1, by omega, h4⟩
      · have hrem : (cplen : Int) = remain := hcl4.2.2.2 (by omega)
        rcases hres with ⟨h1, h2, h3, h4⟩ | ⟨h1, h3, h4⟩
        · have hm0 : m = 0 := by omega
          subst hm0
          refine ⟨1, [], ?_, Or.inl ⟨h1, rfl, by omega, by omega⟩⟩
          rw [hlog, h2, hlogB, hb2]
          simp only [List.range'_zero, List.map_nil, List.append_nil, List.range'_succ,
            List.map_cons, List.append_assoc, List.singleton_append, List.cons_append,
            List.nil_append, hB, hcl]
        · omega

/-- The log of the block loop of `readDataCL`: for each unit an accepted
authentication of the block followed by a successful read of it, then, if the loop
aborts, the refused authentication or the accepted authentication and the failed
read.  The flag returned is `true` iff the loop aborted. -/
theorem readLoopCL_shape (s : Session) (vaddr : Nat) (protect : Bool) :
    ∀ (fuel : Nat) (remain : Int) (index : Nat) (data : List Nat) (w : World σ),
      ∃ (us : List (Nat × List Nat)) (tail : List Event),
      (readLoopCL T s vaddr protect fuel remain index data w).2.2.log
        = w.log ++ us.flatMap (fun u =>
            [Event.authenticate
                (if protect then PICC_CMD_MF_AUTH_KEY_B else PICC_CMD_MF_AUTH_KEY_A) u.1
                (if protect then s._authKeyB else s._authKeyA) true,
             Event.read u.1 (some u.2)])
          ++ tail ∧
      (((readLoopCL T s vaddr protect fuel remain index data w).1 = false ∧ tail = []) ∨
       ((readLoopCL T s vaddr protect fuel remain index data w).1 = true ∧
          ∃ a ok, tail = (Event.authenticate
                (if protect then PICC_CMD_MF_AUTH_KEY_B else PICC_CMD_MF_AUTH_KEY_A) a
                (if protect then s._authKeyB else s._authKeyA) ok) ::
              (if ok then [Event.read a none] else []))) := by
  intro fuel
  induction fuel with
  | zero =>
    intro remain index data w
    exact ⟨[], [], by simp [readLoopCL], Or.inl ⟨by simp [readLoopCL], rfl⟩⟩
  | succ n ih =>
    intro remain index data w
    simp only [readLoopCL]
    by_cases hr : remain > 0
    swap
    · simp only [if_neg hr]
      exact ⟨[], [], by simp, Or.inl ⟨trivial, rfl⟩⟩
    simp only [if_pos hr]
    generalize hc : (if protect = true then PICC_CMD_MF_AUTH_KEY_B
      else PICC_CMD_MF_AUTH_KEY_A) = c at ih ⊢
    generalize hk : (if protect = true then s._authKeyB else s._authKeyA) = k at ih ⊢
    generalize hB : (addr2PhysicalAddr s ((vaddr + index) % 65536) Classic).blockAddr = blk
    cases ha : (callAuthenticate T c blk k w).1 with
    | false =>
      have ha2 : (T.PCD_Authenticate c (blk % 256) k w.dev).1 = false := ha
      refine ⟨[], _, ?_, Or.inr ⟨by simp, blk % 256, false, rfl⟩⟩
      simp only [Bool.false_eq_true, if_false, callAuthenticate_log, ha2,
        List.flatMap_nil, List.append_nil]
    | true =>
      have ha2 : (T.PCD_Authenticate c (blk % 256) k w.dev).1 = true := ha
      simp only [if_true]
      cases hb : (callRead T blk (callAuthenticate T c blk k w).2).1 with
      | none =>
        have hb2 : (T.MIFARE_Read (blk % 256) (callAuthenticate T c blk k w).2.dev).1 = none := hb
        refine ⟨[], _, ?_, Or.inr ⟨by simp, blk % 256, true, rfl⟩⟩
        simp only [if_true, callRead_log, callAuthenticate_log, ha2, hb2,
          List.flatMap_nil, List.append_nil, List.append_assoc, List.singleton_append]
      | some buffer =>
        have hb2 : (T.MIFARE_Read (blk % 256) (callAuthenticate T c blk k w).2.dev).1 = some buffer := hb
        simp only
        obtain ⟨us, tail, hlog, hres⟩ := ih
          (remain - ((if remain - (_readLength : Nat) < 0 then remain.toNat else _readLength : Nat) : Int))
          (index + (if remain - (_readLength : Nat) < 0 then remain.toNat else _readLength))
          (memcpy data index buffer
            (if remain - (_readLength : Nat) < 0 then remain.toNat else _readLength))
          (callRead T blk (callAuthenticate T c blk k w).2).2
        refine ⟨(blk % 256, buffer) :: us, tail, ?_, hres⟩
        rw [hlog, callRead_log, callAuthenticate_log, ha2, hb2, List.flatMap_cons]
        simp only [List.append_assoc, List.singleton_append, List.cons_append,
          List.nil_append]

end DataLoops

/-! ## The log of a data operation -/

section DataOps
variable {σ : Type} (T : MFRC522 σ)

/-- The log of a `writeDataCL` run: polling only and the result `false`; or polling
and the pairs of the block loop, followed by `PCD_StopCrypto1` if the loop ran to its
end (the result is `true`) or aborted on a refusal, and by nothing if a unit failed
the range check. -/
theorem writeDataCL_shape (fuel : Nat) (s : Session) (vaddr : Nat) (data : List Nat)
    (mode : ProtectMode) (w : World σ) (r : Bool) (w' : World σ)
    (h : writeDataCL T fuel s vaddr data mode w = some (r, w'))
    (c : AuthCmd) (k : AuthKey)
    (hc : c = if (if mode = PRT_AUTO then s._lastProtectMode else mode) = PRT_PASSWD_RW ∨
        (if mode = PRT_AUTO then s._lastProtectMode else mode) = PRT_PASSWD_RO
      then PICC_CMD_MF_AUTH_KEY_B else PICC_CMD_MF_AUTH_KEY_A)
    (hk : k = if (if mode = PRT_AUTO then s._lastProtectMode else mode) = PRT_PASSWD_RW ∨
        (if mode = PRT_AUTO then s._lastProtectMode else mode) = PRT_PASSWD_RO
      then s._authKeyB else s._authKeyA) :
    ∃ lp, (∀ e ∈ lp, e.isPoll = true) ∧
      ((r = false ∧ w'.log = w.log ++ lp) ∨
       ∃ m tail stop, w'.log = w.log ++ lp ++ (List.range' 0 m 16).flatMap (fun x =>
            [Event.authenticate c ((addr2PhysicalAddr s ((vaddr + x) % 65536) Classic).blockAddr % 256)
                k true,
             Event.write ((addr2PhysicalAddr s ((vaddr + x) % 65536) Classic).blockAddr % 256)
                (unitBuffer 16 data x
                  (if toInt32 data.length - x - 16 < 0 then (toInt32 data.length - x).toNat
                   else 16)) true])
          ++ tail ++ stop ∧
        ((r = true ∧ tail = [] ∧ stop = [Event.stopCrypto1] ∧
            toInt32 data.length ≤ 16 * m ∧ (m = 0 ∨ 16 * ((m : Int) - 1) < toInt32 data.length)) ∨
         (r = false ∧ tail = [] ∧ stop = [] ∧ 16 * (m : Int) < toInt32 data.length) ∨
         (r = false ∧ stop = [Event.stopCrypto1] ∧ 16 * (m : Int) < toInt32 data.length ∧
            ∃ ok, tail = (Event.authenticate c
                ((addr2PhysicalAddr s ((vaddr + 16 * m) % 65536) Classic).blockAddr % 256) k ok) ::
              (if ok then [Event.write
                ((addr2PhysicalAddr s ((vaddr + 16 * m) % 65536) Classic).blockAddr % 256)
                (unitBuffer 16 data (16 * m)
                  (if toInt32 data.length - (16 * m : Nat) - 16 < 0
                   then (toInt32 data.length - (16 * m : Nat)).toNat else 16)) false]
               else [])))) := by
  simp only [writeDataCL] at h
  split at h
  · simp only [Option.some.injEq, Prod.mk.injEq] at h
    obtain ⟨rfl, rfl⟩ := h
    exact ⟨[], by simp, Or.inl ⟨rfl, by simp⟩⟩
  split at h
  · simp only [Option.some.injEq, Prod.mk.injEq] at h
    obtain ⟨rfl, rfl⟩ := h
    exact ⟨[], by simp, Or.inl ⟨rfl, by simp⟩⟩
  cases hw : waitCard T 5000 fuel w with
  | none => simp [hw] at h
  | some p =>
    obtain ⟨bw, w1⟩ := p
    obtain ⟨lp, hl, hp⟩ := waitCard_suffix T _ _ _ _ _ hw
    refine ⟨lp, hp, ?_⟩
    cases bw with
    | false =>
      simp only [hw, Option.some.injEq, Prod.mk.injEq] at h
      obtain ⟨rfl, rfl⟩ := h
      exact Or.inl ⟨rfl, hl⟩
    | true =>
      simp only [hw] at h
      generalize hm : (if mode = PRT_AUTO then s._lastProtectMode else mode) = lm at h hc hk
      have hbf : (decide (lm = PRT_PASSWD_RW) || decide (lm = PRT_PASSWD_RO)) = true
          ↔ (lm = PRT_PASSWD_RW ∨ lm = PRT_PASSWD_RO) := by simp
      obtain ⟨m, tail, hlog, hres⟩ := writeLoopCL_shape T s vaddr data
        (decide (lm = PRT_PASSWD_RW) || decide (lm = PRT_PASSWD_RO)) (toInt32 data.length)
        (toInt32 data.length).toNat (toInt32 data.length) 0 w1 (by simp) (le_refl _)
      have hc' : (if (decide (lm = PRT_PASSWD_RW) || decide (lm = PRT_PASSWD_RO)) = true
          then PICC_CMD_MF_AUTH_KEY_B else PICC_CMD_MF_AUTH_KEY_A) = c := by
        rw [hc]; simp only [hbf]
      have hk' : (if (decide (lm = PRT_PASSWD_RW) || decide (lm = PRT_PASSWD_RO)) = true
          then s._authKeyB else s._authKeyA) = k := by
        rw [hk]; simp only [hbf]
      rw [hc', hk'] at hlog hres
      simp only [Nat.zero_add, Nat.cast_zero, sub_zero] at hres
      generalize writeLoopCL T s vaddr data
        (decide (lm = PRT_PASSWD_RW) || decide (lm = PRT_PASSWD_RO)) (toInt32 data.length).toNat
        (toInt32 data.length) 0 w1 = L at h hlog hres
      obtain ⟨ex, w2⟩ := L
      simp only at hlog hres
      rw [hl] at hlog
      rcases hres with ⟨h1, h2, h3, h4⟩ | ⟨h1, h2, h3⟩ | ⟨h1, h3, h4⟩
      · subst h1
        simp only [Bool.false_eq_true, if_false, Option.some.injEq, Prod.mk.injEq] at h
        obtain ⟨rfl, rfl⟩ := h
        refine Or.inr ⟨m, tail, [Event.stopCrypto1], ?_, Or.inl ⟨rfl, h2, rfl, h3, h4⟩⟩
        rw [callStopCrypto1_log, hlog]
      · subst h1
        simp only [Option.some.injEq, Prod.mk.injEq] at h
        obtain ⟨rfl, rfl⟩ := h
        refine Or.inr ⟨m, tail, [], ?_, Or.inr (Or.inl ⟨rfl, h2, rfl, h3⟩)⟩
        rw [hlog, List.append_nil]
      · subst h1
        simp only [if_true, Option.some.injEq, Prod.mk.injEq] at h
        obtain ⟨rfl, rfl⟩ := h
        refine Or.inr ⟨m, tail, [Event.stopCrypto1], ?_, Or.inr (Or.inr ⟨rfl, rfl, h3, h4⟩)⟩
        rw [callStopCrypto1_log, hlog]

/-- The log of a `writeDataUL` run.  Either the run ends before the password
challenge, with polling only and the result `false`; or `waitCard` finds the tag and
the optional challenge follows: if it fails the run ends there with `false`, if it
passes the page loop follows, and the result is `true` iff the loop ran to its
end. -/
theorem writeDataUL_shape (fuel : Nat) (s : Session) (vaddr : Nat) (data : List Nat)
    (mode : ProtectMode) (w : World σ) (r : Bool) (w' : World σ)
    (h : writeDataUL T fuel s vaddr data mode w = some (r, w')) :
    (r = false ∧ ∃ lp, w'.log = w.log ++ lp ∧ (∀ e ∈ lp, e.isPoll = true) ∧
      (isUltralight s = false ∨ vaddr % 4 ≠ 0 ∨
        ∃ w1, waitCard T 5000 fuel w = some (false, w1))) ∨
    (∃ w1 lp, waitCard T 5000 fuel w = some (true, w1) ∧ w1.log = w.log ++ lp ∧
      (∀ e ∈ lp, e.isPoll = true) ∧
      (((if (if mode = PRT_AUTO then s._lastProtectMode else mode) = PRT_PASSWD_RW ∨
            (if mode = PRT_AUTO then s._lastProtectMode else mode) = PRT_PASSWD_RO
          then authUL T s true w1 else (true, w1)).1 = false ∧ r = false ∧
        w'.log = (if (if mode = PRT_AUTO then s._lastProtectMode else mode) = PRT_PASSWD_RW ∨
            (if mode = PRT_AUTO then s._lastProtectMode else mode) = PRT_PASSWD_RO
          then authUL T s true w1 else (true, w1)).2.log) ∨
       ((if (if mode = PRT_AUTO then s._lastProtectMode else mode) = PRT_PASSWD_RW ∨
            (if mode = PRT_AUTO then s._lastProtectMode else mode) = PRT_PASSWD_RO
          then authUL T s true w1 else (true, w1)).1 = true ∧
        ∃ m tail, w'.log
          = (if (if mode = PRT_AUTO then s._lastProtectMode else mode) = PRT_PASSWD_RW ∨
              (if mode = PRT_AUTO then s._lastProtectMode else mode) = PRT_PASSWD_RO
            then authUL T s true w1 else (true, w1)).2.log
            ++ (List.range' 0 m 4).map (fun x =>
              Event.ulWrite (addr2PhysicalAddr s ((vaddr + x) % 65536) Ultralight).blockAddr
                (unitBuffer 4 data x
                  (if toInt32 data.length - x - 4 < 0 then (toInt32 data.length - x).toNat
                   else 4)) true)
            ++ tail ∧
          ((r = true ∧ tail = [] ∧ toInt32 data.length ≤ 4 * m ∧
              (m = 0 ∨ 4 * ((m : Int) - 1) < toInt32 data.length)) ∨
           (r = false ∧ 4 * (m : Int) < toInt32 data.length ∧
              (tail = [] ∨ tail = [Event.ulWrite
                (addr2PhysicalAddr s ((vaddr + 4 * m) % 65536) Ultralight).blockAddr
                (unitBuffer 4 data (4 * m)
                  (if toInt32 data.length - (4 * m : Nat) - 4 < 0
                   then (toInt32 data.length - (4 * m : Nat)).toNat else 4)) false])))))) := by
  simp only [writeDataUL] at h
  split at h
  · rename_i hu
    simp only [Option.some.injEq, Prod.mk.injEq] at h
    obtain ⟨rfl, rfl⟩ := h
    exact Or.inl ⟨rfl, [], by simp, by simp, Or.inl (by simpa using hu)⟩
  split at h
  · rename_i hv
    simp only [Option.some.injEq, Prod.mk.injEq] at h
    obtain ⟨rfl, rfl⟩ := h
    exact Or.inl ⟨rfl, [], by simp, by simp, Or.inr (Or.inl (by simpa [_writeLengthUL] using hv))⟩
  cases hw : waitCard T 5000 fuel w with
  | none => simp [hw] at h
  | some p =>
    obtain ⟨bw, w1⟩ := p
    obtain ⟨lp, hl, hp⟩ := waitCard_suffix T _ _ _ _ _ hw
    cases bw with
    | false =>
      simp only [hw, Option.some.injEq, Prod.mk.injEq] at h
      obtain ⟨rfl, rfl⟩ := h
      exact Or.inl ⟨rfl, lp, hl, hp, Or.inr (Or.inr ⟨_, rfl⟩)⟩
    | true =>
      simp only [hw] at h
      refine Or.inr ⟨w1, lp, rfl, hl, hp, ?_⟩
      generalize (if (if mode = PRT_AUTO then s._lastProtectMode else mode) = PRT_PASSWD_RW ∨
            (if mode = PRT_AUTO then s._lastProtectMode else mode) = PRT_PASSWD_RO
          then authUL T s true w1 else (true, w1)) = A at h ⊢
      cases hA : A.1 with
      | false =>
        simp only [hA, Bool.not_false, if_true, Option.some.injEq, Prod.mk.injEq] at h
        obtain ⟨rfl, rfl⟩ := h
        exact Or.inl ⟨rfl, rfl, rfl⟩
      | true =>
        simp only [hA, Bool.not_true, Bool.false_eq_true, if_false] at h
        refine Or.inr ⟨rfl, ?_⟩
        obtain ⟨m, tail, hlog, hres⟩ := writeLoopUL_shape T s vaddr data (toInt32 data.length)
          (toInt32 data.length).toNat (toInt32 data.length) 0 A.2 (by simp) (le_refl _)
        simp only [Nat.zero_add, Nat.cast_zero, sub_zero] at hres
        generalize writeLoopUL T s vaddr data (toInt32 data.length).toNat
          (toInt32 data.length) 0 A.2 = L at h hlog hres
        obtain ⟨ex, w2⟩ := L
        simp only at hlog hres
        refine ⟨m, tail, ?_⟩
        rcases hres with ⟨h1, h2, h3, h4⟩ | ⟨h1, h3, h4⟩
        · subst h1
          simp only [Option.some.injEq, Prod.mk.injEq] at h
          obtain ⟨rfl, rfl⟩ := h
          exact ⟨hlog, Or.inl ⟨rfl, h2, h3, h4⟩⟩
        · subst h1
          simp only [Option.some.injEq, Prod.mk.injEq] at h
          obtain ⟨rfl, rfl⟩ := h
          exact ⟨hlog, Or.inr ⟨rfl, h3, h4⟩⟩

/-- The unit buffer of the write loops is the zero-padded unit of the specification. -/
theorem unitBuffer_eq_padded (u : Nat) (data : List Nat) (k c : Nat)
    (hc : c = min (data.length - k * u) u) :
    unitBuffer u data (k * u) c = paddedUnitSpec u data k := by
  have hlen : ((data.drop (k * u)).take u).length = c := by
    simp only [List.length_take, List.length_drop]; omega
  apply List.ext_getElem
  · simp only [unitBuffer_length, paddedUnitSpec, List.length_append, List.length_replicate, hlen]
    omega
  · intro i h1 h2
    have h1' : i < u := by rwa [unitBuffer_length] at h1
    have e1 : (unitBuffer u data (k * u) c)[i]
        = if i < c then data.getD (k * u + i) 0 else 0 := by
      simp [unitBuffer]
    rw [e1]
    simp only [paddedUnitSpec]
    by_cases hi : i < c
    · rw [if_pos hi, List.getElem_append_left (by rw [hlen]; exact hi)]
      simp only [List.getElem_take, List.getElem_drop]
      rw [List.getD_eq_getElem?_getD, List.getElem?_eq_getElem (by omega)]
      rfl
    · rw [if_neg hi, List.getElem_append_right (by rw [hlen]; omega)]
      simp

theorem range'_step (m u : Nat) :
    List.range' 0 m u = (List.range m).map (fun k => k * u) := by
  induction m with
  | zero => rfl
  | succ n ih =>
    rw [List.range'_concat, List.range_succ, List.map_append, ih]
    simp [Nat.mul_comm]

/-- Of a list of pairs `[A x, W x]` in which only `W x` is a unit write, the unit writes
are the `W x`. -/
theorem filter_pairs {α : Type} (A W : α → Event) (l : List α)
    (hA : ∀ x, (A x).isUnitWrite = false) (hW : ∀ x, (W x).isUnitWrite = true) :
    (l.flatMap (fun x => [A x, W x])).filter Event.isUnitWrite = l.map W := by
  induction l with
  | nil => rfl
  | cons x xs ih =>
    simp only [List.flatMap_cons, List.filter_append, ih, List.map_cons]
    simp [List.filter, hA, hW]

theorem isPoll_not_isUnitWrite (e : Event) (h : e.isPoll = true) : e.isUnitWrite = false := by
  cases e <;> simp_all [Event.isPoll, Event.isUnitWrite]

theorem isChallenge_not_isUnitWrite (e : Event) (h : e.isChallenge = true) :
    e.isUnitWrite = false := by
  cases e <;> simp_all [Event.isChallenge, Event.isUnitWrite]

/-- A block address whose sector is at most 63 is a byte. -/
theorem classic_blockAddr_byte_of_sector (s : Session) (v : Nat) (hv : v < 65536)
    (h : (addr2PhysicalAddr s v Classic).sector ≤ 63) :
    (addr2PhysicalAddr s v Classic).blockAddr % 256 = (addr2PhysicalAddr s v Classic).blockAddr := by
  rw [addr2PhysicalAddr_classic s v hv] at h ⊢
  simp only at h ⊢
  have hb3 : v % 48 / 16 < 3 := by omega
  have h254 : (v / 48 + s._minSectorCL) % 65536 * 4 + v % 48 / 16 ≤ 254 := by omega
  rw [Nat.mod_eq_of_lt (Nat.lt_of_le_of_lt h254 (by norm_num)),
    Nat.mod_eq_of_lt (Nat.lt_of_le_of_lt h254 (by norm_num))]

/-- A block loop of `writeDataCL` that is left neither by `return false` nor by an abort
has found every unit below `E` inside the configured sectors. -/
theorem writeLoopCL_units_in_range (s : Session) (vaddr : Nat) (data : List Nat)
    (protect : Bool) (E : Int) :
    ∀ (fuel : Nat) (remain : Int) (index : Nat) (w : World σ),
      remain = E - index → remain.toNat ≤ fuel →
      (writeLoopCL T s vaddr data protect fuel remain index w).1 ≠ LoopExit.ret false →
      (writeLoopCL T s vaddr data protect fuel remain index w).1 ≠ LoopExit.fin true →
      ∀ x, index ≤ x → (x : Int) < E → (x - index) % 16 = 0 →
        (addr2PhysicalAddr s ((vaddr + x) % 65536) Classic).sector ≤ s._maxSectorCL := by
  intro fuel
  induction fuel with
  | zero =>
    intro remain index w hE hf _ _ x hx1 hx2 _
    omega
  | succ n ih =>
    intro remain index w hE hf h h' x hx1 hx2 hx3
    simp only [writeLoopCL] at h h'
    by_cases hr : remain > 0
    swap
    · omega
    simp only [if_pos hr] at h h'
    generalize (if protect = true then PICC_CMD_MF_AUTH_KEY_B
      else PICC_CMD_MF_AUTH_KEY_A) = c at h h'
    generalize (if protect = true then s._authKeyB else s._authKeyA) = k at h h'
    generalize hcl : (if remain - ((_writeLengthCL : Nat) : Int) < 0 then remain.toNat
      else _writeLengthCL) = cplen at h h'
    have hcl16 : cplen ≤ 16 ∧ 0 < cplen ∧ (cplen : Int) ≤ remain ∧
        (cplen < 16 → (cplen : Int) = remain) := by
      rw [← hcl]; simp only [_writeLengthCL]; split <;> omega
    by_cases h1 : (addr2PhysicalAddr s ((vaddr + index) % 65536) Classic).sector > s._maxSectorCL
    · simp only [if_pos h1] at h
      exact absurd rfl h
    simp only [if_neg h1] at h h'
    by_cases h2 : (addr2PhysicalAddr s ((vaddr + index) % 65536) Classic).sector < s._minSectorCL
    · simp only [if_pos h2] at h
      exact absurd rfl h
    simp only [if_neg h2] at h h'
    by_cases h3 : (addr2PhysicalAddr s ((vaddr + index) % 65536) Classic).block ≥ 3
    · simp only [if_pos h3] at h
      exact absurd rfl h
    simp only [if_neg h3] at h h'
    by_cases ha : (callAuthenticate T c
      (addr2PhysicalAddr s ((vaddr + index) % 65536) Classic).blockAddr k w).1 = true
    · simp only [if_pos ha] at h h'
      by_cases hb : (callWrite T
        (addr2PhysicalAddr s ((vaddr + index) % 65536) Classic).blockAddr
        (unitBuffer _writeLengthCL data index cplen) (callAuthenticate T c
          (addr2PhysicalAddr s ((vaddr + index) % 65536) Classic).blockAddr k w).2).1 = true
      · simp only [if_pos hb] at h h'
        by_cases hx : x = index
        · subst hx; omega
        · have hx16 : index + 16 ≤ x := by omega
          have hc16 : cplen = 16 := by
            by_contra hne
            have := hcl16.2.2.2 (by omega)
            omega
          subst hc16
          exact ih _ _ _ (by omega) (by omega) h h' x (by omega) hx2 (by omega)
      · simp only [if_neg hb] at h'
        exact absurd rfl h'
    · simp only [if_neg ha] at h'
      exact absurd rfl h'

/-- A `writeDataCL` that returns `true` has found every unit of a buffer shorter than
`2^31` bytes inside the configured sectors. -/
theorem writeDataCL_true_in_range (fuel : Nat) (s : Session) (vaddr : Nat) (data : List Nat)
    (mode : ProtectMode) (w w' : World σ)
    (h : writeDataCL T fuel s vaddr data mode w = some (true, w'))
    (hL : data.length < 2147483648) (k : Nat) (hk : k * 16 < data.length) :
    (addr2PhysicalAddr s ((vaddr + k * 16) % 65536) Classic).sector ≤ s._maxSectorCL := by
  have hE : toInt32 data.length = (data.length : Int) := toInt32_small _ hL
  simp only [writeDataCL] at h
  split at h
  · simp at h
  split at h
  · simp at h
  cases hw : waitCard T 5000 fuel w with
  | none => simp [hw] at h
  | some p =>
    obtain ⟨bw, w1⟩ := p
    cases bw with
    | false => simp [hw] at h
    | true =>
      simp only [hw] at h
      generalize (decide ((if mode = PRT_AUTO then s._lastProtectMode else mode) = PRT_PASSWD_RW)
        || decide ((if mode = PRT_AUTO then s._lastProtectMode else mode) = PRT_PASSWD_RO))
        = protect at h
      have hrange := writeLoopCL_units_in_range T s vaddr data protect (toInt32 data.length)
        (toInt32 data.length).toNat (toInt32 data.length) 0 w1 (by simp) (le_refl _)
      generalize writeLoopCL T s vaddr data protect (toInt32 data.length).toNat
        (toInt32 data.length) 0 w1 = L at h hrange
      obtain ⟨ex, w2⟩ := L
      cases ex with
      | ret v =>
        simp only [Option.some.injEq, Prod.mk.injEq] at h
        obtain ⟨rfl, -⟩ := h
        exact hrange (by simp) (by simp) (k * 16) (Nat.zero_le _) (by rw [hE]; omega) (by omega)
      | fin abort =>
        cases abort with
        | true => simp at h
        | false =>
          exact hrange (by simp) (by simp) (k * 16) (Nat.zero_le _) (by rw [hE]; omega)
            (by omega)

/-- Claim C19: a write reported as success has written every unit, zero-padded, for
every reader and every buffer shorter than `2^31` bytes (any buffer the 32-bit target
can hold).  If `writeData` returns `true`, the unit writes in the log are exactly, in
ascending order of `k < ceil(L/u)`, one accepted write per unit: on a Classic card a
`MIFARE_Write` to the block of `vaddr + 16 k`, on an Ultralight tag a
`MIFARE_Ultralight_Write` to the page of `vaddr + 4 k`, each carrying
`data[k*u .. min(L, (k+1)*u))` followed by zero bytes up to `u` bytes
(`paddedUnitSpec`); no other unit write is in the log.  The address in the log is
the byte the reader receives: the page of `addr2PhysicalAddr` on Ultralight, the low
byte of its block address on Classic, which is the block address itself when the
sectors in use are at most 63. -/
theorem writeData_true_writes (fuel : Nat) (s : Session) (vaddr : Nat) (data : List Nat)
    (mode : ProtectMode) (d : σ) (w' : World σ)
    (h : writeData T fuel s vaddr data mode ⟨d, []⟩ = some (true, w'))
    (hL : data.length < 2147483648) :
    (s._cardType = Classic →
      w'.log.filter Event.isUnitWrite = (List.range ((data.length + 15) / 16)).map (fun k =>
        Event.write ((addr2PhysicalAddr s ((vaddr + k * 16) % 65536) Classic).blockAddr % 256)
          (paddedUnitSpec 16 data k) true) ∧
      (s._maxSectorCL ≤ 63 →
        w'.log.filter Event.isUnitWrite = (List.range ((data.length + 15) / 16)).map (fun k =>
          Event.write (addr2PhysicalAddr s ((vaddr + k * 16) % 65536) Classic).blockAddr
            (paddedUnitSpec 16 data k) true))) ∧
    (s._cardType = Ultralight →
      w'.log.filter Event.isUnitWrite = (List.range ((data.length + 3) / 4)).map (fun k =>
        Event.ulWrite (addr2PhysicalAddr s ((vaddr + k * 4) % 65536) Ultralight).blockAddr
          (paddedUnitSpec 4 data k) true)) := by
  have hE : toInt32 data.length = (data.length : Int) := toInt32_small _ hL
  have hmnt : s._mounted = true := by
    cases hm : s._mounted
    · simp [writeData, isMounted, hm] at h
    · rfl
  constructor
  · intro hct
    have hcl : isClassic s = true := (isClassic_iff s).2 ⟨hmnt, hct⟩
    rw [writeData_classic T _ _ _ _ _ _ hcl] at h
    have hfirst : w'.log.filter Event.isUnitWrite
        = (List.range ((data.length + 15) / 16)).map (fun k =>
          Event.write ((addr2PhysicalAddr s ((vaddr + k * 16) % 65536) Classic).blockAddr % 256)
            (paddedUnitSpec 16 data k) true) := by
      obtain ⟨c, hc⟩ : ∃ c : AuthCmd, c = _ := ⟨_, rfl⟩
      obtain ⟨k, hk⟩ : ∃ k : AuthKey, k = _ := ⟨_, rfl⟩
      obtain ⟨lp, hp, hsh⟩ := writeDataCL_shape T _ _ _ _ _ _ _ _ h c k hc hk
      clear hc hk
      rcases hsh with ⟨hr, -⟩ | ⟨m, tail, stop, hlog, hres⟩
      · cases hr
      rcases hres with ⟨-, ht, hst, h3, h4⟩ | ⟨hr, -⟩ | ⟨hr, -⟩
      swap
      · cases hr
      swap
      · cases hr
      rw [hE] at h3 h4 hlog
      have hm : m = (data.length + 15) / 16 := by omega
      subst ht hst
      rw [hlog]
      simp only [List.nil_append, List.append_nil, List.filter_append,
        filter_nil_of_forall (fun e he => isPoll_not_isUnitWrite e (hp e he))]
      rw [filter_pairs (fun x => Event.authenticate c
          ((addr2PhysicalAddr s ((vaddr + x) % 65536) Classic).blockAddr % 256) k true)
        (fun x => Event.write
          ((addr2PhysicalAddr s ((vaddr + x) % 65536) Classic).blockAddr % 256)
          (unitBuffer 16 data x
            (if (data.length : Int) - x - 16 < 0 then ((data.length : Int) - x).toNat else 16))
          true) _ (fun _ => rfl) (fun _ => rfl), range'_step, List.map_map, ← hm]
      simp only [List.filter, Event.isUnitWrite, List.append_nil]
      apply List.map_congr_left
      intro k hk
      rw [List.mem_range] at hk
      simp only [Function.comp]
      congr 1
      apply unitBuffer_eq_padded
      split <;> omega
    refine ⟨hfirst, fun hB => ?_⟩
    rw [hfirst]
    apply List.map_congr_left
    intro k hk
    rw [List.mem_range] at hk
    have hsec := writeDataCL_true_in_range T _ _ _ _ _ _ _ h hL k (by omega)
    rw [classic_blockAddr_byte_of_sector s _ (Nat.mod_lt _ (by norm_num)) (by omega)]
  · intro hct
    have hul : isUltralight s = true := (isUltralight_iff s).2 ⟨hmnt, hct⟩
    rw [writeData_ultralight T _ _ _ _ _ _ hul] at h
    rcases writeDataUL_shape T _ _ _ _ _ _ _ _ h with
      ⟨hr, -⟩ | ⟨w1, lp, hw, hl1, hp, ⟨-, hr, -⟩ | ⟨-, m, tail, hlog, hres⟩⟩
    · cases hr
    · cases hr
    rcases hres with ⟨-, ht, h3, h4⟩ | ⟨hr, -⟩
    swap
    · cases hr
    rw [hE] at h3 h4 hlog
    have hm : m = (data.length + 3) / 4 := by omega
    subst ht
    obtain ⟨lc, hlc, hpc⟩ := authGate_suffix T s
      (if (if mode = PRT_AUTO then s._lastProtectMode else mode) = PRT_AUTO
        then s._lastProtectMode else (if mode = PRT_AUTO then s._lastProtectMode else mode)) w1
    rw [hlog, hlc, hl1]
    simp only [List.nil_append, List.append_nil, List.filter_append,
      filter_nil_of_forall (fun e he => isPoll_not_isUnitWrite e (hp e he)),
      filter_nil_of_forall (fun e he => isChallenge_not_isUnitWrite e (hpc e he))]
    rw [filter_self_of_forall (by
      intro e he
      simp only [List.mem_map] at he
      obtain ⟨x, -, rfl⟩ := he
      rfl), range'_step, List.map_map, ← hm]
    apply List.map_congr_left
    intro k hk
    rw [List.mem_range] at hk
    simp only [Function.comp]
    congr 1
    apply unitBuffer_eq_padded
    split <;> omega

/-- Witness of claim C19: 20 bytes at `vaddr = 32` on a blank Classic card are written
as block 6 (the bytes 0 to 15) and block 8 (the bytes 16 to 19 and twelve zeros);
6 bytes at `vaddr = 4` on a blank NTAG213 as page 6 and page 7 (two bytes and two
zeros). -/
theorem writeData_true_writes_witness :
    (∃ w', writeData cardReader 1 sessionCL 32 (List.range 20) PRT_AUTO ⟨blankCL, []⟩
        = some (true, w') ∧
      w'.log.filter Event.isUnitWrite
        = [Event.write 6 [0, 1, 2, 3, 4, 5, 6, 7, 8, 9, 10, 11, 12, 13, 14, 15] true,
           Event.write 8 [16, 17, 18, 19, 0, 0, 0, 0, 0, 0, 0, 0, 0, 0, 0, 0] true]) ∧
    (∃ w', writeData cardReader 1 (sessionUL NT_NTAG213) 4 [1, 2, 3, 4, 5, 6] PRT_AUTO
        ⟨blankUL, []⟩ = some (true, w') ∧
      w'.log.filter Event.isUnitWrite
        = [Event.ulWrite 6 [1, 2, 3, 4] true, Event.ulWrite 7 [5, 6, 0, 0] true]) :=
  ⟨⟨_, rfl,
    (((writeData_true_writes cardReader 1 sessionCL 32 (List.range 20) PRT_AUTO blankCL _ rfl
      (by decide)).1 rfl).2 (by decide)).trans (by decide)⟩,
   ⟨_, rfl,
    ((writeData_true_writes cardReader 1 (sessionUL NT_NTAG213) 4 [1, 2, 3, 4, 5, 6] PRT_AUTO
      blankUL _ rfl (by decide)).2 rfl).trans (by decide)⟩⟩

end DataOps

/-! ## Key selection of the data operations -/

section KeySelection
variable {σ : Type} (T : MFRC522 σ)

theorem unitAddr_isTransfer (e : Event) (a : Nat) (h : e.unitAddr = some a) :
    e.isTransfer = true := by
  cases e <;> simp_all [Event.unitAddr, Event.isTransfer]

theorem isChallenge_not_isTransfer (e : Event) (h : e.isChallenge = true) :
    e.isTransfer = false := by
  cases e <;> simp_all [Event.isChallenge, Event.isTransfer]

theorem readData_dispatch_classic (fuel : Nat) (s : Session) (vaddr : Nat) (data : List Nat)
    (mode : ProtectMode) (w : World σ) (hc : isClassic s = true) :
    readData T fuel s vaddr data mode w = readDataCL T fuel s vaddr data
      (if mode = PRT_AUTO then s._lastProtectMode else mode) w := by
  obtain ⟨h1, h2⟩ := (isClassic_iff s).1 hc
  simp [readData, isMounted, h1, h2]

end KeySelection

/-! ## Teardown of the crypto session on a Classic card -/

section Teardown
variable {σ : Type} (T : MFRC522 σ)

theorem isPoll_ne_stopCrypto1 (e : Event) (h : e.isPoll = true) : e ≠ Event.stopCrypto1 := by
  cases e <;> simp_all [Event.isPoll]

/-- A log made of polling, pairs and what an abort leaves behind, none of them
`PCD_StopCrypto1`, does not hold `PCD_StopCrypto1`. -/
theorem no_stop_in_pairs {α : Type} (A W : α → Event) (hA : ∀ x, A x ≠ Event.stopCrypto1)
    (hW : ∀ x, W x ≠ Event.stopCrypto1) (l0 lp : List Event)
    (h0 : Event.stopCrypto1 ∉ l0) (hp : ∀ e ∈ lp, e.isPoll = true)
    (l : List α) (tail : List Event) (ht : ∀ e ∈ tail, e ≠ Event.stopCrypto1) :
    Event.stopCrypto1 ∉ l0 ++ lp ++ l.flatMap (fun x => [A x, W x]) ++ tail := by
  simp only [List.mem_append, List.mem_flatMap, List.mem_cons, List.mem_nil_iff, or_false,
    not_or, not_exists, not_and]
  refine ⟨⟨⟨h0, fun hm => isPoll_ne_stopCrypto1 _ (hp _ hm) rfl⟩, ?_⟩, fun hm => ht _ hm rfl⟩
  intro x _
  exact ⟨fun h => hA x h.symm, fun h => hW x h.symm⟩

/-- The block loop of `writeDataCL` is left by `return false` only at a unit that fails
the range check. -/
theorem writeLoopCL_ret (s : Session) (vaddr : Nat) (data : List Nat) (protect : Bool) :
    ∀ (fuel : Nat) (remain : Int) (index : Nat) (w : World σ) (v : Bool),
      (writeLoopCL T s vaddr data protect fuel remain index w).1 = LoopExit.ret v →
      v = false ∧ ∃ x,
        (addr2PhysicalAddr s ((vaddr + x) % 65536) Classic).sector > s._maxSectorCL ∨
        (addr2PhysicalAddr s ((vaddr + x) % 65536) Classic).sector < s._minSectorCL ∨
        (addr2PhysicalAddr s ((vaddr + x) % 65536) Classic).block ≥ 3 := by
  intro fuel
  induction fuel with
  | zero => intro remain index w v h; simp [writeLoopCL] at h
  | succ n ih =>
    intro remain index w v h
    simp only [writeLoopCL] at h
    by_cases hr : remain > 0
    swap
    · simp only [if_neg hr] at h
      cases h
    simp only [if_pos hr] at h
    generalize (if protect = true then PICC_CMD_MF_AUTH_KEY_B
      else PICC_CMD_MF_AUTH_KEY_A) = c at h
    generalize (if protect = true then s._authKeyB else s._authKeyA) = k at h
    generalize (if remain - ((_writeLengthCL : Nat) : Int) < 0 then remain.toNat
      else _writeLengthCL) = cplen at h
    by_cases h1 : (addr2PhysicalAddr s ((vaddr + index) % 65536) Classic).sector > s._maxSectorCL
    · simp only [if_pos h1, LoopExit.ret.injEq] at h
      exact ⟨h.symm, index, Or.inl h1⟩
    simp only [if_neg h1] at h
    by_cases h2 : (addr2PhysicalAddr s ((vaddr + index) % 65536) Classic).sector < s._minSectorCL
    · simp only [if_pos h2, LoopExit.ret.injEq] at h
      exact ⟨h.symm, index, Or.inr (Or.inl h2)⟩
    simp only [if_neg h2] at h
    by_cases h3 : (addr2PhysicalAddr s ((vaddr + index) % 65536) Classic).block ≥ 3
    · simp only [if_pos h3, LoopExit.ret.injEq] at h
      exact ⟨h.symm, index, Or.inr (Or.inr h3)⟩
    simp only [if_neg h3] at h
    by_cases ha : (callAuthenticate T c
      (addr2PhysicalAddr s ((vaddr + index) % 65536) Classic).blockAddr k w).1 = true
    · simp only [if_pos ha] at h
      by_cases hb : (callWrite T
        (addr2PhysicalAddr s ((vaddr + index) % 65536) Classic).blockAddr
        (unitBuffer _writeLengthCL data index cplen) (callAuthenticate T c
          (addr2PhysicalAddr s ((vaddr + index) % 65536) Classic).blockAddr k w).2).1 = true
      · simp only [if_pos hb] at h
        exact ih _ _ _ _ h
      · simp only [if_neg hb] at h
        cases h
    · simp only [if_neg ha] at h
      cases h

/-- For every reader: a `readData` call on a mounted Classic card that passes its
initial checks (aligned `vaddr`, tag present) returns, and its log ends with the one
`PCD_StopCrypto1` of the call, whatever the result. -/
theorem readData_teardown (fuel : Nat) (s : Session) (vaddr : Nat) (data : List Nat)
    (mode : ProtectMode) (d : σ) (w1 : World σ) (hs : isClassic s = true)
    (hv : vaddr % 16 = 0) (hw : waitCard T 5000 fuel ⟨d, []⟩ = some (true, w1)) :
    ∃ r out w' pre, readData T fuel s vaddr data mode ⟨d, []⟩ = some (r, out, w') ∧
      w'.log = pre ++ [Event.stopCrypto1] ∧ Event.stopCrypto1 ∉ pre := by
  rw [readData_dispatch_classic T _ _ _ _ _ _ hs]
  have hs' : (!isClassic s) = false := by simp [hs]
  simp only [readDataCL, hs', Bool.false_eq_true, if_false, _writeLengthCL, hv, ne_eq,
    not_true_eq_false, hw]
  obtain ⟨lp, hl, hp⟩ := waitCard_suffix T _ _ _ _ _ hw
  generalize (decide ((if (if mode = PRT_AUTO then s._lastProtectMode else mode) = PRT_AUTO
      then s._lastProtectMode else if mode = PRT_AUTO then s._lastProtectMode else mode)
        = PRT_PASSWD_RW) ||
    decide ((if (if mode = PRT_AUTO then s._lastProtectMode else mode) = PRT_AUTO
      then s._lastProtectMode else if mode = PRT_AUTO then s._lastProtectMode else mode)
        = PRT_PASSWD_RO)) = protect
  obtain ⟨us, tail, hlog, hres⟩ := readLoopCL_shape T s vaddr protect
    (toInt32 data.length).toNat (toInt32 data.length) 0 data w1
  generalize readLoopCL T s vaddr protect (toInt32 data.length).toNat
    (toInt32 data.length) 0 data w1 = L at hlog hres ⊢
  refine ⟨!L.1, L.2.1, callStopCrypto1 T L.2.2, L.2.2.log, ?_, callStopCrypto1_log T _, ?_⟩
  · cases L.1 <;> rfl
  · rw [hlog, hl]
    refine no_stop_in_pairs _ _ (fun _ h => by cases h) (fun _ h => by cases h) [] lp
      (by simp) hp us tail ?_
    rcases hres with ⟨-, ht⟩ | ⟨-, a, ok, ht⟩
    · rw [ht]; simp
    · rw [ht]
      intro e he
      cases ok <;> simp at he <;> rcases he with rfl | rfl <;> simp

/-- For every reader: a `writeProtect` call on a mounted Classic card that passes its
initial checks (sector-aligned `vaddr`, tag present, a target mode other than
`PRT_AUTO`) returns, and its log ends with the one `PCD_StopCrypto1` of the call,
whatever the result. -/
theorem writeProtect_teardown (fuel : Nat) (s : Session) (mode : ProtectMode)
    (key : Option AuthKey) (vaddr : Nat) (size : Int) (lastmode : ProtectMode) (d : σ)
    (w1 : World σ) (hs : isClassic s = true) (hv : vaddr % 48 = 0)
    (hw : waitCard T 5000 fuel ⟨d, []⟩ = some (true, w1)) (hmode : mode ≠ PRT_AUTO) :
    ∃ r s' w' pre, writeProtect T fuel s mode key vaddr size lastmode ⟨d, []⟩
        = some (r, s', w') ∧
      w'.log = pre ++ [Event.stopCrypto1] ∧ Event.stopCrypto1 ∉ pre := by
  obtain ⟨hm, hct⟩ := (isClassic_iff s).1 hs
  have hs' : (!isClassic s) = false := by simp [hs]
  obtain ⟨ab, hab⟩ : ∃ ab, accessBitsCL mode = some ab := by
    cases mode
    · exact absurd rfl hmode
    all_goals exact ⟨_, rfl⟩
  obtain ⟨dataBit, accBit⟩ := ab
  have hd : writeProtect T fuel s mode key vaddr size lastmode ⟨d, []⟩
      = writeProtectCL T fuel s mode key vaddr size
          (if lastmode = PRT_AUTO then s._lastProtectMode else lastmode) ⟨d, []⟩ := by
    simp [writeProtect, isMounted, hm, hct]
  rw [hd]
  simp only [writeProtectCL, hs', Bool.false_eq_true, if_false, hv, ne_eq, not_true_eq_false,
    hw, hab]
  obtain ⟨lp, hl, hp⟩ := waitCard_suffix T _ _ _ _ _ hw
  generalize (decide ((if (if lastmode = PRT_AUTO then s._lastProtectMode else lastmode)
        = PRT_AUTO then s._lastProtectMode
      else if lastmode = PRT_AUTO then s._lastProtectMode else lastmode) = PRT_PASSWD_RW) ||
    decide ((if (if lastmode = PRT_AUTO then s._lastProtectMode else lastmode) = PRT_AUTO
      then s._lastProtectMode
      else if lastmode = PRT_AUTO then s._lastProtectMode else lastmode) = PRT_PASSWD_RO))
    = bfProt
  obtain ⟨m, tail, hlog, hres⟩ := protectLoopCL_shape T s vaddr
    (trailerBufferCL T s mode key dataBit accBit) bfProt size.toNat size 0 w1
  generalize protectLoopCL T s vaddr (trailerBufferCL T s mode key dataBit accBit) bfProt
    size.toNat size 0 w1 = L at hlog hres ⊢
  refine ⟨!L.1, if !L.1 then { s with _lastProtectMode := mode } else s,
    callStopCrypto1 T L.2, L.2.log, ?_, callStopCrypto1_log T _, ?_⟩
  · cases L.1 <;> rfl
  · rw [hlog, hl]
    refine no_stop_in_pairs _ _ (fun _ h => by cases h) (fun _ h => by cases h) [] lp
      (by simp) hp _ tail ?_
    rcases hres with ⟨-, ht⟩ | ⟨-, ok, ht⟩
    · rw [ht]; simp
    · rw [ht]
      intro e he
      cases ok <;> simp at he <;> rcases he with rfl | rfl <;> simp

/-- For every reader: a `writeData` call on a mounted Classic card that passes its
initial checks (aligned `vaddr`, tag present) returns.  Its log ends with the one
`PCD_StopCrypto1` of the call, unless a unit fails the range check: then the call
returns `false` from inside the loop and the log holds no `PCD_StopCrypto1`. -/
theorem writeData_teardown (fuel : Nat) (s : Session) (vaddr : Nat) (data : List Nat)
    (mode : ProtectMode) (d : σ) (w1 : World σ) (hs : isClassic s = true)
    (hv : vaddr % 16 = 0) (hw : waitCard T 5000 fuel ⟨d, []⟩ = some (true, w1)) :
    ∃ r w', writeData T fuel s vaddr data mode ⟨d, []⟩ = some (r, w') ∧
      ((∃ pre, w'.log = pre ++ [Event.stopCrypto1] ∧ Event.stopCrypto1 ∉ pre) ∨
       (r = false ∧ Event.stopCrypto1 ∉ w'.log ∧ ∃ x,
          (addr2PhysicalAddr s ((vaddr + x) % 65536) Classic).sector > s._maxSectorCL ∨
          (addr2PhysicalAddr s ((vaddr + x) % 65536) Classic).sector < s._minSectorCL ∨
          (addr2PhysicalAddr s ((vaddr + x) % 65536) Classic).block ≥ 3)) := by
  rw [writeData_classic T _ _ _ _ _ _ hs]
  have hs' : (!isClassic s) = false := by simp [hs]
  simp only [writeDataCL, hs', Bool.false_eq_true, if_false, _writeLengthCL, hv, ne_eq,
    not_true_eq_false, hw]
  obtain ⟨lp, hl, hp⟩ := waitCard_suffix T _ _ _ _ _ hw
  generalize (decide ((if (if mode = PRT_AUTO then s._lastProtectMode else mode) = PRT_AUTO
      then s._lastProtectMode else if mode = PRT_AUTO then s._lastProtectMode else mode)
        = PRT_PASSWD_RW) ||
    decide ((if (if mode = PRT_AUTO then s._lastProtectMode else mode) = PRT_AUTO
      then s._lastProtectMode else if mode = PRT_AUTO then s._lastProtectMode else mode)
        = PRT_PASSWD_RO)) = protect
  obtain ⟨m, tail, hlog, hres⟩ := writeLoopCL_shape T s vaddr data protect
    (toInt32 data.length) (toInt32 data.length).toNat (toInt32 data.length) 0 w1
    (by simp) (le_refl _)
  have hret := writeLoopCL_ret T s vaddr data protect (toInt32 data.length).toNat
    (toInt32 data.length) 0 w1
  generalize writeLoopCL T s vaddr data protect (toInt32 data.length).toNat
    (toInt32 data.length) 0 w1 = L at hlog hres hret ⊢
  obtain ⟨ex, w2⟩ := L
  simp only at hlog hres hret
  have hnostop : Event.stopCrypto1 ∉ w2.log := by
    rw [hlog, hl]
    refine no_stop_in_pairs _ _ (fun _ h => by cases h) (fun _ h => by cases h) [] lp
      (by simp) hp _ tail ?_
    rcases hres with ⟨-, ht, -⟩ | ⟨-, ht, -⟩ | ⟨-, -, ok, ht⟩
    · rw [ht]; simp
    · rw [ht]; simp
    · rw [ht]
      intro e he
      cases ok <;> simp at he <;> rcases he with rfl | rfl <;> simp
  cases ex with
  | ret v =>
    obtain ⟨rfl, x, hx⟩ := hret v rfl
    exact ⟨false, w2, rfl, Or.inr ⟨rfl, hnostop, x, hx⟩⟩
  | fin abort =>
    refine ⟨!abort, callStopCrypto1 T w2, ?_, Or.inl ⟨w2.log, callStopCrypto1_log T _, hnostop⟩⟩
    cases abort <;> rfl

/-- Claim C21, evaluated at the failing input: on a mounted Classic card with the
default bounds (sectors 1 to 15, capacity 720) `writeData` of 32 bytes at
`vaddr = 704` passes the initial checks, authenticates block 62 (sector 15, block 2)
with KeyA and writes the first unit, then finds the second unit in sector 16, past
`_maxSectorCL`, and returns `false` from inside the loop: the log ends with the write
of block 62 and holds no `PCD_StopCrypto1`. -/
theorem writeData_range_failure_skips_teardown :
    ∃ w', writeData cardReader 1 sessionCL 704 (List.replicate 32 0xAA) PRT_AUTO
        ⟨blankCL, []⟩ = some (false, w') ∧
      w'.log = [Event.isNewCardPresent true, Event.readCardSerial true,
        Event.authenticate PICC_CMD_MF_AUTH_KEY_A 62 keyFF true,
        Event.write 62 (List.replicate 16 0xAA) true] ∧
      Event.stopCrypto1 ∉ w'.log ∧
      isClassic sessionCL = true ∧ 704 % 16 = 0 ∧
      (addr2PhysicalAddr sessionCL 704 Classic).sector = 15 ∧
      (addr2PhysicalAddr sessionCL (704 + 16) Classic).sector = 16 ∧
      sessionCL._maxSectorCL = 15 :=
  ⟨_, rfl, rfl, by decide, by decide, by decide, by decide, by decide, by decide⟩

end Teardown

end NfcEasyWriter
